import Mathlib

/-!
# The chat hub of simple-go-api

A shallow embedding of `websocket/hub.go`, `websocket/client.go` and
`models/chat.go`, and theorems about the hub event loop.

Conventions of the embedding.

* A Go `*Client` is a `Client` value; its `ptr` field stands for the address, so
  that two connections of the same user are two different clients.
* The state of every `client.send` channel lives in the hub state (`Hub.send`),
  since channels are shared mutable objects.
* `encoding/json`, the SQL database and the clock are outside the repository:
  `json.Marshal` is a parameter `marshal`, the answer of a query or of an insert
  and the readings of the clock are inputs of the function that asks for them.
* `log.Printf` has no effect on the state and is left out.
-/

namespace ChatHub

/-! ## models/chat.go -/

/-- A Go `[]byte`: the list of its byte values. -/
abbrev Payload := List Nat

/-- A Go `error` value. -/
abbrev Error := String

/-- A `time.Time` reading. -/
abbrev Time := Nat

/-- The struct `models.ChatMessage`. -/
structure ChatMessage where
  ID : Int
  UserID : Int
  Username : String
  Message : String
  CreatedAt : Time
deriving DecidableEq

/-- The values this program stores in the `interface{}` field `WebSocketMessage.Data`:
nothing (join, leave), one `ChatMessage` (chat), a slice of them (history). -/
inductive Data where
  | null
  | chatMessage (m : ChatMessage)
  | chatMessages (ms : List ChatMessage)
deriving DecidableEq

/-- The struct `models.WebSocketMessage`; `Type_` is its field `Type`. -/
structure WebSocketMessage where
  Type_ : String
  Data : Data
  UserID : Int
  Message : String
deriving DecidableEq

def MessageTypeChat : String := "chat"
def MessageTypeJoin : String := "join"
def MessageTypeLeave : String := "leave"
def MessageTypeError : String := "error"
def MessageTypeHistory : String := "history"

/-- The type of `json.Marshal` restricted to `WebSocketMessage`. -/
abbrev Marshal := WebSocketMessage → Except Error Payload

/-! ## websocket/client.go: the client and its `send` channel -/

/-- The struct `websocket.Client` without its `hub`, `conn` and `send` handles. -/
structure Client where
  ptr : Nat
  UserID : Int
  Username : String
deriving DecidableEq

/-- Capacity of `client.send`: `make(chan []byte, 256)` in `ServeWS`. -/
def sendCap : Nat := 256

/-- State of a buffered channel of `[]byte`: pending values, oldest first, and whether
`close` has been called. -/
structure Chan where
  buf : List Payload
  closed : Bool
deriving DecidableEq

/-- The channel `ServeWS` creates for a new client: open and empty. -/
def Chan.fresh : Chan := { buf := [], closed := false }

/-- Outcome of `select { case ch <- v: default: }`. -/
inductive SendResult where
  | sent (ch : Chan)
  | full
  | panic
deriving DecidableEq

/-- Non-blocking send: a closed channel panics, a channel with room takes the value at its
end, a full channel selects `default`. -/
def Chan.trySend (ch : Chan) (v : Payload) : SendResult :=
  if ch.closed then .panic
  else if ch.buf.length < sendCap then .sent { ch with buf := ch.buf ++ [v] }
  else .full

/-- The builtin `close(ch)`: `none` is the panic of closing a closed channel. -/
def Chan.close (ch : Chan) : Option Chan :=
  if ch.closed then none else some { ch with closed := true }

/-- One receive `<-ch` by the outbound pump when a value is pending: the oldest value leaves. -/
def Chan.recv (ch : Chan) : Chan := { ch with buf := ch.buf.tail }

/-! ## websocket/hub.go -/

/-- Where the goroutine running `Hub.Run` stands between two events.
`select`: at the `select` of line 31. `sendBroadcast data`: inside `broadcastMessage`, at
`h.broadcast <- data` (line 81). `panicked`: a channel operation panicked. -/
inductive Pc where
  | select
  | sendBroadcast (data : Payload)
  | panicked
deriving DecidableEq

/-- The struct `websocket.Hub` as the event loop sees it: the keys of `clients`, the state of
every client's `send` channel, and the position of the loop. -/
structure Hub where
  clients : List Client
  send : Client → Chan
  pc : Pc

/-- `NewHub()` followed by `go hub.Run()`: no member, the loop at its `select`; a client that
does not exist yet is given the channel state it will be created with. -/
def NewHub : Hub := { clients := [], send := fun _ => Chan.fresh, pc := .select }

/-- The map write `h.clients[client] = true`. -/
def insertClient (clients : List Client) (client : Client) : List Client :=
  if client ∈ clients then clients else clients ++ [client]

/-- The map delete `delete(h.clients, client)`. -/
def deleteClient (clients : List Client) (client : Client) : List Client :=
  clients.filter (fun c => decide (c ≠ client))

/-- Replace the state of one client's channel. -/
def setChan (send : Client → Chan) (client : Client) (ch : Chan) : Client → Chan :=
  fun c => if c = client then ch else send c

/-- `broadcastMessage` up to its channel operation: the bytes it is about to send on
`h.broadcast`, or `none` when `json.Marshal` fails (logged, the function returns). -/
def broadcastMessage (marshal : Marshal) (msg : WebSocketMessage) : Option Payload :=
  match marshal msg with
  | .error _ => none
  | .ok data => some data

/-- `h.broadcast <- data` executed by the event loop itself. `h.broadcast` is unbuffered
(`make(chan []byte)` in `NewHub`) and is received only by the `select` of `Run`, which runs in
one goroutine (`go hub.Run()` in `main`): the send never completes and the loop stays there. -/
def Hub.loopBroadcast (h : Hub) (submit : Option Payload) : Hub :=
  match submit with
  | none => h
  | some data => { h with pc := .sendBroadcast data }

/-- The statement `select { case client.send <- data: default: close(client.send);
delete(h.clients, client) }` of lines 64-69 and 125-130. -/
def Hub.sendOrDrop (h : Hub) (client : Client) (data : Payload) : Hub :=
  match (h.send client).trySend data with
  | .sent ch => { h with send := setChan h.send client ch }
  | .panic => { h with pc := .panicked }
  | .full =>
    match (h.send client).close with
    | none => { h with pc := .panicked }
    | some ch => { h with send := setChan h.send client ch,
                          clients := deleteClient h.clients client }

/-- The assignment `messages[i], messages[opp] = messages[opp], messages[i]`. -/
def swapAt (messages : List ChatMessage) (i opp : Nat) : List ChatMessage :=
  match messages[i]?, messages[opp]? with
  | some a, some b => (messages.set i b).set opp a
  | _, _ => messages

/-- The loop `for i := len(messages)/2 - 1; i >= 0; i--` with `n = i + 1` iterations left. -/
def reverseLoop : Nat → List ChatMessage → List ChatMessage
  | 0, messages => messages
  | i + 1, messages => reverseLoop i (swapAt messages i (messages.length - 1 - i))

/-- The whole reversal of lines 108-112. -/
def reverseMessages (messages : List ChatMessage) : List ChatMessage :=
  reverseLoop (messages.length / 2) messages

/-- Answer of the database to the history query: an error, or the rows newest first, each
with the outcome of its `rows.Scan`. -/
abbrev QueryResult := Except Error (List (Except Error ChatMessage))

/-- The loop over `rows.Next()`: a row whose scan fails is skipped. -/
def scanRows (rows : List (Except Error ChatMessage)) : List ChatMessage :=
  rows.filterMap fun r =>
    match r with
    | .ok msg => some msg
    | .error _ => none

/-- The method `Hub.sendChatHistory`. -/
def Hub.sendChatHistory (marshal : Marshal) (h : Hub) (client : Client)
    (query : QueryResult) : Hub :=
  match query with
  | .error _ => h
  | .ok rows =>
    let messages := reverseMessages (scanRows rows)
    let historyMsg : WebSocketMessage :=
      { Type_ := MessageTypeHistory, Data := .chatMessages messages, UserID := 0, Message := "" }
    match marshal historyMsg with
    | .error _ => h
    | .ok data => h.sendOrDrop client data

/-- The join announcement built at lines 37-41. -/
def joinMsg (client : Client) : WebSocketMessage :=
  { Type_ := MessageTypeJoin, Data := .null, UserID := client.UserID,
    Message := client.Username ++ " joined the chat" }

/-- The leave announcement built at lines 54-58. -/
def leaveMsg (client : Client) : WebSocketMessage :=
  { Type_ := MessageTypeLeave, Data := .null, UserID := client.UserID,
    Message := client.Username ++ " left the chat" }

/-- The case `client := <-h.register` of `Run`: `sendChatHistory` is reached only when
`broadcastMessage` returns. -/
def Hub.onRegister (marshal : Marshal) (h : Hub) (client : Client) (query : QueryResult) : Hub :=
  let h1 : Hub := { h with clients := insertClient h.clients client }
  match broadcastMessage marshal (joinMsg client) with
  | some data => h1.loopBroadcast (some data)
  | none => Hub.sendChatHistory marshal h1 client query

/-- The case `client := <-h.unregister` of `Run`. -/
def Hub.onUnregister (marshal : Marshal) (h : Hub) (client : Client) : Hub :=
  if client ∈ h.clients then
    let h1 : Hub := { h with clients := deleteClient h.clients client }
    match (h1.send client).close with
    | none => { h1 with pc := .panicked }
    | some ch =>
      let h2 : Hub := { h1 with send := setChan h1.send client ch }
      h2.loopBroadcast (broadcastMessage marshal (leaveMsg client))
  else h

/-- The loop `for client := range h.clients` of the broadcast case over the keys still to
visit; a panic ends it. The keys are visited in the order of the list; Go fixes no order, and
the statements about this loop hold for every order of the list. -/
def Hub.deliver (message : Payload) : List Client → Hub → Hub
  | [], h => h
  | client :: rest, h =>
    let h1 := h.sendOrDrop client message
    match h1.pc with
    | .panicked => h1
    | _ => Hub.deliver message rest h1

/-- The case `message := <-h.broadcast` of `Run`. -/
def Hub.onBroadcast (h : Hub) (message : Payload) : Hub :=
  Hub.deliver message h.clients h

/-- What can happen to the hub state: one of the three channels of the `select` delivers a
value (a register comes with the answer the database will give to the history query), or the
outbound pump of a client takes one value from its `send` channel. -/
inductive Event where
  | register (client : Client) (query : QueryResult)
  | unregister (client : Client)
  | broadcast (message : Payload)
  | drain (client : Client)

/-- One event. The three channel events are received only while the loop is at its `select`;
offered at any other time they are never received and the state does not change. -/
def Hub.handle (marshal : Marshal) (h : Hub) : Event → Hub
  | .drain client => { h with send := setChan h.send client (h.send client).recv }
  | .register client query =>
    match h.pc with
    | .select => h.onRegister marshal client query
    | _ => h
  | .unregister client =>
    match h.pc with
    | .select => h.onUnregister marshal client
    | _ => h
  | .broadcast message =>
    match h.pc with
    | .select => h.onBroadcast message
    | _ => h

/-- The method `Hub.Run` over the events in the order they occur. -/
def Hub.Run (marshal : Marshal) (h : Hub) (events : List Event) : Hub :=
  events.foldl (Hub.handle marshal) h

/-! ## Persist and broadcast -/

/-- The hub together with what `SaveAndBroadcastMessage` touches: `dbMutex` (true while
held) and the rows of table `chat_messages` in insertion order. -/
structure World where
  hub : Hub
  dbMutex : Bool
  chat_messages : List ChatMessage

/-- Where a call of `SaveAndBroadcastMessage` stands at its first blocking point.
`waitingLock`: at `h.dbMutex.Lock()`, the mutex being held by another call.
`returned err`: the call has returned `err` (`none` is `nil`) and the deferred unlock has run.
`sending data`: inside `broadcastMessage`, at `h.broadcast <- data`, the mutex still held,
until the event loop receives the value. -/
inductive SaveOutcome where
  | waitingLock
  | returned (err : Option Error)
  | sending (data : Payload)
deriving DecidableEq

/-- The method `Hub.SaveAndBroadcastMessage` up to its first blocking point. `exec` is the
answer of the database to the INSERT (the identifier of the new row, or an error, in which
case no row is stored); `now₁` and `now₂` are the two readings of `time.Now()`. -/
def SaveAndBroadcastMessage (marshal : Marshal) (exec : Except Error Int) (now₁ now₂ : Time)
    (w : World) (userID : Int) (username message : String) : World × SaveOutcome :=
  if w.dbMutex then (w, .waitingLock)
  else
    let w1 : World := { w with dbMutex := true }
    match exec with
    | .error err => ({ w1 with dbMutex := false }, .returned (some err))
    | .ok id =>
      let row : ChatMessage :=
        { ID := id, UserID := userID, Username := username, Message := message,
          CreatedAt := now₁ }
      let w2 : World := { w1 with chat_messages := w1.chat_messages ++ [row] }
      let chatMsg : WebSocketMessage :=
        { Type_ := MessageTypeChat, UserID := userID, Message := message,
          Data := .chatMessage
            { ID := 0, UserID := userID, Username := username, Message := message,
              CreatedAt := now₂ } }
      match broadcastMessage marshal chatMsg with
      | none => ({ w2 with dbMutex := false }, .returned none)
      | some data => (w2, .sending data)

/-- The rest of a call parked at `h.broadcast <- data`: the event loop, at its `select`,
receives the value and runs its broadcast case; the call returns `nil` and unlocks. While the
loop is elsewhere the call stays parked. -/
def SaveAndBroadcastMessage.resume (marshal : Marshal) (w : World) (data : Payload) :
    World × SaveOutcome :=
  match w.hub.pc with
  | .select =>
    ({ w with hub := w.hub.handle marshal (.broadcast data), dbMutex := false }, .returned none)
  | _ => (w, .sending data)

/-- The history message built at lines 114-117 of `sendChatHistory`. -/
def historyMsg (messages : List ChatMessage) : WebSocketMessage :=
  { Type_ := MessageTypeHistory, Data := .chatMessages messages, UserID := 0, Message := "" }

/-- The row the INSERT of lines 140-143 stores: the identifier comes from the database, the
timestamp is the first reading of the clock. -/
def storedRow (id : Int) (userID : Int) (username message : String) (now₁ : Time) :
    ChatMessage :=
  { ID := id, UserID := userID, Username := username, Message := message, CreatedAt := now₁ }

/-- The record put in the `Data` field at lines 155-160: no `ID` is given (it is the zero
value) and `CreatedAt` is the second reading of the clock. -/
def broadcastRecord (userID : Int) (username message : String) (now₂ : Time) : ChatMessage :=
  { ID := 0, UserID := userID, Username := username, Message := message, CreatedAt := now₂ }

/-- The chat message built at lines 151-161 of `SaveAndBroadcastMessage`. -/
def chatMsg (userID : Int) (username message : String) (now₂ : Time) : WebSocketMessage :=
  { Type_ := MessageTypeChat, UserID := userID, Message := message,
    Data := .chatMessage (broadcastRecord userID username message now₂) }

/-! ## The table `chat_messages` and the history query -/

/-- The statement `SELECT ... FROM chat_messages ORDER BY created_at DESC LIMIT limit` on the
rows of the table in insertion order. Between rows of equal `created_at` SQL fixes no order;
this model keeps those rows in insertion order. -/
def selectRecent (limit : Nat) (table : List ChatMessage) : List ChatMessage :=
  (table.insertionSort (fun a b => b.CreatedAt ≤ a.CreatedAt)).take limit

/-- The answer of a database that holds `table` and fails neither the query nor a scan. -/
def historyQuery (limit : Nat) (table : List ChatMessage) : QueryResult :=
  .ok ((selectRecent limit table).map .ok)

/-! ## handlers/chat.go -/

/-- What `ChatHandler.GetChatHistory` answers: status 500 with an error text, or status 200
with the messages as a JSON array. -/
inductive HistoryResponse where
  | internalServerError (error : String)
  | ok (messages : List ChatMessage)
deriving DecidableEq

/-- The loop over `rows.Next()` of `GetChatHistory`: the first scan that fails ends the
request. -/
def scanAll : List (Except Error ChatMessage) → Except Error (List ChatMessage)
  | [] => .ok []
  | .error err :: _ => .error err
  | .ok msg :: rest =>
    match scanAll rest with
    | .error err => .error err
    | .ok messages => .ok (msg :: messages)

/-- The method `ChatHandler.GetChatHistory`; its reversal loop (lines 62-66) is the loop of
`sendChatHistory`, statement for statement. -/
def ChatHandler.GetChatHistory (query : QueryResult) : HistoryResponse :=
  match query with
  | .error _ => .internalServerError "Failed to fetch chat history"
  | .ok rows =>
    match scanAll rows with
    | .error _ => .internalServerError "Failed to scan message"
    | .ok messages => .ok (reverseMessages messages)

/-! ## websocket/client.go: the inbound pump -/

/-- The struct `models.SendMessageRequest`. -/
structure SendMessageRequest where
  Message : String
deriving DecidableEq

/-- The type of `json.Unmarshal` into a `SendMessageRequest`. -/
abbrev Unmarshal := Payload → Except Error SendMessageRequest

/-- The constant `maxMessageSize`. -/
def maxMessageSize : Nat := 512

/-- What the stream holds for one call of `ReadMessage`: a data frame, or a failure of the
stream (close, timeout, network error). -/
inductive Incoming where
  | frame (messageBytes : Payload)
  | failure (err : Error)

/-- Modelled from the spec: `Conn.ReadMessage` of the websocket library after
`SetReadLimit(limit)`, which is not part of this repository. A frame larger than the limit is
a protocol error ("bounded max frame size: oversized frames are a protocol error closing the
connection", section 4.4) and the read fails; any other frame is returned; a failure of the
stream is returned as the error. -/
def ReadMessage (limit : Nat) : Incoming → Except Error Payload
  | .failure err => .error err
  | .frame messageBytes =>
    if limit < messageBytes.length then .error "websocket: read limit exceeded"
    else .ok messageBytes

/-- One turn of the loop of `readPump` as its environment decides it: what the stream holds,
and the answers the database and the clock give if the frame is posted. -/
structure Arrival where
  incoming : Incoming
  exec : Except Error Int
  now₁ : Time
  now₂ : Time

/-- Where the goroutine running `readPump` stands. `reading`: at `ReadMessage` (line 53).
`inSave data`: inside `SaveAndBroadcastMessage`, waiting for the mutex (`none`) or at the send
of `data` on `h.broadcast`. `atUnregister`: in the deferred function, at
`c.hub.unregister <- c` (line 39). `exited`: the deferred function has run. -/
inductive PumpPc where
  | reading
  | inSave (data : Option Payload)
  | atUnregister
  | exited
deriving DecidableEq

/-- The inbound pump of one client and the world it acts on; `posted` lists the arguments of
its calls of `SaveAndBroadcastMessage`, in order. -/
structure Pump where
  world : World
  pc : PumpPc
  posted : List (Int × String × String)

/-- The deferred function of `readPump`: `c.hub.unregister <- c` completes when the event
loop is at its `select`, which then runs its unregister case, and `c.conn.Close()` follows;
otherwise the pump stays at that send. -/
def Client.readPumpExit (marshal : Marshal) (c : Client) (s : Pump) : Pump :=
  match s.world.hub.pc with
  | .select =>
    { s with world := { s.world with hub := s.world.hub.handle marshal (.unregister c) },
             pc := .exited }
  | _ => { s with pc := .atUnregister }

/-- One turn of the loop of `readPump`. A pump that is not at `ReadMessage` does not read. -/
def Client.readPumpStep (marshal : Marshal) (unmarshal : Unmarshal) (c : Client) (s : Pump)
    (a : Arrival) : Pump :=
  match s.pc with
  | .reading =>
    match ReadMessage maxMessageSize a.incoming with
    | .error _ => c.readPumpExit marshal s
    | .ok messageBytes =>
      match unmarshal messageBytes with
      | .error _ => s
      | .ok msg =>
        let posted := s.posted ++ [(c.UserID, c.Username, msg.Message)]
        match SaveAndBroadcastMessage marshal a.exec a.now₁ a.now₂ s.world c.UserID c.Username
            msg.Message with
        | (w, .returned _) => { world := w, pc := .reading, posted := posted }
        | (w, .waitingLock) => { world := w, pc := .inSave none, posted := posted }
        | (w, .sending data) =>
          match SaveAndBroadcastMessage.resume marshal w data with
          | (w1, .returned _) => { world := w1, pc := .reading, posted := posted }
          | (w1, _) => { world := w1, pc := .inSave (some data), posted := posted }
  | _ => s

/-- The method `Client.readPump` over what arrives, in order. -/
def Client.readPump (marshal : Marshal) (unmarshal : Unmarshal) (c : Client) (s : Pump)
    (arrivals : List Arrival) : Pump :=
  arrivals.foldl (c.readPumpStep marshal unmarshal) s

/-! ## Concurrent calls of `SaveAndBroadcastMessage` -/

/-- One call of `SaveAndBroadcastMessage`: its arguments and the answers the database and the
clock will give it. -/
structure SaveCall where
  userID : Int
  username : String
  message : String
  exec : Except Error Int
  now₁ : Time
  now₂ : Time

/-- Where a call of `SaveAndBroadcastMessage` stands. `atLock`: before `h.dbMutex.Lock()`
(line 135). `atExec`: holding the mutex, before `DB.Exec` (line 140). `atBroadcast`: the row
stored, before `h.broadcastMessage(chatMsg)` (line 163). `atSend data`: at
`h.broadcast <- data` (line 81). `returned err`: returned, the deferred unlock done. -/
inductive CallPc where
  | atLock
  | atExec
  | atBroadcast
  | atSend (data : Payload)
  | returned (err : Option Error)
deriving DecidableEq

/-- The positions at which a call holds `dbMutex`. -/
def CallPc.holdsMutex : CallPc → Bool
  | .atExec => true
  | .atBroadcast => true
  | .atSend _ => true
  | .atLock => false
  | .returned _ => false

/-- Several calls running at once, numbered: the world they share, the position of each, and
three records of what happened: the calls in the order their INSERT ran, in the order they
reached the send on `h.broadcast`, and in the order the event loop received their payload. -/
structure Calls where
  world : World
  pcs : Nat → CallPc
  persisted : List Nat
  submitted : List Nat
  received : List Nat

/-- Move call `i` to position `pc`. -/
def setPc (pcs : Nat → CallPc) (i : Nat) (pc : CallPc) : Nat → CallPc :=
  fun j => if j = i then pc else pcs j

/-- The next statement of call `i` of `SaveAndBroadcastMessage`, if it can run: `Lock` needs
the mutex free, the send needs the event loop at its `select`. -/
def Calls.stepCall (marshal : Marshal) (calls : Nat → SaveCall) (s : Calls) (i : Nat) : Calls :=
  match s.pcs i with
  | .atLock =>
    if s.world.dbMutex then s
    else { s with world := { s.world with dbMutex := true }, pcs := setPc s.pcs i .atExec }
  | .atExec =>
    match (calls i).exec with
    | .error err =>
      { s with world := { s.world with dbMutex := false },
               pcs := setPc s.pcs i (.returned (some err)) }
    | .ok id =>
      { s with world := { s.world with chat_messages := s.world.chat_messages ++
                 [storedRow id (calls i).userID (calls i).username (calls i).message
                   (calls i).now₁] },
               pcs := setPc s.pcs i .atBroadcast,
               persisted := s.persisted ++ [i] }
  | .atBroadcast =>
    match broadcastMessage marshal
        (chatMsg (calls i).userID (calls i).username (calls i).message (calls i).now₂) with
    | none =>
      { s with world := { s.world with dbMutex := false }, pcs := setPc s.pcs i (.returned none) }
    | some data => { s with pcs := setPc s.pcs i (.atSend data), submitted := s.submitted ++ [i] }
  | .atSend data =>
    match s.world.hub.pc with
    | .select =>
      { s with world := { s.world with hub := s.world.hub.handle marshal (.broadcast data),
                                       dbMutex := false },
               pcs := setPc s.pcs i (.returned none),
               received := s.received ++ [i] }
    | _ => s
  | .returned _ => s

/-- What the scheduler lets happen next: one statement of a call, or one event of the hub. -/
inductive Action where
  | call (i : Nat)
  | hub (e : Event)

/-- One action. -/
def Calls.step (marshal : Marshal) (calls : Nat → SaveCall) (s : Calls) : Action → Calls
  | .call i => s.stepCall marshal calls i
  | .hub e => { s with world := { s.world with hub := s.world.hub.handle marshal e } }

/-- A whole schedule. -/
def Calls.run (marshal : Marshal) (calls : Nat → SaveCall) (s : Calls)
    (schedule : List Action) : Calls :=
  schedule.foldl (Calls.step marshal calls) s

/-- No call has started: every call is before `Lock`, nothing is recorded. -/
def Calls.start (w : World) : Calls :=
  { world := w, pcs := fun _ => .atLock, persisted := [], submitted := [], received := [] }

/-- The row call `i` stores when its INSERT succeeds (identifier 0 stands in when it fails,
in which case no row is stored). -/
def rowOf (calls : Nat → SaveCall) (i : Nat) : ChatMessage :=
  storedRow (match (calls i).exec with | .ok id => id | .error _ => 0)
    (calls i).userID (calls i).username (calls i).message (calls i).now₁

/-! ## websocket/client.go: the outbound pump, `ServeWS`; handlers/chat.go: `HandleWebSocket` -/

/-- The request shape declared by the tag `binding:"required,min=1,max=1000"` of
`SendMessageRequest.Message`: a text of 1 to 1000 characters. -/
def SendMessageRequest.valid (r : SendMessageRequest) : Bool :=
  decide (1 ≤ r.Message.length) && decide (r.Message.length ≤ 1000)

/-- What `ServeWS` leaves behind: the hub, the `Client` it created if the upgrade succeeded,
and whether it went on to start the two pumps. -/
structure ServeResult where
  hub : Hub
  client : Option Client
  pumps : Bool

/-- The function `ServeWS`. `upgrade` is the outcome of `upgrader.Upgrade`, `ptr` the address
of the new `Client`. The send `client.hub.register <- client` completes only when the event
loop is at its `select`, which then runs its register case; otherwise `ServeWS` stays at that
send and starts no pump. -/
def ServeWS (marshal : Marshal) (upgrade : Except Error Unit) (ptr : Nat) (query : QueryResult)
    (hub : Hub) (userID : Int) (username : String) : ServeResult :=
  match upgrade with
  | .error _ => { hub := hub, client := none, pumps := false }
  | .ok _ =>
    let client : Client := { ptr := ptr, UserID := userID, Username := username }
    let hub1 : Hub := { hub with send := setChan hub.send client Chan.fresh }
    match hub1.pc with
    | .select =>
      { hub := hub1.handle marshal (.register client query), client := some client,
        pumps := true }
    | _ => { hub := hub1, client := some client, pumps := false }

/-- The keys of the `gin.Context` the handlers read, as the authentication middleware sets
them: each is present or absent. The value of `role` is a `models.Role`, as the tests of the
handlers set it. -/
structure Context where
  user_id : Option Int
  username : Option String
  role : Option String

/-- What `HandleWebSocket` does: the JSON error it answers, if any; whether it called
`ServeWS` (where the upgrade is attempted and the `Client` created); and the outcome of that
call. -/
structure WSResult where
  reply : Option (Nat × String)
  served : Option ServeResult
  hub : Hub

/-- The status `http.StatusUnauthorized`. -/
def StatusUnauthorized : Nat := 401

/-- The method `ChatHandler.HandleWebSocket`. -/
def ChatHandler.HandleWebSocket (marshal : Marshal) (upgrade : Except Error Unit) (ptr : Nat)
    (query : QueryResult) (hub : Hub) (ctx : Context) : WSResult :=
  match ctx.user_id with
  | none => { reply := some (StatusUnauthorized, "User not authenticated"), served := none,
              hub := hub }
  | some userID =>
    match ctx.username with
    | none => { reply := some (StatusUnauthorized, "Username not found"), served := none,
                hub := hub }
    | some username =>
      let r := ServeWS marshal upgrade ptr query hub userID username
      { reply := none, served := some r, hub := r.hub }

/-! ## models: users, products, orders -/

/-- A Go `float64` that holds a price or a total. `finite q` is a value other than the four
that follow, known by the rational `q` it stands for (`finite 0` is the zero value `+0`);
`negZero` is `-0`; `posInf`, `negInf` and `nan` are the values that stand for no number. -/
inductive Money where
  | finite (q : ℚ)
  | negZero
  | posInf
  | negInf
  | nan
deriving DecidableEq

/-- The comparison `a < b` of two `float64` values: false when either is NaN, `-0` compares
as `0`, the infinities lie outside every other value. -/
def Money.lt : Money → Money → Bool
  | .finite a, .finite b => decide (a < b)
  | .finite a, .negZero => decide (a < 0)
  | .negZero, .finite b => decide (0 < b)
  | .negInf, .finite _ => true
  | .negInf, .negZero => true
  | .negInf, .posInf => true
  | .finite _, .posInf => true
  | .negZero, .posInf => true
  | _, _ => false

instance Money.instLT : LT Money := ⟨fun a b => Money.lt a b = true⟩

instance Money.instDecidableLT (a b : Money) : Decidable (a < b) :=
  inferInstanceAs (Decidable (Money.lt a b = true))

/-- A numeric literal of type `float64`. -/
instance Money.instOfNat (n : Nat) : OfNat Money n := ⟨.finite n⟩

/-- The type of the product `price * float64(quantity)` of two `float64` values as the
machine computes it (`CreateOrder`, line 77): the exact product rounded to a `float64`, an
infinity when it overflows. -/
abbrev MulFloat64 := Money → Int → Money

def RoleAdmin : String := "admin"
def RoleUser : String := "user"

def OrderStatusPending : String := "pending"
def OrderStatusCompleted : String := "completed"
def OrderStatusCancelled : String := "cancelled"

/-- The struct `models.User`. -/
structure User where
  ID : Int
  Username : String
  Email : String
  Password : String
  Role : String
  CreatedAt : Time
  UpdatedAt : Time
deriving DecidableEq

/-- The struct `models.Product`. -/
structure Product where
  ID : Int
  Name : String
  Description : String
  Price : Money
  Stock : Int
  CreatedBy : Int
  CreatedAt : Time
  UpdatedAt : Time
deriving DecidableEq

/-- The struct `models.Order`. -/
structure Order where
  ID : Int
  UserID : Int
  ProductID : Int
  Quantity : Int
  Price : Money
  Total : Money
  Status : String
  CreatedAt : Time
  UpdatedAt : Time
deriving DecidableEq

/-- The struct `models.OrderWithDetails` as `GetOrder` fills it. -/
structure OrderWithDetails where
  order : Order
  ProductName : String
deriving DecidableEq

/-- The struct `models.OrderResponse`. -/
structure OrderResponse where
  Order : Order
  Product : Product
deriving DecidableEq

/-- The struct `models.LoginResponse`. -/
structure LoginResponse where
  Token : String
  User : User
deriving DecidableEq

/-- The struct `models.RegisterRequest`. -/
structure RegisterRequest where
  Username : String
  Email : String
  Password : String
  Role : String

/-- The struct `models.CreateProductRequest`. -/
structure CreateProductRequest where
  Name : String
  Description : String
  Price : Money
  Stock : Int

/-- The struct `models.UpdateProductRequest`; a field the JSON body omits has its zero value. -/
structure UpdateProductRequest where
  Name : String
  Description : String
  Price : Money
  Stock : Int

/-- The struct `models.CreateOrderRequest`. -/
structure CreateOrderRequest where
  ProductID : Int
  Quantity : Int

/-- The tags of `RegisterRequest`: `required,min=3,max=50`, `required,email`,
`required,min=6`; `isEmail` is the email test of the validator. -/
def RegisterRequest.valid (isEmail : String → Bool) (r : RegisterRequest) : Bool :=
  decide (3 ≤ r.Username.length) && decide (r.Username.length ≤ 50) &&
    decide (r.Email ≠ "") && isEmail r.Email && decide (6 ≤ r.Password.length)

/-- The tags of `CreateProductRequest`: `required,min=1,max=100`, `required,min=1,max=500`,
`required,gt=0`, `required,gte=0` (`required` rejects the zero value). -/
def CreateProductRequest.valid (r : CreateProductRequest) : Bool :=
  decide (1 ≤ r.Name.length) && decide (r.Name.length ≤ 100) &&
    decide (1 ≤ r.Description.length) && decide (r.Description.length ≤ 500) &&
    decide (0 < r.Price) && decide (r.Stock ≠ 0) && decide (0 ≤ r.Stock)

/-- The tags of `UpdateProductRequest`: `omitempty,min=1,max=100`, `omitempty,min=1,max=500`,
`omitempty,gt=0`, `omitempty,gte=0` (`omitempty` accepts the zero value unchecked). -/
def UpdateProductRequest.valid (r : UpdateProductRequest) : Bool :=
  (decide (r.Name = "") || (decide (1 ≤ r.Name.length) && decide (r.Name.length ≤ 100))) &&
    (decide (r.Description = "") ||
      (decide (1 ≤ r.Description.length) && decide (r.Description.length ≤ 500))) &&
    (decide (r.Price = 0) || decide (0 < r.Price)) &&
    (decide (r.Stock = 0) || decide (0 ≤ r.Stock))

/-- The tags of `CreateOrderRequest`: `required,gt=0` on both fields. -/
def CreateOrderRequest.valid (r : CreateOrderRequest) : Bool :=
  decide (r.ProductID ≠ 0) && decide (0 < r.ProductID) &&
    decide (r.Quantity ≠ 0) && decide (0 < r.Quantity)

/-! ## The database of the handlers -/

/-- The tables `users`, `products` and `orders`, rows in insertion order, and for each the
identifier `AUTOINCREMENT` gives to the next row. -/
structure Store where
  users : List User
  products : List Product
  orders : List Order
  nextUserID : Int
  nextProductID : Int
  nextOrderID : Int

/-- What a handler answers: an error status with `{"error": message}`, or a status with a
body. -/
inductive Reply (α : Type) where
  | error (status : Nat) (message : String)
  | ok (status : Nat) (body : α)

/-- The status of a reply. -/
def Reply.status {α : Type} : Reply α → Nat
  | .error status _ => status
  | .ok status _ => status

def StatusOK : Nat := 200
def StatusCreated : Nat := 201
def StatusBadRequest : Nat := 400
def StatusNotFound : Nat := 404
def StatusConflict : Nat := 409
def StatusInternalServerError : Nat := 500

/-- The function `strconv.Atoi`: an optional sign, then one or more decimal digits, the value
within the range of a 64-bit `int`. -/
def Atoi (s : String) : Option Int :=
  let digits : List Char :=
    match s.toList with
    | '+' :: r => r
    | '-' :: r => r
    | r => r
  let negative : Bool :=
    match s.toList with
    | '-' :: _ => true
    | _ => false
  if digits = [] ∨ ¬ digits.all Char.isDigit then none
  else
    let n : Nat := digits.foldl (fun a c => 10 * a + (c.toNat - 48)) 0
    let v : Int := if negative then -(n : Int) else (n : Int)
    if v < -(2 : Int) ^ 63 ∨ (2 : Int) ^ 63 ≤ v then none else some v

/-! ## handlers/product.go -/

/-- The method `ProductHandler.CreateProduct`. `body` is the decoded JSON body or the decoding
error, `execFails` tells whether the INSERT fails, `now` gives the readings of the clock. -/
def ProductHandler.CreateProduct (body : Except Error CreateProductRequest) (userID : Int)
    (execFails : Bool) (now : Nat → Time) (s : Store) : Reply Product × Store :=
  match body with
  | .error err => (.error StatusBadRequest err, s)
  | .ok req =>
    if ¬ req.valid then (.error StatusBadRequest "validation failed", s)
    else if execFails then (.error StatusInternalServerError "Failed to create product", s)
    else
      let productID := s.nextProductID
      let stored : Product :=
        { ID := productID, Name := req.Name, Description := req.Description,
          Price := req.Price, Stock := req.Stock, CreatedBy := userID,
          CreatedAt := now 0, UpdatedAt := now 1 }
      let product : Product := { stored with CreatedAt := now 2, UpdatedAt := now 3 }
      (.ok StatusCreated product,
       { s with products := s.products ++ [stored], nextProductID := s.nextProductID + 1 })

/-- The method `ProductHandler.GetProduct`. -/
def ProductHandler.GetProduct (idParam : String) (queryFails : Bool) (s : Store) :
    Reply Product :=
  match Atoi idParam with
  | none => .error StatusBadRequest "Invalid product ID"
  | some id =>
    if queryFails then .error StatusInternalServerError "Database error"
    else
      match s.products.find? (fun p => decide (p.ID = id)) with
      | none => .error StatusNotFound "Product not found"
      | some product => .ok StatusOK product

/-- The statement `UPDATE products SET updated_at = ?, ... WHERE id = ?` that `UpdateProduct`
builds (lines 154-176), on one row. -/
def applyUpdate (req : UpdateProductRequest) (id : Int) (now : Time) (p : Product) : Product :=
  if p.ID = id then
    let p1 : Product := { p with UpdatedAt := now }
    let p2 : Product := if req.Name ≠ "" then { p1 with Name := req.Name } else p1
    let p3 : Product :=
      if req.Description ≠ "" then { p2 with Description := req.Description } else p2
    let p4 : Product := if req.Price > 0 then { p3 with Price := req.Price } else p3
    if req.Stock ≥ 0 then { p4 with Stock := req.Stock } else p4
  else p

/-- The method `ProductHandler.UpdateProduct`. `checkFails` tells whether the existence query
fails with an error other than `sql.ErrNoRows` (which the code does not test), `execFails`
whether the UPDATE fails, `getFails` whether the final query of `GetProduct` fails. -/
def ProductHandler.UpdateProduct (idParam : String) (body : Except Error UpdateProductRequest)
    (checkFails execFails getFails : Bool) (now : Nat → Time) (s : Store) :
    Reply Product × Store :=
  match Atoi idParam with
  | none => (.error StatusBadRequest "Invalid product ID", s)
  | some id =>
    match body with
    | .error err => (.error StatusBadRequest err, s)
    | .ok req =>
      if ¬ req.valid then (.error StatusBadRequest "validation failed", s)
      else if ¬ checkFails ∧ ¬ s.products.any (fun p => decide (p.ID = id)) then
        (.error StatusNotFound "Product not found", s)
      else if execFails then (.error StatusInternalServerError "Failed to update product", s)
      else
        let s1 : Store := { s with products := s.products.map (applyUpdate req id (now 0)) }
        (ProductHandler.GetProduct idParam getFails s1, s1)

/-- The method `ProductHandler.DeleteProduct`. -/
def ProductHandler.DeleteProduct (idParam : String) (execFails : Bool) (s : Store) :
    Reply String × Store :=
  match Atoi idParam with
  | none => (.error StatusBadRequest "Invalid product ID", s)
  | some id =>
    if execFails then (.error StatusInternalServerError "Failed to delete product", s)
    else if ¬ s.products.any (fun p => decide (p.ID = id)) then
      (.error StatusNotFound "Product not found", s)
    else
      (.ok StatusOK "Product deleted successfully",
       { s with products := s.products.filter (fun p => decide (p.ID ≠ id)) })

/-! ## handlers/order.go -/

/-- The database operation of `CreateOrder` that fails, if one does. -/
inductive OrderFault where
  | begin
  | query
  | insert
  | updateStock
  | complete
  | commit
deriving DecidableEq

/-- The method `OrderHandler.CreateOrder`. Everything between `Begin` and `Commit` is one
transaction: when a step fails the deferred `Rollback` leaves the store as it was. `mul` is
the `float64` product of line 77. -/
def OrderHandler.CreateOrder (mul : MulFloat64) (body : Except Error CreateOrderRequest)
    (userID : Int) (fault : Option OrderFault) (now : Nat → Time) (s : Store) :
    Reply OrderResponse × Store :=
  match body with
  | .error err => (.error StatusBadRequest err, s)
  | .ok req =>
    if ¬ req.valid then (.error StatusBadRequest "validation failed", s)
    else if fault = some .begin then
      (.error StatusInternalServerError "Failed to start transaction", s)
    else if fault = some .query then (.error StatusInternalServerError "Database error", s)
    else
      match s.products.find? (fun p => decide (p.ID = req.ProductID)) with
      | none => (.error StatusNotFound "Product not found", s)
      | some product =>
        if product.Stock < req.Quantity then (.error StatusBadRequest "Insufficient stock", s)
        else
          let total : Money := mul product.Price req.Quantity
          if fault = some .insert then
            (.error StatusInternalServerError "Failed to create order", s)
          else
            let orderID := s.nextOrderID
            let pending : Order :=
              { ID := orderID, UserID := userID, ProductID := req.ProductID,
                Quantity := req.Quantity, Price := product.Price, Total := total,
                Status := OrderStatusPending, CreatedAt := now 0, UpdatedAt := now 1 }
            if fault = some .updateStock then
              (.error StatusInternalServerError "Failed to update stock", s)
            else
              let products1 := s.products.map fun p =>
                if p.ID = req.ProductID then
                  { p with Stock := p.Stock - req.Quantity, UpdatedAt := now 2 }
                else p
              if fault = some .complete then
                (.error StatusInternalServerError "Failed to complete order", s)
              else
                let orders1 := (s.orders ++ [pending]).map fun o =>
                  if o.ID = orderID then
                    { o with Status := OrderStatusCompleted, UpdatedAt := now 3 }
                  else o
                if fault = some .commit then
                  (.error StatusInternalServerError "Failed to commit transaction", s)
                else
                  let order : Order :=
                    { ID := orderID, UserID := userID, ProductID := req.ProductID,
                      Quantity := req.Quantity, Price := product.Price, Total := total,
                      Status := OrderStatusCompleted, CreatedAt := now 4, UpdatedAt := now 5 }
                  (.ok StatusCreated
                     { Order := order,
                       Product := { product with Stock := product.Stock - req.Quantity } },
                   { s with products := products1, orders := orders1,
                            nextOrderID := s.nextOrderID + 1 })

/-- The rows of `orders o JOIN products p ON o.product_id = p.id` for the orders that pass
`keep`, in the order of the tables. -/
def joinOrders (s : Store) (keep : Order → Bool) : List OrderWithDetails :=
  (s.orders.filter keep).flatMap fun o =>
    (s.products.filter fun p => decide (o.ProductID = p.ID)).map fun p =>
      { order := o, ProductName := p.Name }

/-- The method `OrderHandler.GetOrder`. The clause `AND o.user_id = ?` is added unless the
`role` of the context is `RoleAdmin`. -/
def OrderHandler.GetOrder (idParam : String) (ctx : Context) (queryFails : Bool) (s : Store) :
    Reply OrderWithDetails :=
  match Atoi idParam with
  | none => .error StatusBadRequest "Invalid order ID"
  | some id =>
    let keep : Order → Bool := fun o =>
      if ctx.role ≠ some RoleAdmin then decide (o.ID = id) && decide (some o.UserID = ctx.user_id)
      else decide (o.ID = id)
    if queryFails then .error StatusInternalServerError "Database error"
    else
      match (joinOrders s keep).head? with
      | none => .error StatusNotFound "Order not found"
      | some order => .ok StatusOK order

/-! ## handlers/auth.go -/

/-- The method `AuthHandler.Register`. `isEmail` is the email test of the validator, `hash`
is `bcrypt.GenerateFromPassword`, `token` is `middleware.GenerateToken`; `queryFails` tells
whether the lookup of an existing user fails, `execFails` whether the INSERT fails. -/
def AuthHandler.Register (isEmail : String → Bool) (hash : String → Except Error String)
    (token : User → Except Error String) (body : Except Error RegisterRequest)
    (queryFails execFails : Bool) (now : Nat → Time) (s : Store) :
    Reply LoginResponse × Store :=
  match body with
  | .error err => (.error StatusBadRequest err, s)
  | .ok req0 =>
    if ¬ req0.valid isEmail then (.error StatusBadRequest "validation failed", s)
    else
      let req : RegisterRequest := if req0.Role = "" then { req0 with Role := RoleUser } else req0
      if req.Role ≠ RoleUser ∧ req.Role ≠ RoleAdmin then
        (.error StatusBadRequest "Invalid role", s)
      else
        match hash req.Password with
        | .error _ => (.error StatusInternalServerError "Failed to hash password", s)
        | .ok hashedPassword =>
          if queryFails ∨
              s.users.any (fun u => decide (u.Email = req.Email) || decide (u.Username = req.Username))
          then (.error StatusConflict "User with this email or username already exists", s)
          else if execFails then (.error StatusInternalServerError "Failed to create user", s)
          else
            let userID := s.nextUserID
            let stored : User :=
              { ID := userID, Username := req.Username, Email := req.Email,
                Password := hashedPassword, Role := req.Role, CreatedAt := now 0,
                UpdatedAt := now 1 }
            let s1 : Store := { s with users := s.users ++ [stored],
                                       nextUserID := s.nextUserID + 1 }
            let user : User :=
              { ID := userID, Username := req.Username, Email := req.Email, Password := "",
                Role := req.Role, CreatedAt := now 2, UpdatedAt := now 3 }
            match token user with
            | .error _ => (.error StatusInternalServerError "Failed to generate token", s1)
            | .ok tok => (.ok StatusCreated { Token := tok, User := user }, s1)

/-- One request to the handlers that write the table `products`. -/
inductive ShopRequest where
  | createProduct (body : Except Error CreateProductRequest) (userID : Int) (execFails : Bool)
      (now : Nat → Time)
  | updateProduct (idParam : String) (body : Except Error UpdateProductRequest)
      (checkFails execFails getFails : Bool) (now : Nat → Time)
  | createOrder (body : Except Error CreateOrderRequest) (userID : Int)
      (fault : Option OrderFault) (now : Nat → Time)

/-- The store after one request. -/
def Store.handle (mul : MulFloat64) (s : Store) : ShopRequest → Store
  | .createProduct body userID execFails now =>
    (ProductHandler.CreateProduct body userID execFails now s).2
  | .updateProduct idParam body checkFails execFails getFails now =>
    (ProductHandler.UpdateProduct idParam body checkFails execFails getFails now s).2
  | .createOrder body userID fault now =>
    (OrderHandler.CreateOrder mul body userID fault now s).2

/-- The store after a sequence of requests handled one at a time. -/
def Store.run (mul : MulFloat64) (s : Store) (requests : List ShopRequest) : Store :=
  requests.foldl (Store.handle mul) s

/-- The guarantees of the schema: `id` is a primary key of `products` and of `orders`
(no two rows share it) and `AUTOINCREMENT` gives out identifiers above every one in use. -/
def Store.WF (s : Store) : Prop :=
  (s.products.map (fun p => p.ID)).Nodup ∧ (s.orders.map (fun o => o.ID)).Nodup ∧
    (∀ p ∈ s.products, p.ID < s.nextProductID) ∧ (∀ o ∈ s.orders, o.ID < s.nextOrderID)

/-! ## Predicates used by the statements -/

/-- `ch'` is `ch` after zero or more receives: nothing was sent and nothing was closed. -/
def Chan.Drained (ch ch' : Chan) : Prop :=
  ch'.closed = ch.closed ∧ ch'.buf <:+ ch.buf

/-- What the statement `select { case ch <- v: default: close(ch) }` leaves of an open
channel: the value at its end when there is room, the channel closed otherwise. -/
def Chan.offer (ch : Chan) (v : Payload) : Chan :=
  if ch.buf.length < sendCap then { ch with buf := ch.buf ++ [v] } else { ch with closed := true }

/-- The members are distinct, the `send` channel of every member is open, and the loop has
not panicked. -/
def Hub.Valid (h : Hub) : Prop :=
  h.clients.Nodup ∧ (∀ c ∈ h.clients, (h.send c).closed = false) ∧ h.pc ≠ .panicked

/-- The clients a list of events registers, in order. -/
def registered : List Event → List Client
  | [] => []
  | .register client _ :: es => client :: registered es
  | .unregister _ :: es => registered es
  | .broadcast _ :: es => registered es
  | .drain _ :: es => registered es

/-- What every schedule keeps true of concurrent calls. `mutex`, `one`: a call between `Lock`
and its return holds the mutex, and at most one call is there. `table`: the table is the
initial one followed by the rows of the persisted calls, in order. `last`: the call that has
stored its row and not yet reached the send is the last persisted, and the calls submitted so
far come in the same order among the earlier ones. `sub`: the submitted calls are persisted
calls, in the same order. `sending`, `idle`: the loop has received every submitted payload in
order, except that of the call now at the send. `nodup`, `started`: no call is persisted
twice, and a persisted call is past its INSERT. -/
structure Calls.Inv (calls : Nat → SaveCall) (w0 : World) (s : Calls) : Prop where
  mutex : ∀ i, (s.pcs i).holdsMutex = true → s.world.dbMutex = true
  one : ∀ i j, (s.pcs i).holdsMutex = true → (s.pcs j).holdsMutex = true → i = j
  table : s.world.chat_messages = w0.chat_messages ++ s.persisted.map (rowOf calls)
  last : ∀ i, s.pcs i = .atBroadcast → ∃ P, s.persisted = P ++ [i] ∧ s.submitted.Sublist P
  sub : s.submitted.Sublist s.persisted
  sending : ∀ i data, s.pcs i = .atSend data → s.submitted = s.received ++ [i]
  idle : (∀ i data, s.pcs i ≠ .atSend data) → s.submitted = s.received
  nodup : s.persisted.Nodup
  started : ∀ i ∈ s.persisted, s.pcs i ≠ .atLock ∧ s.pcs i ≠ .atExec

/-! ## Concrete data for the instances -/

/-- An encoder for concrete evaluations: it never fails and writes the code points of the
type tag and of the text. The general statements hold for every encoder. -/
def sampleMarshal : Marshal :=
  fun msg => .ok ((msg.Type_ ++ msg.Message).toList.map Char.toNat)

def ann : Client := { ptr := 1, UserID := 7, Username := "ann" }

def bob : Client := { ptr := 2, UserID := 8, Username := "bob" }

/-- A hub whose members are `ann` and `bob`, the loop at its `select`: the queue of `ann`
holds 256 pending frames, the queue of `bob` is empty. -/
def annFull : Hub :=
  { clients := [ann, bob],
    send := fun c => if c = ann then { buf := List.replicate 256 [0], closed := false }
                     else Chan.fresh,
    pc := .select }

/-- A hub whose members are `ann` and `bob`, both queues empty, the loop at its `select`. -/
def twoMembers : Hub := { clients := [ann, bob], send := fun _ => Chan.fresh, pc := .select }

/-- A world with the two members of `twoMembers`, the mutex free and an empty table. -/
def quietWorld : World := { hub := twoMembers, dbMutex := false, chat_messages := [] }

/-- A decoder for concrete evaluations: bytes that start with an opening brace decode to the
text made of the code points that follow; anything else fails. -/
def sampleUnmarshal : Unmarshal :=
  fun messageBytes =>
    match messageBytes with
    | 123 :: rest => .ok { Message := String.mk (rest.map Char.ofNat) }
    | _ => .error "invalid character"

/-- The pump of `ann` at `ReadMessage`, in `quietWorld`, nothing posted yet. -/
def annPump : Pump := { world := quietWorld, pc := .reading, posted := [] }

/-- Two calls: call 0 posts "hi" for user 1, every other call posts "yo" for user 2. -/
def hiYo : Nat → SaveCall :=
  fun i =>
    if i = 0 then { userID := 1, username := "a", message := "hi", exec := .ok 1, now₁ := 10,
                    now₂ := 11 }
    else { userID := 2, username := "b", message := "yo", exec := .ok 2, now₁ := 20, now₂ := 21 }

/-- A world with a new hub, the mutex free and an empty table. -/
def emptyWorld : World := { hub := NewHub, dbMutex := false, chat_messages := [] }

/-- Two rows appended in this order while the clock steps back between them. -/
def clockStepsBack : List ChatMessage :=
  [storedRow 1 7 "ann" "first" 5, storedRow 2 8 "bob" "second" 3]

/-- Five rows appended in this order under an advancing clock. -/
def fiveRows : List ChatMessage :=
  [storedRow 1 7 "ann" "1" 10, storedRow 2 8 "bob" "2" 20, storedRow 3 7 "ann" "3" 30,
   storedRow 4 8 "bob" "4" 40, storedRow 5 7 "ann" "5" 50]

/-- A frame of 513 bytes followed by a frame the sample decoder accepts. -/
def oversizedThenValid : List Arrival :=
  [{ incoming := .frame (List.replicate 513 0), exec := .ok 1, now₁ := 10, now₂ := 11 },
   { incoming := .frame [123, 104, 105], exec := .ok 1, now₁ := 20, now₂ := 21 }]

/-- A frame the sample decoder rejects followed by a frame it accepts. -/
def malformedThenValid : List Arrival :=
  [{ incoming := .frame [1, 2], exec := .ok 1, now₁ := 10, now₂ := 11 },
   { incoming := .frame [123, 104, 105], exec := .ok 1, now₁ := 20, now₂ := 21 }]

/-- The pump of a client at `ReadMessage`, nothing posted yet, in the world `ServeWS` leaves
when the upgrade succeeded on hub `h`. -/
def pumpAfterServe (marshal : Marshal) (h : Hub) (w : World) (ptr : Nat) (userID : Int)
    (username : String) (q : QueryResult) : Pump :=
  { world := { w with hub := (ServeWS marshal (.ok ()) ptr q h userID username).hub },
    pc := .reading, posted := [] }

/-- A frame of 513 bytes. -/
def oversized : Arrival :=
  { incoming := .frame (List.replicate 513 0), exec := .ok 1, now₁ := 10, now₂ := 11 }

/-- The frame the sample decoder reads as the empty text. -/
def emptyText : Arrival :=
  { incoming := .frame [123], exec := .ok 1, now₁ := 10, now₂ := 11 }

/-- A clock that reads 9 at every call. -/
def nine : Nat → Time := fun _ => 9

/-- A product for concrete evaluations: the exact product on the finite values, which is what
the machine computes when that product is a `float64` (3 × 5 = 15). -/
def exactProduct : MulFloat64
  | .finite q, n => .finite (q * n)
  | m, _ => m

/-- A store with one product, a pen with 50 in stock, and no order. -/
def penStore : Store :=
  { users := [],
    products := [{ ID := 1, Name := "pen", Description := "blue", Price := 3, Stock := 50,
                   CreatedBy := 1, CreatedAt := 0, UpdatedAt := 0 }],
    orders := [], nextUserID := 1, nextProductID := 2, nextOrderID := 1 }

/-- The pen of `penStore`. -/
def pen : Product :=
  { ID := 1, Name := "pen", Description := "blue", Price := 3, Stock := 50, CreatedBy := 1,
    CreatedAt := 0, UpdatedAt := 0 }

/-- The store after user 2 has ordered 5 pens from `penStore` and an admin has then deleted
the pen through `DeleteProduct` (the DELETE succeeds: `InitDB` opens the database without
turning on the enforcement of foreign keys). -/
def orphanStore : Store :=
  (ProductHandler.DeleteProduct "1" false
    (OrderHandler.CreateOrder exactProduct (.ok { ProductID := 1, Quantity := 5 }) 2 none nine penStore).2).2

/-- A context with the identity of an administrator. -/
def rootCtx : Context := { user_id := some 9, username := some "root", role := some RoleAdmin }

/-- A context with the identity of user 2, who is not an administrator. -/
def buyerCtx : Context := { user_id := some 2, username := some "bea", role := some RoleUser }

/-- The store after user 2 has ordered 5 pens from `penStore`. -/
def soldStore : Store :=
  (OrderHandler.CreateOrder exactProduct (.ok { ProductID := 1, Quantity := 5 }) 2 none nine penStore).2

/-- An email test that accepts the strings with an `@`. -/
def hasAt (e : String) : Bool := e.toList.contains '@'

/-- A password hash that never fails. -/
def sampleHash (pw : String) : Except Error String := .ok ("#" ++ pw)

/-- A token generator that never fails. -/
def sampleToken (u : User) : Except Error String := .ok ("token-" ++ u.Username)

/-- A store with no row at all. -/
def emptyStore : Store :=
  { users := [], products := [], orders := [], nextUserID := 1, nextProductID := 1,
    nextOrderID := 1 }

/-- A registration that names no role. -/
def beaSignup : RegisterRequest :=
  { Username := "bea", Email := "bea@x.io", Password := "secret", Role := "" }

/-! ## Channels and the parked loop -/

theorem Chan.Drained.refl (ch : Chan) : Chan.Drained ch ch := ⟨rfl, List.suffix_refl _⟩

theorem Chan.Drained.trans {a b c : Chan} (h₁ : Chan.Drained a b) (h₂ : Chan.Drained b c) :
    Chan.Drained a c :=
  ⟨h₂.1.trans h₁.1, h₂.2.trans h₁.2⟩

theorem Chan.drained_recv (ch : Chan) : Chan.Drained ch ch.recv :=
  ⟨rfl, List.tail_suffix _⟩

theorem setChan_self (send : Client → Chan) (c : Client) (ch : Chan) :
    setChan send c ch c = ch := by
  simp [setChan]

theorem setChan_other (send : Client → Chan) {c x : Client} (ch : Chan) (hx : x ≠ c) :
    setChan send c ch x = send x := by
  simp [setChan, hx]

theorem Run_cons (marshal : Marshal) (h : Hub) (e : Event) (es : List Event) :
    h.Run marshal (e :: es) = (h.handle marshal e).Run marshal es := rfl

theorem handle_drain_send (marshal : Marshal) (h : Hub) (c x : Client) :
    Chan.Drained (h.send x) ((h.handle marshal (.drain c)).send x) := by
  by_cases hx : x = c
  · subst hx
    simp only [Hub.handle, setChan_self]
    exact Chan.drained_recv _
  · simp only [Hub.handle, setChan_other _ _ hx]
    exact Chan.Drained.refl _

/-- An event met away from the `select` changes neither the position of the loop nor the
membership, and no channel receives a value or is closed. -/
theorem handle_of_not_select (marshal : Marshal) (h : Hub) (e : Event) (hpc : h.pc ≠ .select) :
    (h.handle marshal e).pc = h.pc ∧ (h.handle marshal e).clients = h.clients ∧
      ∀ x, Chan.Drained (h.send x) ((h.handle marshal e).send x) := by
  cases e with
  | drain c => exact ⟨rfl, rfl, handle_drain_send marshal h c⟩
  | register c q =>
    cases hp : h.pc with
    | select => exact absurd hp hpc
    | sendBroadcast d => simp [Hub.handle, hp, Chan.Drained.refl]
    | panicked => simp [Hub.handle, hp, Chan.Drained.refl]
  | unregister c =>
    cases hp : h.pc with
    | select => exact absurd hp hpc
    | sendBroadcast d => simp [Hub.handle, hp, Chan.Drained.refl]
    | panicked => simp [Hub.handle, hp, Chan.Drained.refl]
  | broadcast p =>
    cases hp : h.pc with
    | select => exact absurd hp hpc
    | sendBroadcast d => simp [Hub.handle, hp, Chan.Drained.refl]
    | panicked => simp [Hub.handle, hp, Chan.Drained.refl]

/-- Once away from its `select` the loop stays where it is, whatever happens next. -/
theorem run_of_not_select (marshal : Marshal) (es : List Event) :
    ∀ h : Hub, h.pc ≠ .select →
      (h.Run marshal es).pc = h.pc ∧ (h.Run marshal es).clients = h.clients ∧
        ∀ x, Chan.Drained (h.send x) ((h.Run marshal es).send x) := by
  induction es with
  | nil => intro h _; exact ⟨rfl, rfl, fun x => Chan.Drained.refl _⟩
  | cons e es ih =>
    intro h hpc
    obtain ⟨h1, h2, h3⟩ := handle_of_not_select marshal h e hpc
    obtain ⟨k1, k2, k3⟩ := ih (h.handle marshal e) (by rw [h1]; exact hpc)
    rw [Run_cons]
    exact ⟨k1.trans h1, k2.trans h2, fun x => (h3 x).trans (k3 x)⟩

/-- The register case when the join announcement encodes: the client is added and the loop
is left at its own send on `h.broadcast`; no channel is touched. -/
theorem handle_register_parks (marshal : Marshal) (h : Hub) (c : Client) (q : QueryResult)
    (data : Payload) (hsel : h.pc = .select) (hm : marshal (joinMsg c) = .ok data) :
    h.handle marshal (.register c q) =
      { clients := insertClient h.clients c, send := h.send, pc := .sendBroadcast data } := by
  simp [Hub.handle, hsel, Hub.onRegister, broadcastMessage, hm, Hub.loopBroadcast]

/-- The unregister case for a member whose queue is open, when the leave announcement
encodes: the client is removed, its queue closed, and the loop is left at its own send. -/
theorem handle_unregister_parks (marshal : Marshal) (h : Hub) (c : Client) (data : Payload)
    (hsel : h.pc = .select) (hc : c ∈ h.clients) (hopen : (h.send c).closed = false)
    (hm : marshal (leaveMsg c) = .ok data) :
    h.handle marshal (.unregister c) =
      { clients := deleteClient h.clients c,
        send := setChan h.send c { (h.send c) with closed := true },
        pc := .sendBroadcast data } := by
  simp [Hub.handle, hsel, Hub.onUnregister, hc, Chan.close, hopen, broadcastMessage, hm,
    Hub.loopBroadcast]

theorem mem_insertClient_self (l : List Client) (c : Client) : c ∈ insertClient l c := by
  unfold insertClient
  split
  · assumption
  · simp

theorem not_mem_deleteClient_self (l : List Client) (c : Client) : c ∉ deleteClient l c := by
  simp [deleteClient]

/-! ## The loop and its own announcements -/

/-- C3, evaluated on the code: when the join (or leave) announcement encodes, handling a
register (or the unregister of a member with an open queue) does not bring the loop back to
its `select`: the loop is left at its own send on the unbuffered broadcast channel and is
still there after any further events. -/
theorem loop_parks_on_own_announcement (marshal : Marshal) (h : Hub) (c : Client)
    (q : QueryResult) (dj dl : Payload) (hsel : h.pc = .select)
    (hj : marshal (joinMsg c) = .ok dj) (hl : marshal (leaveMsg c) = .ok dl) :
    (∀ es, ((h.handle marshal (.register c q)).Run marshal es).pc = .sendBroadcast dj) ∧
      (c ∈ h.clients → (h.send c).closed = false →
        ∀ es, ((h.handle marshal (.unregister c)).Run marshal es).pc = .sendBroadcast dl) := by
  constructor
  · intro es
    rw [handle_register_parks marshal h c q dj hsel hj]
    exact (run_of_not_select marshal es _ (by simp)).1
  · intro hc hopen es
    rw [handle_unregister_parks marshal h c dl hsel hc hopen hl]
    exact (run_of_not_select marshal es _ (by simp)).1

theorem loop_parks_on_own_announcement_witness :
    ((NewHub.handle sampleMarshal (.register ann (.ok []))).Run sampleMarshal
        [.register bob (.ok []), .broadcast [1]]).pc
      = .sendBroadcast ((MessageTypeJoin ++ "ann joined the chat").toList.map Char.toNat) :=
  (loop_parks_on_own_announcement sampleMarshal NewHub ann (.ok []) _ _ rfl rfl rfl).1 _

/-- C7, evaluated on the code: the register case builds the join announcement with type
"join", the user id of the client and its display name followed by " joined the chat", and
adds the client to the membership; but when the announcement encodes, the loop is left at its
own send, and no queue, the one of the new client included, ever receives it: after any
further events every queue holds what it held before the register, less what was drained. -/
theorem join_never_delivered (marshal : Marshal) (h : Hub) (c : Client) (q : QueryResult)
    (data : Payload) (hsel : h.pc = .select) (hm : marshal (joinMsg c) = .ok data) :
    joinMsg c = { Type_ := "join", Data := .null, UserID := c.UserID,
                  Message := c.Username ++ " joined the chat" } ∧
      c ∈ (h.handle marshal (.register c q)).clients ∧
      (h.handle marshal (.register c q)).pc = .sendBroadcast data ∧
      ∀ es x, Chan.Drained (h.send x)
        (((h.handle marshal (.register c q)).Run marshal es).send x) := by
  rw [handle_register_parks marshal h c q data hsel hm]
  refine ⟨rfl, mem_insertClient_self _ _, rfl, fun es x => ?_⟩
  exact (run_of_not_select marshal es _ (by simp)).2.2 x

theorem join_never_delivered_witness :
    ann ∈ (NewHub.handle sampleMarshal (.register ann (.ok []))).clients ∧
      Chan.Drained (NewHub.send ann)
        (((NewHub.handle sampleMarshal (.register ann (.ok []))).Run sampleMarshal
          [.drain ann]).send ann) :=
  have key := join_never_delivered sampleMarshal NewHub ann (.ok []) _ rfl rfl
  ⟨key.2.1, key.2.2.2 _ _⟩

/-- C1, evaluated on the code: when the join announcement of the first registered client
encodes, the membership after that register and any further events is that client alone:
no later register or unregister is ever handled. -/
theorem membership_frozen_after_first_register (marshal : Marshal) (a : Client)
    (q : QueryResult) (data : Payload) (hm : marshal (joinMsg a) = .ok data)
    (es : List Event) :
    (NewHub.Run marshal (.register a q :: es)).clients = [a] := by
  rw [Run_cons, handle_register_parks marshal NewHub a q data rfl hm]
  exact (run_of_not_select marshal es _ (by simp)).2.1

theorem membership_frozen_after_first_register_witness :
    (NewHub.Run sampleMarshal [.register ann (.ok []), .register bob (.ok [])]).clients = [ann] ∧
      (NewHub.Run sampleMarshal [.register ann (.ok []), .unregister ann]).clients = [ann] :=
  ⟨membership_frozen_after_first_register sampleMarshal ann (.ok []) _ rfl _,
   membership_frozen_after_first_register sampleMarshal ann (.ok []) _ rfl _⟩

/-- C8, evaluated on the code: (1) an unregister that follows the register of the same client
on a new hub is never handled: the client is still a member, its queue is still open, and the
loop is still at the send of the join announcement; (2) from any state at the `select`, the
unregister case for a member with an open queue removes it and closes its queue, but the
leave announcement stays at the loop's own send: no other queue ever receives it. -/
theorem leave_never_delivered (marshal : Marshal) (c : Client) (dj dl : Payload)
    (hj : marshal (joinMsg c) = .ok dj) (hl : marshal (leaveMsg c) = .ok dl) :
    (∀ q es, c ∈ (NewHub.Run marshal (.register c q :: .unregister c :: es)).clients ∧
        ((NewHub.Run marshal (.register c q :: .unregister c :: es)).send c).closed = false ∧
        (NewHub.Run marshal (.register c q :: .unregister c :: es)).pc = .sendBroadcast dj) ∧
      (∀ h : Hub, h.pc = .select → c ∈ h.clients → (h.send c).closed = false →
        c ∉ (h.handle marshal (.unregister c)).clients ∧
        ((h.handle marshal (.unregister c)).send c).closed = true ∧
        (h.handle marshal (.unregister c)).pc = .sendBroadcast dl ∧
        ∀ es x, x ≠ c →
          Chan.Drained (h.send x) (((h.handle marshal (.unregister c)).Run marshal es).send x)) := by
  constructor
  · intro q es
    rw [Run_cons, handle_register_parks marshal NewHub c q dj rfl hj]
    obtain ⟨h1, h2, h3⟩ := run_of_not_select marshal (.unregister c :: es)
      { clients := insertClient NewHub.clients c, send := NewHub.send, pc := .sendBroadcast dj }
      (by simp)
    refine ⟨?_, ?_, h1⟩
    · rw [h2]; exact mem_insertClient_self NewHub.clients c
    · rw [(h3 c).1]; rfl
  · intro h hsel hc hopen
    rw [handle_unregister_parks marshal h c dl hsel hc hopen hl]
    refine ⟨not_mem_deleteClient_self _ _, by simp [setChan], rfl, fun es x hx => ?_⟩
    have key := (run_of_not_select marshal es
      { clients := deleteClient h.clients c,
        send := setChan h.send c { (h.send c) with closed := true },
        pc := .sendBroadcast dl } (by simp)).2.2 x
    simpa [setChan_other _ _ hx] using key

theorem leave_never_delivered_witness :
    (ann ∈ (NewHub.Run sampleMarshal [.register ann (.ok []), .unregister ann]).clients ∧
        ((NewHub.Run sampleMarshal [.register ann (.ok []), .unregister ann]).send ann).closed
          = false) ∧
      ((twoMembers.handle sampleMarshal (.unregister ann)).send bob).buf = [] :=
  have key := leave_never_delivered sampleMarshal ann _ _ rfl rfl
  ⟨⟨(key.1 (.ok []) []).1, (key.1 (.ok []) []).2.1⟩,
   List.eq_nil_of_suffix_nil
     ((key.2 twoMembers rfl (by decide) rfl).2.2.2 [] bob (by decide)).2⟩

/-! ## The enqueue-or-drop statement and the broadcast loop -/

theorem mem_deleteClient {l : List Client} {c x : Client} :
    x ∈ deleteClient l c ↔ x ∈ l ∧ x ≠ c := by
  simp [deleteClient]

theorem deleteClient_sublist (l : List Client) (c : Client) : (deleteClient l c).Sublist l :=
  List.filter_sublist l

/-- The enqueue-or-drop statement on an open channel: the loop goes on, the channel takes the
value or is closed, and in the second case the client leaves the membership. -/
theorem sendOrDrop_open (h : Hub) (c : Client) (d : Payload)
    (hopen : (h.send c).closed = false) :
    (h.sendOrDrop c d).pc = h.pc ∧
      (h.sendOrDrop c d).send = setChan h.send c ((h.send c).offer d) ∧
      (h.sendOrDrop c d).clients =
        if (h.send c).buf.length < sendCap then h.clients else deleteClient h.clients c := by
  by_cases hroom : (h.send c).buf.length < sendCap
  · simp [Hub.sendOrDrop, Chan.trySend, Chan.offer, hopen, hroom]
  · simp [Hub.sendOrDrop, Chan.trySend, Chan.close, Chan.offer, hopen, hroom]

/-- On a closed channel the enqueue-or-drop statement panics and changes nothing else. -/
theorem sendOrDrop_closed (h : Hub) (c : Client) (d : Payload)
    (hclosed : (h.send c).closed = true) :
    h.sendOrDrop c d = { h with pc := .panicked } := by
  simp [Hub.sendOrDrop, Chan.trySend, hclosed]

theorem deliver_cons (p : Payload) (c : Client) (rest : List Client) (h : Hub)
    (hpc : (h.sendOrDrop c p).pc ≠ .panicked) :
    Hub.deliver p (c :: rest) h = Hub.deliver p rest (h.sendOrDrop c p) := by
  simp only [Hub.deliver]

/-- The broadcast loop over distinct clients with open channels: it does not panic, it
offers the value to each visited channel and to no other, and it removes exactly the visited
clients whose channel was full. -/
theorem deliver_spec (p : Payload) :
    ∀ (cs : List Client) (h : Hub), cs.Nodup → (∀ c ∈ cs, (h.send c).closed = false) →
      h.pc ≠ .panicked →
      (Hub.deliver p cs h).pc = h.pc ∧
        (∀ x, x ∈ (Hub.deliver p cs h).clients ↔
          x ∈ h.clients ∧ ¬ (x ∈ cs ∧ sendCap ≤ (h.send x).buf.length)) ∧
        (Hub.deliver p cs h).clients.Sublist h.clients ∧
        (∀ x, (Hub.deliver p cs h).send x =
          if x ∈ cs then (h.send x).offer p else h.send x) := by
  intro cs
  induction cs with
  | nil =>
    intro h _ _ _
    refine ⟨rfl, fun x => ?_, List.Sublist.refl _, fun x => ?_⟩ <;> simp [Hub.deliver]
  | cons c rest ih =>
    intro h hnd hopen hpc
    obtain ⟨hc_rest, hnd_rest⟩ := List.nodup_cons.mp hnd
    obtain ⟨s1, s2, s3⟩ := sendOrDrop_open h c p (hopen c (List.mem_cons_self _ _))
    have hsend_other : ∀ x, x ≠ c → (h.sendOrDrop c p).send x = h.send x := by
      intro x hx; rw [s2]; exact setChan_other _ _ hx
    have hopen1 : ∀ x ∈ rest, ((h.sendOrDrop c p).send x).closed = false := by
      intro x hx
      have hxc : x ≠ c := fun e => hc_rest (e ▸ hx)
      rw [hsend_other x hxc]
      exact hopen x (List.mem_cons_of_mem _ hx)
    have hpc1 : (h.sendOrDrop c p).pc ≠ .panicked := by rw [s1]; exact hpc
    rw [deliver_cons p c rest h hpc1]
    obtain ⟨i1, i2, i3, i4⟩ := ih (h.sendOrDrop c p) hnd_rest hopen1 hpc1
    have hsub : (h.sendOrDrop c p).clients.Sublist h.clients := by
      rw [s3]; split
      · exact List.Sublist.refl _
      · exact deleteClient_sublist _ _
    refine ⟨i1.trans s1, fun x => ?_, i3.trans hsub, fun x => ?_⟩
    · rw [i2 x]
      by_cases hxc : x = c
      · subst hxc
        rw [s3]
        by_cases hroom : (h.send x).buf.length < sendCap
        · simp [hroom, hc_rest]
        · simp [hroom, hc_rest, mem_deleteClient]
      · rw [hsend_other x hxc, s3]
        by_cases hroom : (h.send c).buf.length < sendCap
        · simp [hroom, hxc]
        · simp [hroom, hxc, mem_deleteClient]
    · rw [i4 x]
      by_cases hxc : x = c
      · subst hxc
        simp [hc_rest, s2, setChan_self]
      · simp [hxc, hsend_other x hxc]

/-- The broadcast case on a valid hub at its `select`. -/
theorem onBroadcast_spec (marshal : Marshal) (h : Hub) (p : Payload) (hsel : h.pc = .select)
    (hnd : h.clients.Nodup) (hopen : ∀ c ∈ h.clients, (h.send c).closed = false) :
    (h.handle marshal (.broadcast p)).pc = .select ∧
      (∀ x, x ∈ (h.handle marshal (.broadcast p)).clients ↔
        x ∈ h.clients ∧ (h.send x).buf.length < sendCap) ∧
      (h.handle marshal (.broadcast p)).clients.Nodup ∧
      (∀ x, (h.handle marshal (.broadcast p)).send x =
        if x ∈ h.clients then (h.send x).offer p else h.send x) := by
  have hh : h.handle marshal (.broadcast p) = Hub.deliver p h.clients h := by
    simp [Hub.handle, hsel, Hub.onBroadcast]
  rw [hh]
  obtain ⟨d1, d2, d3, d4⟩ := deliver_spec p h.clients h hnd hopen (by simp [hsel])
  refine ⟨d1.trans hsel, fun x => ?_, d3.nodup hnd, d4⟩
  rw [d2 x]
  constructor
  · rintro ⟨hx, hn⟩
    exact ⟨hx, by by_contra hlt; exact hn ⟨hx, by omega⟩⟩
  · rintro ⟨hx, hlt⟩
    exact ⟨hx, fun hn => by omega⟩

/-- The enqueue-or-drop statement touches no channel but the one of its client. -/
theorem sendOrDrop_send_other (h : Hub) (c : Client) (d : Payload) {x : Client} (hx : x ≠ c) :
    (h.sendOrDrop c d).send x = h.send x := by
  unfold Hub.sendOrDrop
  split
  · exact setChan_other _ _ hx
  · rfl
  · split
    · rfl
    · exact setChan_other _ _ hx

/-- The enqueue-or-drop statement leaves every closed channel as it is. -/
theorem sendOrDrop_send_closed (h : Hub) (c : Client) (d : Payload) {x : Client}
    (hx : (h.send x).closed = true) : (h.sendOrDrop c d).send x = h.send x := by
  by_cases hxc : x = c
  · subst hxc
    rw [sendOrDrop_closed h x d hx]
  · exact sendOrDrop_send_other h c d hxc

theorem deliver_send_closed (p : Payload) {x : Client} :
    ∀ (cs : List Client) (h : Hub), (h.send x).closed = true →
      (Hub.deliver p cs h).send x = h.send x := by
  intro cs
  induction cs with
  | nil => intro h _; rfl
  | cons c rest ih =>
    intro h hx
    have h1 : (h.sendOrDrop c p).send x = h.send x := sendOrDrop_send_closed h c p hx
    simp only [Hub.deliver]
    split
    · exact h1
    · rw [ih (h.sendOrDrop c p) (by rw [h1]; exact hx), h1]

/-- No event sends on a closed channel or reopens it: after one event a closed channel is
still closed and holds what it held, less what was drained. -/
theorem handle_send_closed (marshal : Marshal) (h : Hub) (e : Event) {x : Client}
    (hx : (h.send x).closed = true) :
    Chan.Drained (h.send x) ((h.handle marshal e).send x) := by
  by_cases hpc : h.pc = .select
  · cases e with
    | drain c => exact handle_drain_send marshal h c x
    | broadcast p =>
      have : (h.handle marshal (.broadcast p)).send x = h.send x := by
        simp only [Hub.handle, hpc, Hub.onBroadcast]
        exact deliver_send_closed p h.clients h hx
      rw [this]; exact Chan.Drained.refl _
    | register c q =>
      have : (h.handle marshal (.register c q)).send x = h.send x := by
        simp only [Hub.handle, hpc, Hub.onRegister]
        split
        · rfl
        · unfold Hub.sendChatHistory
          split
          · rfl
          · simp only
            split
            · rfl
            · exact sendOrDrop_send_closed _ c _ hx
      rw [this]; exact Chan.Drained.refl _
    | unregister c =>
      have : (h.handle marshal (.unregister c)).send x = h.send x := by
        simp only [Hub.handle, hpc, Hub.onUnregister]
        split
        · split
          · rfl
          · rename_i ch hclose
            have hxc : x ≠ c := by
              intro e; subst e
              simp [Chan.close, hx] at hclose
            unfold Hub.loopBroadcast
            split <;> exact setChan_other _ _ hxc
        · rfl
      rw [this]; exact Chan.Drained.refl _
  · exact (handle_of_not_select marshal h e hpc).2.2 x

theorem run_send_closed (marshal : Marshal) {x : Client} (es : List Event) :
    ∀ h : Hub, (h.send x).closed = true →
      Chan.Drained (h.send x) ((h.Run marshal es).send x) := by
  induction es with
  | nil => intro h _; exact Chan.Drained.refl _
  | cons e es ih =>
    intro h hx
    have h1 := handle_send_closed marshal h e hx
    rw [Run_cons]
    exact h1.trans (ih (h.handle marshal e) (by rw [h1.1]; exact hx))

/-! ## Broadcast: delivery and eviction -/

/-- C2: on a hub at its `select` whose members are distinct and have open queues, handling
`broadcast(p)` leaves every member either with `p` at the end of its queue (still open, still
a member) or closed and out of the membership (its queue content as before), and leaves the
channel of every client that was not a member exactly as it was. -/
theorem broadcast_reaches_members_only (marshal : Marshal) (h : Hub) (p : Payload)
    (hsel : h.pc = .select) (hnd : h.clients.Nodup)
    (hopen : ∀ c ∈ h.clients, (h.send c).closed = false) :
    (∀ c ∈ h.clients,
        (((h.handle marshal (.broadcast p)).send c).buf = (h.send c).buf ++ [p] ∧
          ((h.handle marshal (.broadcast p)).send c).closed = false ∧
          c ∈ (h.handle marshal (.broadcast p)).clients) ∨
        (((h.handle marshal (.broadcast p)).send c).closed = true ∧
          c ∉ (h.handle marshal (.broadcast p)).clients ∧
          ((h.handle marshal (.broadcast p)).send c).buf = (h.send c).buf)) ∧
      (∀ c, c ∉ h.clients → (h.handle marshal (.broadcast p)).send c = h.send c) := by
  obtain ⟨_, b2, _, b4⟩ := onBroadcast_spec marshal h p hsel hnd hopen
  constructor
  · intro c hc
    rw [b4 c, b2 c]
    by_cases hroom : (h.send c).buf.length < sendCap
    · left; simp [hc, hroom, Chan.offer, hopen c hc]
    · right; simp [hc, hroom, Chan.offer]
  · intro c hc
    rw [b4 c]; simp [hc]

theorem broadcast_reaches_members_only_witness :
    (((annFull.handle sampleMarshal (.broadcast [1])).send bob).buf = (annFull.send bob).buf ++ [[1]] ∧
        ((annFull.handle sampleMarshal (.broadcast [1])).send bob).closed = false ∧
        bob ∈ (annFull.handle sampleMarshal (.broadcast [1])).clients) ∨
      (((annFull.handle sampleMarshal (.broadcast [1])).send bob).closed = true ∧
        bob ∉ (annFull.handle sampleMarshal (.broadcast [1])).clients ∧
        ((annFull.handle sampleMarshal (.broadcast [1])).send bob).buf = (annFull.send bob).buf) :=
  (broadcast_reaches_members_only sampleMarshal annFull [1] rfl (by decide) (by decide)).1
    bob (by decide)

/-- C4: on a hub at its `select` whose members are distinct and have open queues, a member
whose queue holds 256 pending frames when `broadcast(p)` is handled is out of the membership
after that broadcast, its queue is closed and holds what it held (`p` is not in it), and
whatever happens later the queue stays closed and nothing is ever added to it. -/
theorem full_member_evicted (marshal : Marshal) (h : Hub) (c : Client) (p : Payload)
    (hsel : h.pc = .select) (hnd : h.clients.Nodup)
    (hopen : ∀ x ∈ h.clients, (h.send x).closed = false)
    (hc : c ∈ h.clients) (hfull : (h.send c).buf.length = 256) :
    c ∉ (h.handle marshal (.broadcast p)).clients ∧
      ((h.handle marshal (.broadcast p)).send c).closed = true ∧
      ((h.handle marshal (.broadcast p)).send c).buf = (h.send c).buf ∧
      ∀ es, (((h.handle marshal (.broadcast p)).Run marshal es).send c).closed = true ∧
        (((h.handle marshal (.broadcast p)).Run marshal es).send c).buf <:+ (h.send c).buf := by
  obtain ⟨_, b2, _, b4⟩ := onBroadcast_spec marshal h p hsel hnd hopen
  have hroom : ¬ (h.send c).buf.length < sendCap := by simp [sendCap, hfull]
  have hsend : (h.handle marshal (.broadcast p)).send c = { (h.send c) with closed := true } := by
    rw [b4 c]; simp [hc, Chan.offer, hroom]
  have hclosed : ((h.handle marshal (.broadcast p)).send c).closed = true := by rw [hsend]
  have hbuf : ((h.handle marshal (.broadcast p)).send c).buf = (h.send c).buf := by rw [hsend]
  refine ⟨fun hmem => hroom ((b2 c).mp hmem).2, hclosed, hbuf, fun es => ?_⟩
  have key := run_send_closed marshal es (h.handle marshal (.broadcast p)) hclosed
  exact ⟨key.1.trans hclosed, hbuf ▸ key.2⟩

theorem full_member_evicted_witness :
    ann ∉ (annFull.handle sampleMarshal (.broadcast [1])).clients ∧
      ((annFull.handle sampleMarshal (.broadcast [1])).send ann).closed = true ∧
      ((annFull.handle sampleMarshal (.broadcast [1])).send ann).buf = (annFull.send ann).buf :=
  have key := full_member_evicted sampleMarshal annFull ann [1] rfl (by decide) (by decide)
    (by decide) (List.length_replicate 256 [0])
  ⟨key.1, key.2.1, key.2.2.1⟩

/-! ## The shape of each case of the loop -/

theorem mem_insertClient {l : List Client} {c x : Client} :
    x ∈ insertClient l c ↔ x ∈ l ∨ x = c := by
  unfold insertClient
  split
  · constructor
    · exact Or.inl
    · rintro (hx | rfl) <;> assumption
  · simp

theorem nodup_insertClient {l : List Client} (c : Client) (hnd : l.Nodup) :
    (insertClient l c).Nodup := by
  unfold insertClient
  split
  · exact hnd
  · rename_i hc
    exact List.Nodup.append hnd (List.nodup_singleton c) (by simpa using hc)

theorem sendChatHistory_cases (marshal : Marshal) (h : Hub) (c : Client) (q : QueryResult) :
    Hub.sendChatHistory marshal h c q = h ∨
      ∃ data, Hub.sendChatHistory marshal h c q = h.sendOrDrop c data := by
  unfold Hub.sendChatHistory
  split
  · exact Or.inl rfl
  · simp only
    split
    · exact Or.inl rfl
    · exact Or.inr ⟨_, rfl⟩

/-- The register case: the client is added, and then either the loop is left at its own send,
or nothing more happens, or the enqueue-or-drop statement runs on the client's channel. -/
theorem onRegister_cases (marshal : Marshal) (h : Hub) (c : Client) (q : QueryResult) :
    (∃ data, h.onRegister marshal c q =
        { clients := insertClient h.clients c, send := h.send, pc := .sendBroadcast data }) ∨
      h.onRegister marshal c q =
        { clients := insertClient h.clients c, send := h.send, pc := h.pc } ∨
      ∃ data, h.onRegister marshal c q =
        Hub.sendOrDrop { clients := insertClient h.clients c, send := h.send, pc := h.pc }
          c data := by
  unfold Hub.onRegister
  simp only
  split
  · exact Or.inl ⟨_, rfl⟩
  · rcases sendChatHistory_cases marshal
      { clients := insertClient h.clients c, send := h.send, pc := h.pc } c q with e | ⟨d, e⟩
    · exact Or.inr (Or.inl e)
    · exact Or.inr (Or.inr ⟨d, e⟩)

/-- The unregister case for a member whose queue is open: the member is removed and its queue
closed; the loop goes on, or is left at its own send. -/
theorem onUnregister_cases (marshal : Marshal) (h : Hub) (c : Client) (hc : c ∈ h.clients)
    (hopen : (h.send c).closed = false) :
    h.onUnregister marshal c =
        { clients := deleteClient h.clients c,
          send := setChan h.send c { (h.send c) with closed := true }, pc := h.pc } ∨
      ∃ data, h.onUnregister marshal c =
        { clients := deleteClient h.clients c,
          send := setChan h.send c { (h.send c) with closed := true },
          pc := .sendBroadcast data } := by
  cases hb : broadcastMessage marshal (leaveMsg c) with
  | none => left; simp [Hub.onUnregister, hc, Chan.close, hopen, hb, Hub.loopBroadcast]
  | some data =>
    right; exact ⟨data, by simp [Hub.onUnregister, hc, Chan.close, hopen, hb, Hub.loopBroadcast]⟩

theorem handle_select_register (marshal : Marshal) (h : Hub) (c : Client) (q : QueryResult)
    (hsel : h.pc = .select) : h.handle marshal (.register c q) = h.onRegister marshal c q := by
  simp [Hub.handle, hsel]

theorem handle_select_unregister (marshal : Marshal) (h : Hub) (c : Client)
    (hsel : h.pc = .select) : h.handle marshal (.unregister c) = h.onUnregister marshal c := by
  simp [Hub.handle, hsel]

theorem handle_unregister_of_not_select (marshal : Marshal) (h : Hub) (c : Client)
    (hpc : h.pc ≠ .select) : h.handle marshal (.unregister c) = h := by
  cases hp : h.pc with
  | select => exact absurd hp hpc
  | sendBroadcast d => simp [Hub.handle, hp]
  | panicked => simp [Hub.handle, hp]

theorem handle_unregister_of_not_mem (marshal : Marshal) (h : Hub) (c : Client)
    (hc : c ∉ h.clients) : h.handle marshal (.unregister c) = h := by
  by_cases hpc : h.pc = .select
  · rw [handle_select_unregister marshal h c hpc]
    simp [Hub.onUnregister, hc]
  · exact handle_unregister_of_not_select marshal h c hpc

/-! ## Validity is kept -/

theorem sendOrDrop_valid (h : Hub) (c : Client) (d : Payload) (hv : h.Valid)
    (hopen : (h.send c).closed = false) : (h.sendOrDrop c d).Valid := by
  obtain ⟨hnd, hmem, hpc⟩ := hv
  obtain ⟨s1, s2, s3⟩ := sendOrDrop_open h c d hopen
  refine ⟨?_, ?_, by rw [s1]; exact hpc⟩
  · rw [s3]; split
    · exact hnd
    · exact (deleteClient_sublist _ _).nodup hnd
  · intro x hx
    rw [s2]
    rw [s3] at hx
    by_cases hxc : x = c
    · subst hxc
      by_cases hroom : (h.send x).buf.length < sendCap
      · simp [setChan_self, Chan.offer, hroom, hopen]
      · simp [hroom] at hx
        exact absurd hx (not_mem_deleteClient_self _ _)
    · rw [setChan_other _ _ hxc]
      refine hmem x ?_
      split at hx
      · exact hx
      · exact (mem_deleteClient.mp hx).1

theorem sendOrDrop_clients_sublist (h : Hub) (c : Client) (d : Payload) :
    (h.sendOrDrop c d).clients.Sublist h.clients := by
  unfold Hub.sendOrDrop
  split
  · exact List.Sublist.refl _
  · exact List.Sublist.refl _
  · split
    · exact List.Sublist.refl _
    · exact deleteClient_sublist _ _

theorem sendOrDrop_closed_other (h : Hub) (c : Client) (d : Payload) {x : Client}
    (hx : x ≠ c) : ((h.sendOrDrop c d).send x).closed = (h.send x).closed := by
  rw [sendOrDrop_send_other h c d hx]

/-- One event keeps a valid hub valid, provided a client that registers has an open queue. -/
theorem handle_valid (marshal : Marshal) (h : Hub) (e : Event) (hv : h.Valid)
    (hreg : ∀ c q, e = .register c q → (h.send c).closed = false) :
    (h.handle marshal e).Valid := by
  by_cases hsel : h.pc = .select
  · cases e with
    | drain c =>
      obtain ⟨hnd, hmem, hpc⟩ := hv
      refine ⟨hnd, fun x hx => ?_, hpc⟩
      rw [(handle_drain_send marshal h c x).1]
      exact hmem x hx
    | broadcast p =>
      obtain ⟨hnd, hmem, hpc⟩ := hv
      obtain ⟨b1, b2, b3, b4⟩ := onBroadcast_spec marshal h p hsel hnd hmem
      refine ⟨b3, fun x hx => ?_, by rw [b1]; simp⟩
      obtain ⟨hx1, hx2⟩ := (b2 x).mp hx
      rw [b4 x]
      simp [hx1, Chan.offer, hx2, hmem x hx1]
    | unregister c =>
      by_cases hc : c ∈ h.clients
      · obtain ⟨hnd, hmem, hpc⟩ := hv
        have hshape : ∀ pc0 : Pc, pc0 ≠ .panicked →
            Hub.Valid { clients := deleteClient h.clients c,
                        send := setChan h.send c { (h.send c) with closed := true },
                        pc := pc0 } := by
          intro pc0 hpc0
          refine ⟨(deleteClient_sublist _ _).nodup hnd, fun x hx => ?_, hpc0⟩
          obtain ⟨hx1, hx2⟩ := mem_deleteClient.mp hx
          show (setChan h.send c _ x).closed = false
          rw [setChan_other _ _ hx2]
          exact hmem x hx1
        rw [handle_select_unregister marshal h c hsel]
        rcases onUnregister_cases marshal h c hc (hmem c hc) with e | ⟨d, e⟩
        · rw [e]; exact hshape h.pc hpc
        · rw [e]; exact hshape _ (by simp)
      · rw [handle_unregister_of_not_mem marshal h c hc]; exact hv
    | register c q =>
      have hopen := hreg c q rfl
      obtain ⟨hnd, hmem, hpc⟩ := hv
      have hshape : ∀ pc0 : Pc, pc0 ≠ .panicked →
          Hub.Valid { clients := insertClient h.clients c, send := h.send, pc := pc0 } := by
        intro pc0 hpc0
        refine ⟨nodup_insertClient c hnd, fun x hx => ?_, hpc0⟩
        rcases mem_insertClient.mp hx with hx | rfl
        · exact hmem x hx
        · exact hopen
      rw [handle_select_register marshal h c q hsel]
      rcases onRegister_cases marshal h c q with ⟨d, e⟩ | e | ⟨d, e⟩
      · rw [e]; exact hshape _ (by simp)
      · rw [e]; exact hshape _ hpc
      · rw [e]; exact sendOrDrop_valid _ c d (hshape _ hpc) hopen
  · obtain ⟨hnd, hmem, hpc⟩ := hv
    obtain ⟨k1, k2, k3⟩ := handle_of_not_select marshal h e hsel
    refine ⟨by rw [k2]; exact hnd, fun x hx => ?_, by rw [k1]; exact hpc⟩
    rw [(k3 x).1]
    exact hmem x (by rw [k2] at hx; exact hx)

/-- One event on a valid hub does not admit a client it does not register, and neither
closes nor reopens the queue of a client that is not a member. -/
theorem handle_nonmember (marshal : Marshal) (h : Hub) (e : Event) {x : Client} (hv : h.Valid)
    (hx : x ∉ h.clients) (hreg : ∀ q, e ≠ .register x q) :
    x ∉ (h.handle marshal e).clients ∧
      ((h.handle marshal e).send x).closed = (h.send x).closed := by
  by_cases hsel : h.pc = .select
  · cases e with
    | drain c => exact ⟨hx, (handle_drain_send marshal h c x).1⟩
    | broadcast p =>
      obtain ⟨_, b2, _, b4⟩ := onBroadcast_spec marshal h p hsel hv.1 hv.2.1
      refine ⟨fun hmem => hx ((b2 x).mp hmem).1, ?_⟩
      rw [b4 x]; simp [hx]
    | unregister c =>
      by_cases hc : c ∈ h.clients
      · have hxc : x ≠ c := fun e => hx (e ▸ hc)
        rw [handle_select_unregister marshal h c hsel]
        rcases onUnregister_cases marshal h c hc (hv.2.1 c hc) with e | ⟨d, e⟩ <;>
        · rw [e]
          exact ⟨fun hmem => hx (mem_deleteClient.mp hmem).1,
            by show (setChan h.send c _ x).closed = _; rw [setChan_other _ _ hxc]⟩
      · rw [handle_unregister_of_not_mem marshal h c hc]; exact ⟨hx, rfl⟩
    | register c q =>
      have hxc : x ≠ c := fun e => hreg q (e ▸ rfl)
      have hx1 : x ∉ insertClient h.clients c := fun hmem =>
        (mem_insertClient.mp hmem).elim hx hxc
      rw [handle_select_register marshal h c q hsel]
      rcases onRegister_cases marshal h c q with ⟨d, e⟩ | e | ⟨d, e⟩
      · rw [e]; exact ⟨hx1, rfl⟩
      · rw [e]; exact ⟨hx1, rfl⟩
      · rw [e]
        exact ⟨fun hmem => hx1 ((sendOrDrop_clients_sublist _ c d).subset hmem),
          sendOrDrop_closed_other _ c d hxc⟩
  · obtain ⟨_, k2, k3⟩ := handle_of_not_select marshal h e hsel
    exact ⟨by rw [k2]; exact hx, (k3 x).1⟩

theorem NewHub_valid : NewHub.Valid :=
  ⟨List.nodup_nil, fun _ hc => absurd hc (List.not_mem_nil _), by simp [NewHub]⟩

/-- A run keeps a valid hub valid when the clients it registers are distinct, are not members
yet and have open queues. -/
theorem run_valid (marshal : Marshal) (es : List Event) :
    ∀ h : Hub, h.Valid → (registered es).Nodup →
      (∀ c ∈ registered es, (h.send c).closed = false ∧ c ∉ h.clients) →
      (h.Run marshal es).Valid := by
  induction es with
  | nil => intro h hv _ _; exact hv
  | cons e es ih =>
    intro h hv hnd hfresh
    rw [Run_cons]
    cases e with
    | register c q =>
      simp only [registered, List.nodup_cons] at hnd
      have hfresh1 : ∀ x ∈ registered es, (h.send x).closed = false ∧ x ∉ h.clients :=
        fun x hx => hfresh x (by simp [registered, hx])
      refine ih _ (handle_valid marshal h _ hv ?_) hnd.2 fun x hx => ?_
      · intro c1 q1 e
        cases e
        exact (hfresh c (by simp [registered])).1
      · have hxc : ∀ q1, Event.register c q ≠ Event.register x q1 := by
          intro q1 e
          cases e
          exact hnd.1 hx
        obtain ⟨n1, n2⟩ := handle_nonmember marshal h (.register c q) hv (hfresh1 x hx).2 hxc
        exact ⟨by rw [n2]; exact (hfresh1 x hx).1, n1⟩
    | unregister c =>
      refine ih _ (handle_valid marshal h _ hv (by intro _ _ e; cases e)) hnd fun x hx => ?_
      obtain ⟨n1, n2⟩ := handle_nonmember marshal h (.unregister c) hv (hfresh x hx).2
        (by intro _ e; cases e)
      exact ⟨by rw [n2]; exact (hfresh x hx).1, n1⟩
    | broadcast p =>
      refine ih _ (handle_valid marshal h _ hv (by intro _ _ e; cases e)) hnd fun x hx => ?_
      obtain ⟨n1, n2⟩ := handle_nonmember marshal h (.broadcast p) hv (hfresh x hx).2
        (by intro _ e; cases e)
      exact ⟨by rw [n2]; exact (hfresh x hx).1, n1⟩
    | drain c =>
      refine ih _ (handle_valid marshal h _ hv (by intro _ _ e; cases e)) hnd fun x hx => ?_
      obtain ⟨n1, n2⟩ := handle_nonmember marshal h (.drain c) hv (hfresh x hx).2
        (by intro _ e; cases e)
      exact ⟨by rw [n2]; exact (hfresh x hx).1, n1⟩

theorem registered_take_sublist (es : List Event) :
    ∀ n, (registered (es.take n)).Sublist (registered es) := by
  induction es with
  | nil => intro n; simp [registered]
  | cons e es ih =>
    intro n
    cases n with
    | zero => simp [registered]
    | succ n =>
      cases e with
      | register c q => simpa [registered] using ih n
      | unregister c => simpa [registered] using ih n
      | broadcast p => simpa [registered] using ih n
      | drain c => simpa [registered] using ih n

/-! ## Invariants of the runs from a new hub -/

/-- C5: in every state reached from a new hub by register (each with its history delivery),
unregister, broadcast and drain events, the clients being registered at most once each as
`ServeWS` does, every member has an open `send` queue: no client whose queue has been closed
is in the membership. -/
theorem members_have_open_queues (marshal : Marshal) (es : List Event)
    (hnd : (registered es).Nodup) :
    ∀ c ∈ (NewHub.Run marshal es).clients, ((NewHub.Run marshal es).send c).closed = false :=
  (run_valid marshal es NewHub NewHub_valid hnd
    (fun _ _ => ⟨rfl, List.not_mem_nil _⟩)).2.1

theorem members_have_open_queues_witness :
    ((NewHub.Run sampleMarshal
        [.broadcast [1], .unregister bob, .register ann (.ok []), .unregister ann]).send ann).closed
      = false :=
  members_have_open_queues sampleMarshal
    [.broadcast [1], .unregister bob, .register ann (.ok []), .unregister ann]
    (by decide) ann (by decide)

/-- C9: for every sequence of register (each with its history delivery), unregister,
broadcast and drain events on a new hub in which each client is registered at most once, no
step panics: after every prefix of the sequence the loop has neither closed a closed queue nor
sent on a closed queue. -/
theorem loop_never_panics (marshal : Marshal) (es : List Event)
    (hnd : (registered es).Nodup) (n : Nat) :
    (NewHub.Run marshal (es.take n)).pc ≠ .panicked :=
  (run_valid marshal (es.take n) NewHub NewHub_valid
    ((registered_take_sublist es n).nodup hnd)
    (fun _ _ => ⟨rfl, List.not_mem_nil _⟩)).2.2

theorem loop_never_panics_witness :
    (NewHub.Run sampleMarshal
        ([Event.broadcast [1], .register ann (.ok []), .unregister ann, .drain ann].take 3)).pc
      ≠ .panicked :=
  loop_never_panics sampleMarshal
    [.broadcast [1], .register ann (.ok []), .unregister ann, .drain ann] (by decide) 3

/-! ## Unregister twice -/

theorem unregister_settles (marshal : Marshal) (h : Hub) (c : Client) :
    (h.handle marshal (.unregister c)).pc ≠ .select ∨
      c ∉ (h.handle marshal (.unregister c)).clients := by
  by_cases hsel : h.pc = .select
  · by_cases hc : c ∈ h.clients
    · rw [handle_select_unregister marshal h c hsel]
      unfold Hub.onUnregister
      simp only [hc, if_true]
      split
      · left; simp
      · unfold Hub.loopBroadcast
        split
        · right; exact not_mem_deleteClient_self _ _
        · left; simp
    · right
      rw [handle_unregister_of_not_mem marshal h c hc]; exact hc
  · left
    rw [handle_unregister_of_not_select marshal h c hsel]; exact hsel

/-- C6: handling `unregister(c)` for a client that is not a member leaves the whole hub state
as it is (membership, every queue, the position of the loop: no leave announcement, no close),
and handling `unregister(c)` a second time leaves the state the first one left. -/
theorem unregister_idempotent (marshal : Marshal) (h : Hub) (c : Client) :
    (c ∉ h.clients → h.handle marshal (.unregister c) = h) ∧
      (h.handle marshal (.unregister c)).handle marshal (.unregister c) =
        h.handle marshal (.unregister c) := by
  refine ⟨handle_unregister_of_not_mem marshal h c, ?_⟩
  rcases unregister_settles marshal h c with hpc | hc
  · exact handle_unregister_of_not_select marshal _ c hpc
  · exact handle_unregister_of_not_mem marshal _ c hc

theorem unregister_idempotent_witness :
    twoMembers.handle sampleMarshal (.unregister { ptr := 3, UserID := 7, Username := "ann" })
        = twoMembers ∧
      (twoMembers.handle sampleMarshal (.unregister ann)).handle sampleMarshal (.unregister ann) =
        twoMembers.handle sampleMarshal (.unregister ann) :=
  ⟨(unregister_idempotent sampleMarshal twoMembers _).1 (by decide),
   (unregister_idempotent sampleMarshal twoMembers ann).2⟩

/-! ## Persist and broadcast: the failing insert -/

/-- C10: when the mutex is free and the insert fails with `err`, `SaveAndBroadcastMessage`
returns `err` without reaching the send on the broadcast channel, and leaves the world as it
found it: the hub (every queue and the membership) and the table unchanged, the mutex free. -/
theorem save_failure_returns_error (marshal : Marshal) (w : World) (err : Error)
    (now₁ now₂ : Time) (userID : Int) (username message : String)
    (hfree : w.dbMutex = false) :
    (SaveAndBroadcastMessage marshal (.error err) now₁ now₂ w userID username message).2
        = .returned (some err) ∧
      (∀ data,
        (SaveAndBroadcastMessage marshal (.error err) now₁ now₂ w userID username message).2
          ≠ .sending data) ∧
      (SaveAndBroadcastMessage marshal (.error err) now₁ now₂ w userID username message).1.hub
        = w.hub ∧
      (SaveAndBroadcastMessage marshal (.error err) now₁ now₂ w userID username
        message).1.chat_messages = w.chat_messages ∧
      (SaveAndBroadcastMessage marshal (.error err) now₁ now₂ w userID username
        message).1.dbMutex = false := by
  simp [SaveAndBroadcastMessage, hfree]

theorem save_failure_returns_error_witness :
    (SaveAndBroadcastMessage sampleMarshal (.error "database is locked") 10 11 quietWorld 7
        "ann" "hello").2 = .returned (some "database is locked") ∧
      (SaveAndBroadcastMessage sampleMarshal (.error "database is locked") 10 11 quietWorld 7
        "ann" "hello").1.dbMutex = false :=
  have key := save_failure_returns_error sampleMarshal quietWorld "database is locked" 10 11 7
    "ann" "hello" rfl
  ⟨key.1, key.2.2.2.2⟩

/-! ## The reversal loop -/

theorem swapAt_length (l : List ChatMessage) (i j : Nat) : (swapAt l i j).length = l.length := by
  unfold swapAt
  split <;> simp

theorem getElem?_swapAt (l : List ChatMessage) {i j : Nat} (hi : i < l.length)
    (hj : j < l.length) (m : Nat) :
    (swapAt l i j)[m]? = if m = j then l[i]? else if m = i then l[j]? else l[m]? := by
  unfold swapAt
  rw [List.getElem?_eq_getElem hi, List.getElem?_eq_getElem hj]
  simp only [List.getElem?_set]
  by_cases h1 : m = j
  · subst h1
    simp [hj]
  · by_cases h2 : m = i
    · subst h2
      simp [h1, hi, Ne.symm h1]
    · simp [h1, h2, Ne.symm h1, Ne.symm h2]

/-- With `k` turns left the loop has still to swap the first `k` positions with the last `k`:
after it, those hold each other's values in mirror order and the middle is as it was. -/
theorem getElem?_reverseLoop : ∀ (k : Nat) (l : List ChatMessage), 2 * k ≤ l.length →
    ∀ m, (reverseLoop k l)[m]? =
      if m < k ∨ (l.length - k ≤ m ∧ m < l.length) then l[l.length - 1 - m]? else l[m]? := by
  intro k
  induction k with
  | zero =>
    intro l _ m
    have : ¬ (l.length ≤ m ∧ m < l.length) := by omega
    simp [reverseLoop, this]
  | succ k ih =>
    intro l hk m
    rw [reverseLoop, ih _ (by rw [swapAt_length]; omega), swapAt_length]
    rw [getElem?_swapAt l (by omega) (by omega), getElem?_swapAt l (by omega) (by omega)]
    split_ifs <;> first | rfl | (congr 1; omega)

theorem reverseMessages_eq_reverse (l : List ChatMessage) : reverseMessages l = l.reverse := by
  apply List.ext_getElem?
  intro m
  unfold reverseMessages
  rw [getElem?_reverseLoop _ l (by omega)]
  by_cases hm : m < l.length
  · rw [List.getElem?_reverse hm]
    split_ifs <;> first | rfl | (congr 1; omega)
  · have hc : ¬ (m < l.length / 2 ∨ (l.length - l.length / 2 ≤ m ∧ m < l.length)) := by omega
    rw [if_neg hc, List.getElem?_eq_none (by omega),
      List.getElem?_eq_none (by rw [List.length_reverse]; omega)]

theorem scanRows_map_ok (messages : List ChatMessage) :
    scanRows (messages.map Except.ok) = messages := by
  induction messages with
  | nil => rfl
  | cons m ms ih =>
    simp only [scanRows, List.map_cons, List.filterMap_cons] at ih ⊢
    rw [ih]

theorem scanAll_map_ok (messages : List ChatMessage) :
    scanAll (messages.map Except.ok) = .ok messages := by
  induction messages with
  | nil => rfl
  | cons m ms ih => simp [scanAll, ih]

theorem sendChatHistory_ok (marshal : Marshal) (h : Hub) (c : Client)
    (rows : List (Except Error ChatMessage)) :
    Hub.sendChatHistory marshal h c (.ok rows) =
      match marshal (historyMsg (reverseMessages (scanRows rows))) with
      | .error _ => h
      | .ok data => h.sendOrDrop c data := rfl

/-- C14: the reversal loop returns, for every list of messages (empty, of one element, of odd
or even length), exactly the reversed list; the history message of `sendChatHistory` carries
that reversed list and `GetChatHistory` answers it, so both sites turn the same newest-first
rows into the same oldest-first list. -/
theorem reversal_is_reverse (marshal : Marshal) (h : Hub) (c : Client)
    (messages : List ChatMessage) :
    reverseMessages messages = messages.reverse ∧
      Hub.sendChatHistory marshal h c (.ok (messages.map Except.ok)) =
        (match marshal (historyMsg messages.reverse) with
         | .error _ => h
         | .ok data => h.sendOrDrop c data) ∧
      ChatHandler.GetChatHistory (.ok (messages.map Except.ok)) = .ok messages.reverse := by
  refine ⟨reverseMessages_eq_reverse messages, ?_, ?_⟩
  · rw [sendChatHistory_ok, scanRows_map_ok, reverseMessages_eq_reverse]
  · simp [ChatHandler.GetChatHistory, scanAll_map_ok, reverseMessages_eq_reverse]

/-! ## The history round trip -/

/-- Rows whose timestamps strictly increase in insertion order come back from the query
newest first, that is in reverse insertion order, when the limit does not cut them. -/
theorem selectRecent_of_increasing (limit : Nat) (table : List ChatMessage)
    (hinc : table.Pairwise (fun a b => a.CreatedAt < b.CreatedAt))
    (hlen : table.length ≤ limit) : selectRecent limit table = table.reverse := by
  have hperm : (table.insertionSort (fun a b => b.CreatedAt ≤ a.CreatedAt)).Perm table :=
    List.perm_insertionSort _ table
  haveI : IsTotal ChatMessage (fun a b => b.CreatedAt ≤ a.CreatedAt) :=
    ⟨fun a b => Nat.le_total b.CreatedAt a.CreatedAt⟩
  haveI : IsTrans ChatMessage (fun a b => b.CreatedAt ≤ a.CreatedAt) :=
    ⟨fun _ _ _ h₁ h₂ => Nat.le_trans h₂ h₁⟩
  have hsorted : (table.insertionSort (fun a b => b.CreatedAt ≤ a.CreatedAt)).Pairwise
      (fun a b => b.CreatedAt ≤ a.CreatedAt) :=
    List.sorted_insertionSort _ table
  have hne : table.Pairwise (fun a b => a.CreatedAt ≠ b.CreatedAt) :=
    hinc.imp (fun hlt => Nat.ne_of_lt hlt)
  have hne1 : (table.insertionSort (fun a b => b.CreatedAt ≤ a.CreatedAt)).Pairwise
      (fun a b => a.CreatedAt ≠ b.CreatedAt) :=
    (hperm.pairwise_iff (fun hab => Ne.symm hab)).mpr hne
  have hstrict : (table.insertionSort (fun a b => b.CreatedAt ≤ a.CreatedAt)).Pairwise
      (fun a b => b.CreatedAt < a.CreatedAt) :=
    (hsorted.and hne1).imp (fun hab => Nat.lt_of_le_of_ne hab.1 (Ne.symm hab.2))
  have hrev : table.reverse.Pairwise (fun a b => b.CreatedAt < a.CreatedAt) :=
    List.pairwise_reverse.mpr hinc
  haveI : IsAntisymm ChatMessage (fun a b => b.CreatedAt < a.CreatedAt) :=
    ⟨fun _ _ h₁ h₂ => absurd h₁ (Nat.lt_asymm h₂)⟩
  have heq : table.insertionSort (fun a b => b.CreatedAt ≤ a.CreatedAt) = table.reverse :=
    List.eq_of_perm_of_sorted (hperm.trans (List.reverse_perm table).symm) hstrict hrev
  unfold selectRecent
  rw [heq, List.take_of_length_le (by rw [List.length_reverse]; exact hlen)]

/-- C15, as the code has it: for rows appended with strictly increasing creation timestamps
and not more numerous than the limit of the query, history gives them in the order they were
appended; the replay of `sendChatHistory` (limit 50) carries them in that order and
`GetChatHistory` (limit 100) answers them in that order. -/
theorem history_round_trip (table : List ChatMessage)
    (hinc : table.Pairwise (fun a b => a.CreatedAt < b.CreatedAt)) :
    (∀ limit, table.length ≤ limit → reverseMessages (selectRecent limit table) = table) ∧
      (table.length ≤ 50 → ∀ (marshal : Marshal) (h : Hub) (c : Client),
        Hub.sendChatHistory marshal h c (historyQuery 50 table) =
          (match marshal (historyMsg table) with
           | .error _ => h
           | .ok data => h.sendOrDrop c data)) ∧
      (table.length ≤ 100 → ChatHandler.GetChatHistory (historyQuery 100 table) = .ok table) := by
  have key : ∀ limit, table.length ≤ limit →
      reverseMessages (selectRecent limit table) = table := by
    intro limit hlen
    rw [selectRecent_of_increasing limit table hinc hlen, reverseMessages_eq_reverse,
      List.reverse_reverse]
  refine ⟨key, fun hlen marshal h c => ?_, fun hlen => ?_⟩
  · unfold historyQuery
    rw [sendChatHistory_ok, scanRows_map_ok, key 50 hlen]
  · unfold historyQuery
    simp only [ChatHandler.GetChatHistory, scanAll_map_ok]
    rw [key 100 hlen]

theorem history_round_trip_witness :
    reverseMessages (selectRecent 5 fiveRows) = fiveRows ∧
      ChatHandler.GetChatHistory (historyQuery 100 fiveRows) = .ok fiveRows :=
  have key := history_round_trip fiveRows (by decide)
  ⟨key.1 5 (by decide), key.2.2 (by decide)⟩

/-- C15 fails as stated: two rows appended in this order, the clock reading 5 for the first and
3 for the second, come back from history (limit 5, and the endpoint) in the opposite order. -/
theorem history_round_trip_fails_when_clock_steps_back :
    reverseMessages (selectRecent 5 clockStepsBack) ≠ clockStepsBack ∧
      ChatHandler.GetChatHistory (historyQuery 100 clockStepsBack) =
        .ok [storedRow 2 8 "bob" "second" 3, storedRow 1 7 "ann" "first" 5] := by
  decide

/-! ## Concurrent calls: the mutex orders storage and submission alike -/

theorem setPc_self (pcs : Nat → CallPc) (i : Nat) (pc : CallPc) : setPc pcs i pc i = pc := by
  simp [setPc]

theorem setPc_other (pcs : Nat → CallPc) {i j : Nat} (pc : CallPc) (h : j ≠ i) :
    setPc pcs i pc j = pcs j := by
  simp [setPc, h]

theorem started_setPc (pcs : Nat → CallPc) (L : List Nat) (i : Nat) (pc : CallPc)
    (hst : ∀ a ∈ L, pcs a ≠ .atLock ∧ pcs a ≠ .atExec)
    (hpc : i ∈ L → pc ≠ .atLock ∧ pc ≠ .atExec) :
    ∀ a ∈ L, setPc pcs i pc a ≠ .atLock ∧ setPc pcs i pc a ≠ .atExec := by
  intro a ha
  by_cases hne : a = i
  · subst hne
    rw [setPc_self]
    exact hpc ha
  · rw [setPc_other _ _ hne]
    exact hst a ha

theorem Calls.start_inv (calls : Nat → SaveCall) (w0 : World) :
    Calls.Inv calls w0 (Calls.start w0) where
  mutex := by intro i hi; simp [Calls.start, CallPc.holdsMutex] at hi
  one := by intro i j hi; simp [Calls.start, CallPc.holdsMutex] at hi
  table := by simp [Calls.start]
  last := by intro i hi; simp [Calls.start] at hi
  sub := List.Sublist.refl _
  sending := by intro i data hi; simp [Calls.start] at hi
  idle := fun _ => rfl
  nodup := List.nodup_nil
  started := by intro i hi; simp [Calls.start] at hi

theorem Calls.stepCall_inv (marshal : Marshal) (calls : Nat → SaveCall) (w0 : World) (s : Calls)
    (i : Nat) (hs : Calls.Inv calls w0 s) : Calls.Inv calls w0 (s.stepCall marshal calls i) := by
  have others : ∀ j, (s.pcs i).holdsMutex = true → j ≠ i → (s.pcs j).holdsMutex = false := by
    intro j hi hji
    cases hj : (s.pcs j).holdsMutex with
    | false => rfl
    | true => exact absurd (hs.one j i hj hi) hji
  unfold Calls.stepCall
  split
  · -- atLock
    rename_i hpc
    by_cases hm : s.world.dbMutex = true
    · simp only [hm, if_true]; exact hs
    · rw [if_neg hm]
      have free : ∀ j, (s.pcs j).holdsMutex = false := by
        intro j
        cases hj : (s.pcs j).holdsMutex with
        | false => rfl
        | true => exact absurd (hs.mutex j hj) hm
      have nosend : ∀ j data, s.pcs j ≠ .atSend data := by
        intro j data hj
        have := free j
        simp [hj, CallPc.holdsMutex] at this
      refine ⟨fun _ _ => rfl, ?_, hs.table, ?_, hs.sub, ?_, ?_, hs.nodup,
        started_setPc s.pcs s.persisted i .atExec hs.started
          (fun hi => absurd hpc (hs.started i hi).1)⟩
      · intro a b ha hb
        have ha' : a = i := by
          by_contra hne
          simp only [setPc_other _ _ hne] at ha
          simp [free a] at ha
        have hb' : b = i := by
          by_contra hne
          simp only [setPc_other _ _ hne] at hb
          simp [free b] at hb
        rw [ha', hb']
      · intro a ha
        by_cases hne : a = i
        · subst hne; simp [setPc_self] at ha
        · simp only [setPc_other _ _ hne] at ha
          have := free a
          simp [ha, CallPc.holdsMutex] at this
      · intro a data ha
        by_cases hne : a = i
        · subst hne; simp [setPc_self] at ha
        · simp only [setPc_other _ _ hne] at ha
          exact absurd ha (nosend a data)
      · intro _; exact hs.idle nosend
  · -- atExec
    rename_i hpc
    have hi : (s.pcs i).holdsMutex = true := by simp [hpc, CallPc.holdsMutex]
    have nosend : ∀ j data, s.pcs j ≠ .atSend data := by
      intro j data hj
      by_cases hji : j = i
      · subst hji; simp [hpc] at hj
      · have := others j hi hji
        simp [hj, CallPc.holdsMutex] at this
    split
    · -- exec fails
      refine ⟨?_, ?_, hs.table, ?_, hs.sub, ?_, ?_, hs.nodup,
        started_setPc s.pcs s.persisted i _ hs.started (fun _ => by simp)⟩
      · intro a ha
        by_cases hne : a = i
        · subst hne; simp [setPc_self, CallPc.holdsMutex] at ha
        · simp only [setPc_other _ _ hne] at ha
          simp [others a hi hne] at ha
      · intro a b ha
        by_cases hne : a = i
        · subst hne; simp [setPc_self, CallPc.holdsMutex] at ha
        · simp only [setPc_other _ _ hne] at ha
          simp [others a hi hne] at ha
      · intro a ha
        by_cases hne : a = i
        · subst hne; simp [setPc_self] at ha
        · simp only [setPc_other _ _ hne] at ha
          have := others a hi hne
          simp [ha, CallPc.holdsMutex] at this
      · intro a data ha
        by_cases hne : a = i
        · subst hne; simp [setPc_self] at ha
        · simp only [setPc_other _ _ hne] at ha
          exact absurd ha (nosend a data)
      · intro _; exact hs.idle nosend
    · -- exec succeeds
      rename_i id hexec
      refine ⟨?_, ?_, ?_, ?_, ?_, ?_, ?_, ?_, ?_⟩
      · intro a _; exact hs.mutex i hi
      · intro a b ha hb
        have ha' : a = i := by
          by_contra hne
          simp only [setPc_other _ _ hne] at ha
          simp [others a hi hne] at ha
        have hb' : b = i := by
          by_contra hne
          simp only [setPc_other _ _ hne] at hb
          simp [others b hi hne] at hb
        rw [ha', hb']
      · simp only [List.map_append, List.map_cons, List.map_nil]
        rw [hs.table, List.append_assoc]
        simp [rowOf, hexec]
      · intro a ha
        by_cases hne : a = i
        · subst hne; exact ⟨s.persisted, rfl, hs.sub⟩
        · simp only [setPc_other _ _ hne] at ha
          have := others a hi hne
          simp [ha, CallPc.holdsMutex] at this
      · exact hs.sub.trans (List.sublist_append_left _ _)
      · intro a data ha
        by_cases hne : a = i
        · subst hne; simp [setPc_self] at ha
        · simp only [setPc_other _ _ hne] at ha
          exact absurd ha (nosend a data)
      · intro _; exact hs.idle nosend
      · have hni : i ∉ s.persisted := fun hmem => (hs.started i hmem).2 hpc
        exact List.Nodup.append hs.nodup (List.nodup_singleton i) (by simpa using hni)
      · intro a ha
        by_cases hne : a = i
        · subst hne
          show setPc s.pcs a .atBroadcast a ≠ .atLock ∧ setPc s.pcs a .atBroadcast a ≠ .atExec
          rw [setPc_self]; simp
        · show setPc s.pcs i .atBroadcast a ≠ .atLock ∧ setPc s.pcs i .atBroadcast a ≠ .atExec
          rw [setPc_other _ _ hne]
          have hmem : a ∈ s.persisted := by
            rcases List.mem_append.mp ha with h1 | h1
            · exact h1
            · exact absurd (List.mem_singleton.mp h1) hne
          exact hs.started a hmem
  · -- atBroadcast
    rename_i hpc
    have hi : (s.pcs i).holdsMutex = true := by simp [hpc, CallPc.holdsMutex]
    have nosend : ∀ j data, s.pcs j ≠ .atSend data := by
      intro j data hj
      by_cases hji : j = i
      · subst hji; simp [hpc] at hj
      · have := others j hi hji
        simp [hj, CallPc.holdsMutex] at this
    split
    · -- encoding fails
      refine ⟨?_, ?_, hs.table, ?_, hs.sub, ?_, ?_, hs.nodup,
        started_setPc s.pcs s.persisted i _ hs.started (fun _ => by simp)⟩
      · intro a ha
        by_cases hne : a = i
        · subst hne; simp [setPc_self, CallPc.holdsMutex] at ha
        · simp only [setPc_other _ _ hne] at ha
          simp [others a hi hne] at ha
      · intro a b ha
        by_cases hne : a = i
        · subst hne; simp [setPc_self, CallPc.holdsMutex] at ha
        · simp only [setPc_other _ _ hne] at ha
          simp [others a hi hne] at ha
      · intro a ha
        by_cases hne : a = i
        · subst hne; simp [setPc_self] at ha
        · simp only [setPc_other _ _ hne] at ha
          have := others a hi hne
          simp [ha, CallPc.holdsMutex] at this
      · intro a data ha
        by_cases hne : a = i
        · subst hne; simp [setPc_self] at ha
        · simp only [setPc_other _ _ hne] at ha
          exact absurd ha (nosend a data)
      · intro _; exact hs.idle nosend
    · -- the call reaches the send
      rename_i data hdata
      obtain ⟨P, hP, hsubP⟩ := hs.last i hpc
      refine ⟨?_, ?_, hs.table, ?_, ?_, ?_, ?_, hs.nodup,
        started_setPc s.pcs s.persisted i _ hs.started (fun _ => by simp)⟩
      · intro a _; exact hs.mutex i hi
      · intro a b ha hb
        have ha' : a = i := by
          by_contra hne
          simp only [setPc_other _ _ hne] at ha
          simp [others a hi hne] at ha
        have hb' : b = i := by
          by_contra hne
          simp only [setPc_other _ _ hne] at hb
          simp [others b hi hne] at hb
        rw [ha', hb']
      · intro a ha
        by_cases hne : a = i
        · subst hne; simp [setPc_self] at ha
        · simp only [setPc_other _ _ hne] at ha
          have := others a hi hne
          simp [ha, CallPc.holdsMutex] at this
      · show (s.submitted ++ [i]).Sublist s.persisted
        rw [hP]
        exact List.Sublist.append hsubP (List.Sublist.refl _)
      · intro a d ha
        by_cases hne : a = i
        · subst hne
          show s.submitted ++ [a] = s.received ++ [a]
          rw [hs.idle nosend]
        · simp only [setPc_other _ _ hne] at ha
          exact absurd ha (nosend a d)
      · intro hno
        exact absurd (setPc_self s.pcs i (.atSend data)) (hno i data)
  · -- atSend
    rename_i data hpc
    have hi : (s.pcs i).holdsMutex = true := by simp [hpc, CallPc.holdsMutex]
    split
    · refine ⟨?_, ?_, hs.table, ?_, hs.sub, ?_, ?_, hs.nodup,
        started_setPc s.pcs s.persisted i _ hs.started (fun _ => by simp)⟩
      · intro a ha
        by_cases hne : a = i
        · subst hne; simp [setPc_self, CallPc.holdsMutex] at ha
        · simp only [setPc_other _ _ hne] at ha
          simp [others a hi hne] at ha
      · intro a b ha
        by_cases hne : a = i
        · subst hne; simp [setPc_self, CallPc.holdsMutex] at ha
        · simp only [setPc_other _ _ hne] at ha
          simp [others a hi hne] at ha
      · intro a ha
        by_cases hne : a = i
        · subst hne; simp [setPc_self] at ha
        · simp only [setPc_other _ _ hne] at ha
          have := others a hi hne
          simp [ha, CallPc.holdsMutex] at this
      · intro a d ha
        by_cases hne : a = i
        · subst hne; simp [setPc_self] at ha
        · simp only [setPc_other _ _ hne] at ha
          have := others a hi hne
          simp [ha, CallPc.holdsMutex] at this
      · intro _
        show s.submitted = s.received ++ [i]
        exact hs.sending i data hpc
    · exact hs
  · exact hs

theorem Calls.step_inv (marshal : Marshal) (calls : Nat → SaveCall) (w0 : World) (s : Calls)
    (a : Action) (hs : Calls.Inv calls w0 s) : Calls.Inv calls w0 (s.step marshal calls a) := by
  cases a with
  | call i => exact Calls.stepCall_inv marshal calls w0 s i hs
  | hub e =>
    exact ⟨hs.mutex, hs.one, hs.table, hs.last, hs.sub, hs.sending, hs.idle, hs.nodup,
      hs.started⟩

theorem Calls.run_inv (marshal : Marshal) (calls : Nat → SaveCall) (w0 : World)
    (schedule : List Action) :
    ∀ s : Calls, Calls.Inv calls w0 s → Calls.Inv calls w0 (s.run marshal calls schedule) := by
  induction schedule with
  | nil => intro s hs; exact hs
  | cons a rest ih =>
    intro s hs
    exact ih _ (Calls.step_inv marshal calls w0 s a hs)

theorem Calls.Inv.received_prefix {calls : Nat → SaveCall} {w0 : World} {s : Calls}
    (hs : Calls.Inv calls w0 s) : s.received <+: s.submitted := by
  by_cases h : ∃ i data, s.pcs i = .atSend data
  · obtain ⟨i, data, hi⟩ := h
    rw [hs.sending i data hi]
    exact List.prefix_append _ _
  · rw [hs.idle (fun i data hi => h ⟨i, data, hi⟩)]

/-- In a list without repetition two elements do not occur in both orders. -/
theorem not_sublist_swap_of_nodup {a b : Nat} :
    ∀ {l : List Nat}, l.Nodup → [a, b].Sublist l → ¬ [b, a].Sublist l := by
  intro l
  induction l with
  | nil => intro _ h; cases h
  | cons x t ih =>
    intro hnd hab hba
    obtain ⟨hx, ht⟩ := List.nodup_cons.mp hnd
    rcases List.sublist_cons_iff.mp hab with h1 | ⟨r, hr, hrt⟩
    · rcases List.sublist_cons_iff.mp hba with h2 | ⟨r', hr', hrt'⟩
      · exact ih ht h1 h2
      · cases hr'
        exact hx (h1.subset (show b ∈ [a, b] by simp))
    · cases hr
      rcases List.sublist_cons_iff.mp hba with h2 | ⟨r', hr', hrt'⟩
      · exact hx (h2.subset (show a ∈ [b, a] by simp))
      · cases hr'
        exact hx (hrt.subset (show a ∈ [a] by simp))

/-- C13: for concurrent calls of `SaveAndBroadcastMessage` under every schedule of their
statements and of the events of the hub: the table is the initial one followed by the rows of
the calls in the order their INSERT ran, no call twice; the calls that reached the send on the
broadcast channel are persisted calls in that same order, and the loop received their payloads
in that order; so when the payload of call A is submitted before that of call B, the row of A
is stored before the row of B and not after it (both AB or both BA, never mixed). -/
theorem persist_order_is_broadcast_order (marshal : Marshal) (calls : Nat → SaveCall)
    (w0 : World) (schedule : List Action) :
    ((Calls.start w0).run marshal calls schedule).world.chat_messages =
        w0.chat_messages ++
          ((Calls.start w0).run marshal calls schedule).persisted.map (rowOf calls) ∧
      ((Calls.start w0).run marshal calls schedule).persisted.Nodup ∧
      ((Calls.start w0).run marshal calls schedule).submitted.Sublist
        ((Calls.start w0).run marshal calls schedule).persisted ∧
      ((Calls.start w0).run marshal calls schedule).received <+:
        ((Calls.start w0).run marshal calls schedule).submitted ∧
      ∀ a b, [a, b].Sublist ((Calls.start w0).run marshal calls schedule).submitted →
        [a, b].Sublist ((Calls.start w0).run marshal calls schedule).persisted ∧
          ¬ [b, a].Sublist ((Calls.start w0).run marshal calls schedule).persisted := by
  have hs := Calls.run_inv marshal calls w0 schedule _ (Calls.start_inv calls w0)
  refine ⟨hs.table, hs.nodup, hs.sub, hs.received_prefix, fun a b hab => ?_⟩
  exact ⟨hab.trans hs.sub, not_sublist_swap_of_nodup hs.nodup (hab.trans hs.sub)⟩

theorem persist_order_is_broadcast_order_witness :
    [1, 0].Sublist ((Calls.start emptyWorld).run sampleMarshal hiYo
        [.call 1, .call 0, .call 1, .call 1, .call 0, .call 1, .call 0, .call 0, .call 0,
          .call 0]).persisted ∧
      ¬ [0, 1].Sublist ((Calls.start emptyWorld).run sampleMarshal hiYo
        [.call 1, .call 0, .call 1, .call 1, .call 0, .call 1, .call 0, .call 0, .call 0,
          .call 0]).persisted :=
  (persist_order_is_broadcast_order sampleMarshal hiYo emptyWorld
    [.call 1, .call 0, .call 1, .call 1, .call 0, .call 1, .call 0, .call 0, .call 0,
      .call 0]).2.2.2.2 1 0 (by decide)

/-! ## Persist and broadcast: the successful insert -/

theorem SaveAndBroadcastMessage_ok (marshal : Marshal) (w : World) (id : Int)
    (now₁ now₂ : Time) (userID : Int) (username message : String)
    (hfree : w.dbMutex = false) :
    SaveAndBroadcastMessage marshal (.ok id) now₁ now₂ w userID username message =
      match broadcastMessage marshal (chatMsg userID username message now₂) with
      | none =>
        ({ hub := w.hub, dbMutex := false,
           chat_messages := w.chat_messages ++ [storedRow id userID username message now₁] },
         .returned none)
      | some data =>
        ({ hub := w.hub, dbMutex := true,
           chat_messages := w.chat_messages ++ [storedRow id userID username message now₁] },
         .sending data) := by
  simp only [SaveAndBroadcastMessage, hfree, Bool.false_eq_true, if_false, chatMsg,
    broadcastRecord, storedRow]

/-- C12: a call of `SaveAndBroadcastMessage` whose insert succeeds appends exactly one row;
when it reaches the send on the broadcast channel that row is already in the table while the
hub (every queue) is still as it was, and the completion of the send adds no row. Under every
schedule of concurrent calls, every call that reached the send is a persisted call, and no
call is persisted twice. -/
theorem row_stored_before_submission (marshal : Marshal) (w : World) (id : Int)
    (now₁ now₂ : Time) (userID : Int) (username message : String)
    (hfree : w.dbMutex = false) :
    (SaveAndBroadcastMessage marshal (.ok id) now₁ now₂ w userID username message).1.chat_messages
        = w.chat_messages ++ [storedRow id userID username message now₁] ∧
      (SaveAndBroadcastMessage marshal (.ok id) now₁ now₂ w userID username message).1.hub
        = w.hub ∧
      (∀ data,
        (SaveAndBroadcastMessage marshal (.ok id) now₁ now₂ w userID username message).2
            = .sending data →
          (SaveAndBroadcastMessage.resume marshal
            (SaveAndBroadcastMessage marshal (.ok id) now₁ now₂ w userID username message).1
            data).1.chat_messages
            = w.chat_messages ++ [storedRow id userID username message now₁]) ∧
      (∀ (calls : Nat → SaveCall) (schedule : List Action),
        ((Calls.start w).run marshal calls schedule).persisted.Nodup ∧
          ∀ i ∈ ((Calls.start w).run marshal calls schedule).submitted,
            i ∈ ((Calls.start w).run marshal calls schedule).persisted) := by
  rw [SaveAndBroadcastMessage_ok marshal w id now₁ now₂ userID username message hfree]
  refine ⟨?_, ?_, ?_, fun calls schedule => ?_⟩
  · split <;> rfl
  · split <;> rfl
  · intro data hdata
    split at hdata
    · simp at hdata
    · simp only [SaveAndBroadcastMessage.resume]
      split <;> rfl
  · have hs := Calls.run_inv marshal calls w schedule _ (Calls.start_inv calls w)
    exact ⟨hs.nodup, fun i hi => hs.sub.subset hi⟩

theorem row_stored_before_submission_witness :
    (SaveAndBroadcastMessage sampleMarshal (.ok 1) 10 11 quietWorld 7 "ann" "hello").1.chat_messages
        = quietWorld.chat_messages ++ [storedRow 1 7 "ann" "hello" 10] ∧
      (SaveAndBroadcastMessage sampleMarshal (.ok 1) 10 11 quietWorld 7 "ann" "hello").1.hub
        = quietWorld.hub :=
  have key := row_stored_before_submission sampleMarshal quietWorld 1 10 11 7 "ann" "hello" rfl
  ⟨key.1, key.2.1⟩

/-- C11, as the code has it: when the append succeeds and the call reaches the send, the
payload is the encoding of a message of type "chat" whose user_id is the author id, whose
message is the body text and whose data is a `ChatMessage` record with the author id, author
name and body text of the row just stored; the creation timestamp of that record is the
second reading of the clock, taken after the insert. -/
theorem chat_payload_fields (marshal : Marshal) (w : World) (id : Int) (now₁ now₂ : Time)
    (userID : Int) (username message : String) (data : Payload) (hfree : w.dbMutex = false)
    (hout : (SaveAndBroadcastMessage marshal (.ok id) now₁ now₂ w userID username message).2
      = .sending data) :
    (SaveAndBroadcastMessage marshal (.ok id) now₁ now₂ w userID username message).1.chat_messages
        = w.chat_messages ++ [storedRow id userID username message now₁] ∧
      ∃ record : ChatMessage,
        marshal { Type_ := "chat", Data := .chatMessage record, UserID := userID,
                  Message := message } = .ok data ∧
          record.UserID = (storedRow id userID username message now₁).UserID ∧
          record.Username = (storedRow id userID username message now₁).Username ∧
          record.Message = (storedRow id userID username message now₁).Message ∧
          record.CreatedAt = now₂ := by
  rw [SaveAndBroadcastMessage_ok marshal w id now₁ now₂ userID username message hfree] at hout ⊢
  cases hb : broadcastMessage marshal (chatMsg userID username message now₂) with
  | none => simp [hb] at hout
  | some d =>
    simp only [hb, SaveOutcome.sending.injEq] at hout
    subst hout
    refine ⟨rfl, broadcastRecord userID username message now₂, ?_, rfl, rfl, rfl, rfl⟩
    unfold broadcastMessage at hb
    split at hb
    · simp at hb
    · rename_i d1 hd1
      simp only [Option.some.injEq] at hb
      subst hb
      exact hd1

theorem chat_payload_fields_witness :
    (SaveAndBroadcastMessage sampleMarshal (.ok 1) 10 11 quietWorld 7 "ann" "hello").1.chat_messages
      = quietWorld.chat_messages ++ [storedRow 1 7 "ann" "hello" 10] :=
  (chat_payload_fields sampleMarshal quietWorld 1 10 11 7 "ann" "hello" _ rfl rfl).1

/-- C11 fails as stated: for the post "hello" of user 7 stored as row 1 at clock reading 10,
the record in the data field of the submitted chat message has identifier 0 and creation
timestamp 11; it is not the stored row. -/
theorem chat_payload_is_not_stored_row :
    (SaveAndBroadcastMessage sampleMarshal (.ok 1) 10 11 quietWorld 7 "ann" "hello").1.chat_messages
        = [storedRow 1 7 "ann" "hello" 10] ∧
      (∃ data, sampleMarshal (chatMsg 7 "ann" "hello" 11) = .ok data ∧
        (SaveAndBroadcastMessage sampleMarshal (.ok 1) 10 11 quietWorld 7 "ann" "hello").2
          = .sending data) ∧
      (chatMsg 7 "ann" "hello" 11).Data
        = .chatMessage { ID := 0, UserID := 7, Username := "ann", Message := "hello",
                         CreatedAt := 11 } ∧
      (chatMsg 7 "ann" "hello" 11).Data ≠ .chatMessage (storedRow 1 7 "ann" "hello" 10) := by
  refine ⟨rfl, ⟨_, rfl, rfl⟩, rfl, by decide⟩

/-! ## History delivery -/

theorem sendOrDrop_mem_other (h : Hub) (c : Client) (d : Payload) {x : Client} (hx : x ≠ c) :
    x ∈ (h.sendOrDrop c d).clients ↔ x ∈ h.clients := by
  unfold Hub.sendOrDrop
  split
  · rfl
  · rfl
  · split
    · rfl
    · show x ∈ deleteClient h.clients c ↔ x ∈ h.clients
      rw [mem_deleteClient]
      exact ⟨fun hm => hm.1, fun hm => ⟨hm, hx⟩⟩

theorem sendOrDrop_pc (h : Hub) (c : Client) (d : Payload) :
    (h.sendOrDrop c d).pc = h.pc ∨ (h.sendOrDrop c d).pc = .panicked := by
  unfold Hub.sendOrDrop
  split
  · exact Or.inl rfl
  · exact Or.inr rfl
  · split
    · exact Or.inr rfl
    · exact Or.inl rfl

theorem deliver_singleton (h : Hub) (c : Client) (d : Payload) :
    Hub.deliver d [c] h = h.sendOrDrop c d := by
  simp only [Hub.deliver]
  split <;> rfl

/-- C16: `sendChatHistory` for a client touches the channel and the membership of no other
client and never goes through the broadcast channel (the loop stays where it is, or panics on
a closed channel); when the query and the encoding succeed and the open queue of the client
has room, exactly one payload is added at the end of that queue, the encoding of a message of
type "history". -/
theorem history_is_point_to_point (marshal : Marshal) (h : Hub) (c : Client)
    (q : QueryResult) :
    (∀ x, x ≠ c → (Hub.sendChatHistory marshal h c q).send x = h.send x ∧
        (x ∈ (Hub.sendChatHistory marshal h c q).clients ↔ x ∈ h.clients)) ∧
      ((Hub.sendChatHistory marshal h c q).pc = h.pc ∨
        (Hub.sendChatHistory marshal h c q).pc = .panicked) ∧
      (∀ rows data, q = .ok rows →
        marshal (historyMsg (reverseMessages (scanRows rows))) = .ok data →
        (h.send c).closed = false → (h.send c).buf.length < sendCap →
          ((Hub.sendChatHistory marshal h c q).send c).buf = (h.send c).buf ++ [data] ∧
            (historyMsg (reverseMessages (scanRows rows))).Type_ = "history" ∧
            (Hub.sendChatHistory marshal h c q).pc = h.pc) := by
  refine ⟨fun x hx => ?_, ?_, ?_⟩
  · rcases sendChatHistory_cases marshal h c q with e | ⟨d, e⟩
    · rw [e]; exact ⟨rfl, Iff.rfl⟩
    · rw [e]; exact ⟨sendOrDrop_send_other h c d hx, sendOrDrop_mem_other h c d hx⟩
  · rcases sendChatHistory_cases marshal h c q with e | ⟨d, e⟩
    · rw [e]; exact Or.inl rfl
    · rw [e]; exact sendOrDrop_pc h c d
  · intro rows data hq hm hopen hroom
    subst hq
    rw [sendChatHistory_ok, hm]
    obtain ⟨s1, s2, _⟩ := sendOrDrop_open h c data hopen
    refine ⟨?_, rfl, s1⟩
    show ((h.sendOrDrop c data).send c).buf = _
    rw [s2, setChan_self]
    simp [Chan.offer, hroom]

theorem history_is_point_to_point_witness :
    ((Hub.sendChatHistory sampleMarshal twoMembers ann (.ok [])).send bob = twoMembers.send bob ∧
        (bob ∈ (Hub.sendChatHistory sampleMarshal twoMembers ann (.ok [])).clients ↔
          bob ∈ twoMembers.clients)) ∧
      ((Hub.sendChatHistory sampleMarshal twoMembers ann (.ok [])).send ann).buf
        = (twoMembers.send ann).buf ++ [(MessageTypeHistory ++ "").toList.map Char.toNat] :=
  have key := history_is_point_to_point sampleMarshal twoMembers ann (.ok [])
  ⟨key.1 bob (by decide), (key.2.2 [] _ rfl rfl rfl (by decide)).1⟩

/-- C18: when the history message is ready (the query and the encoding succeeded) and the
open queue of the client holds 256 pending frames, `sendChatHistory` does what one turn of the
broadcast loop does for that client: the loop does not block (it stays where it is), the queue
is closed with its content as before, the client leaves the membership, and the channel and
the membership of every other client are unchanged. -/
theorem history_full_queue_evicts (marshal : Marshal) (h : Hub) (c : Client)
    (rows : List (Except Error ChatMessage)) (data : Payload)
    (hm : marshal (historyMsg (reverseMessages (scanRows rows))) = .ok data)
    (hopen : (h.send c).closed = false) (hfull : (h.send c).buf.length = 256) :
    Hub.sendChatHistory marshal h c (.ok rows) = Hub.deliver data [c] h ∧
      (Hub.sendChatHistory marshal h c (.ok rows)).pc = h.pc ∧
      ((Hub.sendChatHistory marshal h c (.ok rows)).send c).closed = true ∧
      ((Hub.sendChatHistory marshal h c (.ok rows)).send c).buf = (h.send c).buf ∧
      c ∉ (Hub.sendChatHistory marshal h c (.ok rows)).clients ∧
      ∀ x, x ≠ c → (Hub.sendChatHistory marshal h c (.ok rows)).send x = h.send x ∧
        (x ∈ (Hub.sendChatHistory marshal h c (.ok rows)).clients ↔ x ∈ h.clients) := by
  have hroom : ¬ (h.send c).buf.length < sendCap := by simp [sendCap, hfull]
  have he : Hub.sendChatHistory marshal h c (.ok rows) = h.sendOrDrop c data := by
    rw [sendChatHistory_ok, hm]
  obtain ⟨s1, s2, s3⟩ := sendOrDrop_open h c data hopen
  rw [he]
  refine ⟨(deliver_singleton h c data).symm, s1, ?_, ?_, ?_, fun x hx => ?_⟩
  · rw [s2, setChan_self]; simp [Chan.offer, hroom]
  · rw [s2, setChan_self]; simp [Chan.offer, hroom]
  · rw [s3, if_neg hroom]; exact not_mem_deleteClient_self _ _
  · exact ⟨sendOrDrop_send_other h c data hx, sendOrDrop_mem_other h c data hx⟩

theorem history_full_queue_evicts_witness :
    ((Hub.sendChatHistory sampleMarshal annFull ann (.ok [])).send ann).closed = true ∧
      ann ∉ (Hub.sendChatHistory sampleMarshal annFull ann (.ok [])).clients ∧
      (Hub.sendChatHistory sampleMarshal annFull ann (.ok [])).send bob = annFull.send bob :=
  have key := history_full_queue_evicts sampleMarshal annFull ann [] _ rfl rfl
    (List.length_replicate 256 [0])
  ⟨key.2.2.1, key.2.2.2.2.1, (key.2.2.2.2.2 bob (by decide)).1⟩

/-- C17, evaluated on the code: for a client registered with an empty queue, (1) when its
join announcement encodes, the loop is left at its own send before `sendChatHistory` is
reached, and the queue stays empty whatever happens next: neither the join nor the history is
ever placed on it; (2) when the join announcement does not encode, nothing is submitted for
broadcast, and the queue holds nothing or the history message alone. In no case is the join
placed on the queue before the history. -/
theorem join_not_before_history (marshal : Marshal) (h : Hub) (c : Client) (q : QueryResult)
    (hsel : h.pc = .select) (hempty : (h.send c).buf = []) :
    (∀ dj, marshal (joinMsg c) = .ok dj →
        ∀ es, (((h.handle marshal (.register c q)).Run marshal es).send c).buf = []) ∧
      (∀ e, marshal (joinMsg c) = .error e →
        (∀ d, (h.handle marshal (.register c q)).pc ≠ .sendBroadcast d) ∧
        (((h.handle marshal (.register c q)).send c).buf = [] ∨
          ∃ messages dh, marshal (historyMsg messages) = .ok dh ∧
            ((h.handle marshal (.register c q)).send c).buf = [dh])) := by
  constructor
  · intro dj hj es
    rw [handle_register_parks marshal h c q dj hsel hj]
    have key := (run_of_not_select marshal es
      { clients := insertClient h.clients c, send := h.send, pc := .sendBroadcast dj }
      (by simp)).2.2 c
    exact List.eq_nil_of_suffix_nil (hempty ▸ key.2)
  · intro e he
    have hreg : h.handle marshal (.register c q) =
        Hub.sendChatHistory marshal
          { clients := insertClient h.clients c, send := h.send, pc := h.pc } c q := by
      simp [Hub.handle, hsel, Hub.onRegister, broadcastMessage, he]
    rw [hreg]
    cases q with
    | error qe =>
      refine ⟨fun d => ?_, Or.inl ?_⟩
      · simp [Hub.sendChatHistory, hsel]
      · simpa [Hub.sendChatHistory] using hempty
    | ok rows =>
      rw [sendChatHistory_ok]
      cases hm : marshal (historyMsg (reverseMessages (scanRows rows))) with
      | error me =>
        refine ⟨fun d => ?_, Or.inl ?_⟩
        · simp [hsel]
        · simpa using hempty
      | ok dh =>
        simp only
        refine ⟨fun d hd => ?_, ?_⟩
        · rcases sendOrDrop_pc
            { clients := insertClient h.clients c, send := h.send, pc := h.pc } c dh with hp | hp
          · rw [hp] at hd; simp [hsel] at hd
          · rw [hp] at hd; simp at hd
        · by_cases hopen : (h.send c).closed = false
          · right
            refine ⟨_, dh, hm, ?_⟩
            obtain ⟨_, s2, _⟩ := sendOrDrop_open
              { clients := insertClient h.clients c, send := h.send, pc := h.pc } c dh hopen
            rw [s2, setChan_self]
            simp [Chan.offer, hempty, sendCap]
          · left
            have hclosed : (h.send c).closed = true := by simpa using hopen
            rw [sendOrDrop_closed
              { clients := insertClient h.clients c, send := h.send, pc := h.pc } c dh hclosed]
            exact hempty

theorem join_not_before_history_witness :
    (((NewHub.handle sampleMarshal (.register ann (.ok []))).Run sampleMarshal
      [.drain ann, .broadcast [1]]).send ann).buf = [] :=
  (join_not_before_history sampleMarshal NewHub ann (.ok []) rfl rfl).1 _ rfl _

/-! ## The inbound pump -/

theorem readPump_cons (marshal : Marshal) (unmarshal : Unmarshal) (c : Client) (s : Pump)
    (a : Arrival) (rest : List Arrival) :
    c.readPump marshal unmarshal s (a :: rest) =
      c.readPump marshal unmarshal (c.readPumpStep marshal unmarshal s a) rest := rfl

theorem readPumpStep_of_not_reading (marshal : Marshal) (unmarshal : Unmarshal) (c : Client)
    (s : Pump) (a : Arrival) (hpc : s.pc ≠ .reading) :
    c.readPumpStep marshal unmarshal s a = s := by
  unfold Client.readPumpStep
  split
  · rename_i h; exact absurd h hpc
  · rfl

/-- A pump that has left `ReadMessage` for good reads nothing more. -/
theorem readPump_of_not_reading (marshal : Marshal) (unmarshal : Unmarshal) (c : Client)
    (arrivals : List Arrival) :
    ∀ s : Pump, s.pc ≠ .reading → c.readPump marshal unmarshal s arrivals = s := by
  induction arrivals with
  | nil => intro s _; rfl
  | cons a rest ih =>
    intro s hpc
    rw [readPump_cons, readPumpStep_of_not_reading marshal unmarshal c s a hpc]
    exact ih s hpc

theorem ReadMessage_frame_ok {limit : Nat} {messageBytes : Payload}
    (hlen : messageBytes.length ≤ limit) :
    ReadMessage limit (.frame messageBytes) = .ok messageBytes := by
  simp [ReadMessage, Nat.not_lt.mpr hlen]

theorem ReadMessage_frame_oversized {limit : Nat} {messageBytes : Payload}
    (hbig : limit < messageBytes.length) :
    ReadMessage limit (.frame messageBytes) = .error "websocket: read limit exceeded" := by
  simp [ReadMessage, hbig]

theorem readPumpExit_pc (marshal : Marshal) (c : Client) (s : Pump) :
    (c.readPumpExit marshal s).pc ≠ .reading ∧ (c.readPumpExit marshal s).posted = s.posted := by
  unfold Client.readPumpExit
  split <;> simp

/-- A frame within the limit that decodes is passed to `SaveAndBroadcastMessage` with the
identity of the client and the decoded text, whatever becomes of the call. -/
theorem readPumpStep_posts (marshal : Marshal) (unmarshal : Unmarshal) (c : Client) (s : Pump)
    (a : Arrival) (messageBytes : Payload) (msg : SendMessageRequest)
    (hpc : s.pc = .reading) (hin : a.incoming = .frame messageBytes)
    (hlen : messageBytes.length ≤ maxMessageSize) (hok : unmarshal messageBytes = .ok msg) :
    (c.readPumpStep marshal unmarshal s a).posted =
      s.posted ++ [(c.UserID, c.Username, msg.Message)] := by
  unfold Client.readPumpStep
  simp only [hpc, hin, ReadMessage_frame_ok hlen, hok]
  split
  · rfl
  · rfl
  · split <;> rfl

/-- An oversized frame makes the read fail: the pump leaves its loop for its deferred
function and reads nothing more. -/
theorem readPump_oversized (marshal : Marshal) (unmarshal : Unmarshal) (c : Client) (s : Pump)
    (a : Arrival) (messageBytes : Payload) (rest : List Arrival)
    (hpc : s.pc = .reading) (hin : a.incoming = .frame messageBytes)
    (hbig : maxMessageSize < messageBytes.length) :
    c.readPump marshal unmarshal s (a :: rest) = c.readPumpExit marshal s := by
  have hstep : c.readPumpStep marshal unmarshal s a = c.readPumpExit marshal s := by
    unfold Client.readPumpStep
    simp only [hpc, hin, ReadMessage_frame_oversized hbig]
  rw [readPump_cons, hstep]
  exact readPump_of_not_reading marshal unmarshal c rest _ (readPumpExit_pc marshal c s).1

/-- The turn of the loop on a frame within the limit that decodes: the call of
`SaveAndBroadcastMessage` with the world of the pump, the identity of the client and the
decoded text decides the state the pump is left in. -/
theorem readPumpStep_decoded (marshal : Marshal) (unmarshal : Unmarshal) (c : Client)
    (s : Pump) (a : Arrival) (messageBytes : Payload) (msg : SendMessageRequest)
    (hpc : s.pc = .reading) (hin : a.incoming = .frame messageBytes)
    (hlen : messageBytes.length ≤ maxMessageSize) (hok : unmarshal messageBytes = .ok msg) :
    c.readPumpStep marshal unmarshal s a =
      match SaveAndBroadcastMessage marshal a.exec a.now₁ a.now₂ s.world c.UserID c.Username
          msg.Message with
      | (w, .returned _) =>
        { world := w, pc := .reading,
          posted := s.posted ++ [(c.UserID, c.Username, msg.Message)] }
      | (w, .waitingLock) =>
        { world := w, pc := .inSave none,
          posted := s.posted ++ [(c.UserID, c.Username, msg.Message)] }
      | (w, .sending data) =>
        match SaveAndBroadcastMessage.resume marshal w data with
        | (w1, .returned _) =>
          { world := w1, pc := .reading,
            posted := s.posted ++ [(c.UserID, c.Username, msg.Message)] }
        | (w1, _) =>
          { world := w1, pc := .inSave (some data),
            posted := s.posted ++ [(c.UserID, c.Username, msg.Message)] } := by
  unfold Client.readPumpStep
  simp only [hpc, hin, ReadMessage_frame_ok hlen, hok]

/-- The world a decoded frame leaves is the world its call of `SaveAndBroadcastMessage`
leaves, continued by the completion of the send when the call reached it. -/
theorem readPumpStep_world (marshal : Marshal) (unmarshal : Unmarshal) (c : Client)
    (s : Pump) (a : Arrival) (messageBytes : Payload) (msg : SendMessageRequest)
    (hpc : s.pc = .reading) (hin : a.incoming = .frame messageBytes)
    (hlen : messageBytes.length ≤ maxMessageSize) (hok : unmarshal messageBytes = .ok msg) :
    (c.readPumpStep marshal unmarshal s a).world =
      match SaveAndBroadcastMessage marshal a.exec a.now₁ a.now₂ s.world c.UserID c.Username
          msg.Message with
      | (w, .sending data) => (SaveAndBroadcastMessage.resume marshal w data).1
      | (w, _) => w := by
  rw [readPumpStep_decoded marshal unmarshal c s a messageBytes msg hpc hin hlen hok]
  generalize SaveAndBroadcastMessage marshal a.exec a.now₁ a.now₂ s.world c.UserID c.Username
    msg.Message = r
  obtain ⟨w, o⟩ := r
  cases o with
  | waitingLock => rfl
  | returned e => rfl
  | sending data =>
    show (match SaveAndBroadcastMessage.resume marshal w data with
      | (w1, .returned _) => _
      | (w1, _) => _ : Pump).world = (SaveAndBroadcastMessage.resume marshal w data).1
    generalize SaveAndBroadcastMessage.resume marshal w data = r2
    obtain ⟨w1, o1⟩ := r2
    cases o1 <;> rfl

theorem resume_chat_messages (marshal : Marshal) (w : World) (data : Payload) :
    (SaveAndBroadcastMessage.resume marshal w data).1.chat_messages = w.chat_messages := by
  unfold SaveAndBroadcastMessage.resume
  split <;> rfl

/-- A decoded frame whose insert succeeds, the mutex being free, adds its row to the table. -/
theorem readPumpStep_stores (marshal : Marshal) (unmarshal : Unmarshal) (c : Client)
    (s : Pump) (a : Arrival) (messageBytes : Payload) (msg : SendMessageRequest) (id : Int)
    (hpc : s.pc = .reading) (hin : a.incoming = .frame messageBytes)
    (hlen : messageBytes.length ≤ maxMessageSize) (hok : unmarshal messageBytes = .ok msg)
    (hfree : s.world.dbMutex = false) (hexec : a.exec = .ok id) :
    (c.readPumpStep marshal unmarshal s a).world.chat_messages =
      s.world.chat_messages ++ [storedRow id c.UserID c.Username msg.Message a.now₁] := by
  rw [readPumpStep_world marshal unmarshal c s a messageBytes msg hpc hin hlen hok, hexec,
    SaveAndBroadcastMessage_ok marshal s.world id a.now₁ a.now₂ c.UserID c.Username msg.Message
      hfree]
  cases broadcastMessage marshal (chatMsg c.UserID c.Username msg.Message a.now₂) with
  | none => rfl
  | some data => exact resume_chat_messages marshal _ data

/-- A decoded frame that finds the mutex free and the loop at its `select`, the insert and
the encoding succeeding: the row is stored, the loop runs its broadcast case on the encoded
chat message, the mutex is free again and the pump is back at `ReadMessage`. -/
theorem readPumpStep_broadcasts (marshal : Marshal) (unmarshal : Unmarshal) (c : Client)
    (s : Pump) (a : Arrival) (messageBytes : Payload) (msg : SendMessageRequest) (id : Int)
    (data : Payload)
    (hpc : s.pc = .reading) (hin : a.incoming = .frame messageBytes)
    (hlen : messageBytes.length ≤ maxMessageSize) (hok : unmarshal messageBytes = .ok msg)
    (hfree : s.world.dbMutex = false) (hexec : a.exec = .ok id)
    (hsel : s.world.hub.pc = .select)
    (hdata : marshal (chatMsg c.UserID c.Username msg.Message a.now₂) = .ok data) :
    c.readPumpStep marshal unmarshal s a =
      { world :=
          { hub := s.world.hub.handle marshal (.broadcast data), dbMutex := false,
            chat_messages :=
              s.world.chat_messages ++ [storedRow id c.UserID c.Username msg.Message a.now₁] },
        pc := .reading,
        posted := s.posted ++ [(c.UserID, c.Username, msg.Message)] } := by
  have hbm : broadcastMessage marshal (chatMsg c.UserID c.Username msg.Message a.now₂) =
      some data := by
    simp only [broadcastMessage, hdata]
  rw [readPumpStep_decoded marshal unmarshal c s a messageBytes msg hpc hin hlen hok, hexec,
    SaveAndBroadcastMessage_ok marshal s.world id a.now₁ a.now₂ c.UserID c.Username msg.Message
      hfree, hbm]
  simp only [SaveAndBroadcastMessage.resume, hsel]

/-- C19: a frame within the size limit that fails to decode leaves the pump exactly as it
was: still at `ReadMessage`, nothing posted, the world (hub, table, mutex) untouched, no
unregister; the frames that follow are handled as if it had not come. A frame that decodes
right after it is passed to `SaveAndBroadcastMessage` with its text: the world of the pump
becomes the world that call leaves; when the mutex is free and the insert succeeds the row of
that text is in the table; and when moreover the loop is at its `select` and the chat message
encodes, the loop runs its broadcast case on it and the pump is back at `ReadMessage`. -/
theorem malformed_frame_is_skipped (marshal : Marshal) (unmarshal : Unmarshal) (c : Client)
    (s : Pump) (a : Arrival) (messageBytes : Payload) (err : Error)
    (hpc : s.pc = .reading) (hin : a.incoming = .frame messageBytes)
    (hlen : messageBytes.length ≤ maxMessageSize)
    (hbad : unmarshal messageBytes = .error err) :
    c.readPumpStep marshal unmarshal s a = s ∧
      (∀ rest, c.readPump marshal unmarshal s (a :: rest) =
        c.readPump marshal unmarshal s rest) ∧
      (∀ (b : Arrival) (good : Payload) (msg : SendMessageRequest),
        b.incoming = .frame good → good.length ≤ maxMessageSize → unmarshal good = .ok msg →
          (c.readPump marshal unmarshal s [a, b]).posted =
              s.posted ++ [(c.UserID, c.Username, msg.Message)] ∧
            (c.readPump marshal unmarshal s [a, b]).world =
              (match SaveAndBroadcastMessage marshal b.exec b.now₁ b.now₂ s.world c.UserID
                  c.Username msg.Message with
                | (w, .sending data) => (SaveAndBroadcastMessage.resume marshal w data).1
                | (w, _) => w) ∧
            (∀ id, s.world.dbMutex = false → b.exec = .ok id →
              (c.readPump marshal unmarshal s [a, b]).world.chat_messages =
                s.world.chat_messages ++
                  [storedRow id c.UserID c.Username msg.Message b.now₁]) ∧
            (∀ id data, s.world.dbMutex = false → b.exec = .ok id →
              s.world.hub.pc = .select →
              marshal (chatMsg c.UserID c.Username msg.Message b.now₂) = .ok data →
              c.readPump marshal unmarshal s [a, b] =
                { world :=
                    { hub := s.world.hub.handle marshal (.broadcast data), dbMutex := false,
                      chat_messages :=
                        s.world.chat_messages ++
                          [storedRow id c.UserID c.Username msg.Message b.now₁] },
                  pc := .reading,
                  posted := s.posted ++ [(c.UserID, c.Username, msg.Message)] })) := by
  have hstep : c.readPumpStep marshal unmarshal s a = s := by
    unfold Client.readPumpStep
    simp only [hpc, hin, ReadMessage_frame_ok hlen, hbad]
  refine ⟨hstep, fun rest => by rw [readPump_cons, hstep], fun b good msg hb hg hm => ?_⟩
  have hab : c.readPump marshal unmarshal s [a, b] = c.readPumpStep marshal unmarshal s b := by
    rw [readPump_cons, hstep]
    rfl
  rw [hab]
  exact ⟨readPumpStep_posts marshal unmarshal c s b good msg hpc hb hg hm,
    readPumpStep_world marshal unmarshal c s b good msg hpc hb hg hm,
    fun id hfree hexec =>
      readPumpStep_stores marshal unmarshal c s b good msg id hpc hb hg hm hfree hexec,
    fun id data hfree hexec hsel hdata =>
      readPumpStep_broadcasts marshal unmarshal c s b good msg id data hpc hb hg hm hfree hexec
        hsel hdata⟩

theorem malformed_frame_is_skipped_witness :
    (ann.readPump sampleMarshal sampleUnmarshal annPump malformedThenValid).posted =
        annPump.posted ++ [(ann.UserID, ann.Username, "hi")] ∧
      (ann.readPump sampleMarshal sampleUnmarshal annPump malformedThenValid).world.chat_messages
        = [storedRow 1 7 "ann" "hi" 20] ∧
      (ann.readPump sampleMarshal sampleUnmarshal annPump malformedThenValid).pc = .reading ∧
      ((ann.readPump sampleMarshal sampleUnmarshal annPump
          malformedThenValid).world.hub.send bob).buf =
        [(MessageTypeChat ++ "hi").toList.map Char.toNat] :=
  have key := (malformed_frame_is_skipped sampleMarshal sampleUnmarshal ann annPump
    { incoming := .frame [1, 2], exec := .ok 1, now₁ := 10, now₂ := 11 } [1, 2]
    "invalid character" rfl rfl (by decide) rfl).2.2
    { incoming := .frame [123, 104, 105], exec := .ok 1, now₁ := 20, now₂ := 21 }
    [123, 104, 105] { Message := "hi" } rfl (by decide) rfl
  have full := key.2.2.2 1 ((MessageTypeChat ++ "hi").toList.map Char.toNat) rfl rfl rfl rfl
  ⟨key.1, key.2.2.1 1 rfl rfl, by rw [show malformedThenValid = [_, _] from rfl, full],
    by rw [show malformedThenValid = [_, _] from rfl, full]; decide⟩

/-- C20, as the code has it: a frame larger than the maximum frame size ends the inbound
pump: the read fails, the pump leaves its loop for its deferred function (the unregister
signal), it posts nothing for that frame, and no frame that arrives after it is read. -/
theorem oversized_frame_ends_pump (marshal : Marshal) (unmarshal : Unmarshal) (c : Client)
    (s : Pump) (a : Arrival) (messageBytes : Payload) (rest : List Arrival)
    (hpc : s.pc = .reading) (hin : a.incoming = .frame messageBytes)
    (hbig : maxMessageSize < messageBytes.length) :
    c.readPump marshal unmarshal s (a :: rest) = c.readPumpExit marshal s ∧
      (c.readPump marshal unmarshal s (a :: rest)).pc ≠ .reading ∧
      (c.readPump marshal unmarshal s (a :: rest)).posted = s.posted := by
  rw [readPump_oversized marshal unmarshal c s a messageBytes rest hpc hin hbig]
  exact ⟨rfl, readPumpExit_pc marshal c s⟩

theorem oversized_frame_ends_pump_witness :
    (ann.readPump sampleMarshal sampleUnmarshal annPump oversizedThenValid).pc ≠ .reading ∧
      (ann.readPump sampleMarshal sampleUnmarshal annPump oversizedThenValid).posted
        = annPump.posted :=
  (oversized_frame_ends_pump sampleMarshal sampleUnmarshal ann annPump
    { incoming := .frame (List.replicate 513 0), exec := .ok 1, now₁ := 10, now₂ := 11 }
    (List.replicate 513 0) _ rfl rfl
    (by rw [List.length_replicate]; decide)).2

/-- C20 fails as stated: after a frame of 513 bytes the pump of `ann` has left its loop and
run its exit, and the valid frame "hi" that follows is not posted; the same valid frame
arriving alone is posted. -/
theorem oversized_frame_terminates_connection :
    (ann.readPump sampleMarshal sampleUnmarshal annPump oversizedThenValid).pc = .exited ∧
      (ann.readPump sampleMarshal sampleUnmarshal annPump oversizedThenValid).posted = [] ∧
      (ann.readPump sampleMarshal sampleUnmarshal annPump
        (oversizedThenValid.drop 1)).posted = [(7, "ann", "hi")] := by
  refine ⟨?_, ?_, by decide⟩
  · rw [show oversizedThenValid = _ :: _ from rfl,
      readPump_oversized sampleMarshal sampleUnmarshal ann annPump _ (List.replicate 513 0) _
        rfl rfl (by rw [List.length_replicate]; decide)]
    rfl
  · rw [show oversizedThenValid = _ :: _ from rfl,
      readPump_oversized sampleMarshal sampleUnmarshal ann annPump _ (List.replicate 513 0) _
        rfl rfl (by rw [List.length_replicate]; decide)]
    rfl

/-! ## The outbound pump -/

/-- C24: when the context has no `user_id` the handler answers 401 with "User not
authenticated"; when it has a `user_id` and no `username` it answers 401 with "Username not
found"; in both cases `ServeWS` is not called (no upgrade, no `Client`) and the hub is as it
was. -/
theorem websocket_rejected_without_identity (marshal : Marshal) (upgrade : Except Error Unit)
    (ptr : Nat) (query : QueryResult) (hub : Hub) (ctx : Context)
    (hmiss : ctx.user_id = none ∨ ctx.username = none) :
    (ChatHandler.HandleWebSocket marshal upgrade ptr query hub ctx).reply =
        some (401, if ctx.user_id = none then "User not authenticated"
                   else "Username not found") ∧
      (ChatHandler.HandleWebSocket marshal upgrade ptr query hub ctx).served = none ∧
      (ChatHandler.HandleWebSocket marshal upgrade ptr query hub ctx).hub = hub := by
  unfold ChatHandler.HandleWebSocket
  cases hu : ctx.user_id with
  | none => simp [StatusUnauthorized]
  | some uid =>
    have hn : ctx.username = none := by
      rcases hmiss with h | h
      · rw [hu] at h; cases h
      · exact h
    simp [hn, StatusUnauthorized]

theorem websocket_rejected_without_identity_witness :
    (ChatHandler.HandleWebSocket sampleMarshal (.ok ()) 1 (.ok []) NewHub
        { user_id := some 1, username := none, role := none }).reply =
      some (401, "Username not found") :=
  (websocket_rejected_without_identity sampleMarshal (.ok ()) 1 (.ok []) NewHub
    { user_id := some 1, username := none, role := none } (Or.inr rfl)).1

/-! ## The inbound pump: exit and validation -/

theorem ServeWS_parks (marshal : Marshal) (h : Hub) (ptr : Nat) (userID : Int)
    (username : String) (q : QueryResult) (dj : Payload) (hsel : h.pc = .select)
    (hj : marshal (joinMsg { ptr := ptr, UserID := userID, Username := username }) = .ok dj) :
    ServeWS marshal (.ok ()) ptr q h userID username =
      { hub := { clients := insertClient h.clients
                   { ptr := ptr, UserID := userID, Username := username },
                 send := setChan h.send { ptr := ptr, UserID := userID, Username := username }
                   Chan.fresh,
                 pc := .sendBroadcast dj },
        client := some { ptr := ptr, UserID := userID, Username := username },
        pumps := true } := by
  unfold ServeWS
  simp only [hsel]
  rw [handle_register_parks marshal
    { clients := h.clients,
      send := setChan h.send { ptr := ptr, UserID := userID, Username := username } Chan.fresh,
      pc := .select } _ q dj rfl hj]

/-- C21, evaluated on the code: a client whose register the loop received has a loop parked at
the send of its join announcement. When its pump then reads a frame larger than the limit, the
read fails and the pump leaves its loop, but its send on `h.unregister` is never received: the
pump stays at that send, `c.conn.Close()` is not reached, and in the hub the client is still a
member with an open queue. Only a pump that finds the loop at its `select` gets its
unregister handled and reaches the close of the stream. -/
theorem oversized_frame_unregister_never_received (marshal : Marshal) (unmarshal : Unmarshal)
    (h : Hub) (w : World) (ptr : Nat) (userID : Int) (username : String) (q : QueryResult)
    (dj : Payload) (a : Arrival) (messageBytes : Payload) (rest : List Arrival)
    (hsel : h.pc = .select)
    (hj : marshal (joinMsg { ptr := ptr, UserID := userID, Username := username }) = .ok dj)
    (hin : a.incoming = .frame messageBytes) (hbig : maxMessageSize < messageBytes.length) :
    (ServeWS marshal (.ok ()) ptr q h userID username).pumps = true ∧
      (Client.readPump marshal unmarshal { ptr := ptr, UserID := userID, Username := username }
        (pumpAfterServe marshal h w ptr userID username q) (a :: rest)).pc = .atUnregister ∧
      (Client.readPump marshal unmarshal { ptr := ptr, UserID := userID, Username := username }
        (pumpAfterServe marshal h w ptr userID username q) (a :: rest)).world.hub.pc
          = .sendBroadcast dj ∧
      { ptr := ptr, UserID := userID, Username := username } ∈
        (Client.readPump marshal unmarshal { ptr := ptr, UserID := userID, Username := username }
          (pumpAfterServe marshal h w ptr userID username q) (a :: rest)).world.hub.clients ∧
      ((Client.readPump marshal unmarshal { ptr := ptr, UserID := userID, Username := username }
          (pumpAfterServe marshal h w ptr userID username q) (a :: rest)).world.hub.send
            { ptr := ptr, UserID := userID, Username := username }).closed = false ∧
      (∀ (c : Client) (s : Pump), s.pc = .reading → s.world.hub.pc = .select →
        (c.readPump marshal unmarshal s (a :: rest)).pc = .exited ∧
          (c.readPump marshal unmarshal s (a :: rest)).world.hub =
            s.world.hub.handle marshal (.unregister c)) := by
  have hserve := ServeWS_parks marshal h ptr userID username q dj hsel hj
  refine ⟨by rw [hserve], ?_, ?_, ?_, ?_, ?_⟩
  · rw [readPump_oversized marshal unmarshal _ _ a messageBytes rest rfl hin hbig]
    simp [Client.readPumpExit, pumpAfterServe, hserve]
  · rw [readPump_oversized marshal unmarshal _ _ a messageBytes rest rfl hin hbig]
    simp [Client.readPumpExit, pumpAfterServe, hserve]
  · rw [readPump_oversized marshal unmarshal _ _ a messageBytes rest rfl hin hbig]
    simp only [Client.readPumpExit, pumpAfterServe, hserve]
    exact mem_insertClient_self _ _
  · rw [readPump_oversized marshal unmarshal _ _ a messageBytes rest rfl hin hbig]
    simp [Client.readPumpExit, pumpAfterServe, hserve, setChan, Chan.fresh]
  · intro c s hpc hhub
    rw [readPump_oversized marshal unmarshal c s a messageBytes rest hpc hin hbig]
    simp [Client.readPumpExit, hhub]

theorem oversized_frame_unregister_never_received_witness :
    (Client.readPump sampleMarshal sampleUnmarshal { ptr := 1, UserID := 7, Username := "ann" }
        (pumpAfterServe sampleMarshal NewHub emptyWorld 1 7 "ann" (.ok []))
        [oversized]).pc = .atUnregister :=
  (oversized_frame_unregister_never_received sampleMarshal sampleUnmarshal NewHub emptyWorld 1 7
    "ann" (.ok []) _ oversized (List.replicate 513 0) [] rfl rfl rfl
    (by rw [List.length_replicate]; decide)).2.1

/-- C22, evaluated on the code: the pump decodes with `json.Unmarshal` and never evaluates
the `binding` tag: every frame within the read limit that decodes is passed to
`SaveAndBroadcastMessage` with its text, valid or not, the empty text included; and a frame
longer than 512 bytes, as every frame that carries 1000 characters is, ends the pump with
nothing posted. -/
theorem unvalidated_text_is_posted (marshal : Marshal) (unmarshal : Unmarshal) (c : Client)
    (s : Pump) (a : Arrival) (messageBytes : Payload) (msg : SendMessageRequest)
    (hpc : s.pc = .reading) (hin : a.incoming = .frame messageBytes)
    (hlen : messageBytes.length ≤ maxMessageSize) (hok : unmarshal messageBytes = .ok msg) :
    (c.readPumpStep marshal unmarshal s a).posted =
        s.posted ++ [(c.UserID, c.Username, msg.Message)] ∧
      SendMessageRequest.valid { Message := "" } = false ∧
      (∀ (b : Arrival) (big : Payload) (rest : List Arrival), b.incoming = .frame big →
        maxMessageSize < big.length →
          (c.readPump marshal unmarshal s (b :: rest)).posted = s.posted ∧
            (c.readPump marshal unmarshal s (b :: rest)).pc ≠ .reading) := by
  refine ⟨readPumpStep_posts marshal unmarshal c s a messageBytes msg hpc hin hlen hok,
    by decide, fun b big rest hb hbig => ?_⟩
  rw [readPump_oversized marshal unmarshal c s b big rest hpc hb hbig]
  exact ⟨(readPumpExit_pc marshal c s).2, (readPumpExit_pc marshal c s).1⟩

theorem unvalidated_text_is_posted_witness :
    (ann.readPumpStep sampleMarshal sampleUnmarshal annPump emptyText).posted =
      annPump.posted ++ [(ann.UserID, ann.Username, "")] :=
  (unvalidated_text_is_posted sampleMarshal sampleUnmarshal ann annPump emptyText [123]
    { Message := "" } rfl rfl (by decide) rfl).1

/-! ## Orders -/

theorem createOrder_valid_iff (req : CreateOrderRequest) :
    req.valid = true ↔ 0 < req.ProductID ∧ 0 < req.Quantity := by
  unfold CreateOrderRequest.valid
  simp only [Bool.and_eq_true, decide_eq_true_eq]
  constructor
  · rintro ⟨⟨⟨_, h1⟩, _⟩, h2⟩; exact ⟨h1, h2⟩
  · rintro ⟨h1, h2⟩; exact ⟨⟨⟨by omega, h1⟩, by omega⟩, h2⟩

/-- The successful path of `CreateOrder`. -/
theorem createOrder_success (mul : MulFloat64) (req : CreateOrderRequest) (userID : Int)
    (now : Nat → Time) (s : Store) (product : Product) (hvalid : req.valid = true)
    (hfind : s.products.find? (fun p => decide (p.ID = req.ProductID)) = some product)
    (hstock : req.Quantity ≤ product.Stock) :
    OrderHandler.CreateOrder mul (.ok req) userID none now s =
      (.ok StatusCreated
         { Order :=
             { ID := s.nextOrderID, UserID := userID, ProductID := req.ProductID,
               Quantity := req.Quantity, Price := product.Price,
               Total := mul product.Price req.Quantity, Status := OrderStatusCompleted,
               CreatedAt := now 4, UpdatedAt := now 5 },
           Product := { product with Stock := product.Stock - req.Quantity } },
       { s with
           products := s.products.map fun (p : Product) =>
             if p.ID = req.ProductID then
               { p with Stock := p.Stock - req.Quantity, UpdatedAt := now 2 }
             else p,
           orders := (s.orders ++
             [({ ID := s.nextOrderID, UserID := userID, ProductID := req.ProductID,
                 Quantity := req.Quantity, Price := product.Price,
                 Total := mul product.Price req.Quantity, Status := OrderStatusPending,
                 CreatedAt := now 0, UpdatedAt := now 1 } : Order)]).map fun (o : Order) =>
             if o.ID = s.nextOrderID then
               { o with Status := OrderStatusCompleted, UpdatedAt := now 3 }
             else o,
           nextOrderID := s.nextOrderID + 1 }) := by
  have hns : ¬ product.Stock < req.Quantity := by omega
  simp [OrderHandler.CreateOrder, hvalid, hfind, hns]

/-- A reply of `CreateOrder` other than 201 comes with the store as it was. -/
theorem createOrder_store_or_created (mul : MulFloat64)
    (body : Except Error CreateOrderRequest) (userID : Int)
    (fault : Option OrderFault) (now : Nat → Time) (s : Store) :
    (OrderHandler.CreateOrder mul body userID fault now s).2 = s ∨
      (OrderHandler.CreateOrder mul body userID fault now s).1.status = 201 := by
  unfold OrderHandler.CreateOrder
  repeat' split
  all_goals first | exact Or.inl rfl | exact Or.inr rfl

theorem find?_id_mem {l : List Product} {id : Int} {product : Product}
    (hfind : l.find? (fun p => decide (p.ID = id)) = some product) :
    product ∈ l ∧ product.ID = id := by
  refine ⟨List.mem_of_find?_eq_some hfind, ?_⟩
  have := List.find?_some hfind
  simpa using this

theorem eq_of_id_eq {l : List Product} (hnd : (l.map (fun p => p.ID)).Nodup) {p q : Product}
    (hp : p ∈ l) (hq : q ∈ l) (hid : p.ID = q.ID) : p = q :=
  List.inj_on_of_nodup_map hnd hp hq hid

theorem find?_map_keepID (f : Product → Product) (hf : ∀ p, (f p).ID = p.ID) (id : Int) :
    ∀ l : List Product, (l.map f).find? (fun p => decide (p.ID = id)) =
      (l.find? (fun p => decide (p.ID = id))).map f := by
  intro l
  induction l with
  | nil => rfl
  | cons a t ih =>
    simp only [List.map_cons, List.find?_cons, hf]
    split
    · rfl
    · exact ih

theorem complete_new_order (orders : List Order) (pending : Order) (now : Time)
    (hfresh : ∀ o ∈ orders, o.ID < pending.ID) :
    (orders ++ [pending]).map (fun (o : Order) =>
        if o.ID = pending.ID then { o with Status := OrderStatusCompleted, UpdatedAt := now }
        else o) =
      orders ++ [{ pending with Status := OrderStatusCompleted, UpdatedAt := now }] := by
  rw [List.map_append]
  congr 1
  · conv_rhs => rw [← List.map_id orders]
    apply List.map_congr_left
    intro o ho
    have := hfresh o ho
    simp [Int.ne_of_lt this]
  · simp

/-- C25: for a store as the schema keeps it, a request with quantity > 0 for an existing
product (identifier > 0) whose stock is at least the quantity, no database operation failing:
the answer is 201; the orders are the former ones followed by one order with status
"completed" for the requesting user, that product and that quantity, at the price of the product
and with the `float64` product `mul` of price and quantity as its total; the stored stock of
that product is its former stock less the quantity; every other product row is unchanged. -/
theorem createOrder_reduces_stock (mul : MulFloat64) (req : CreateOrderRequest) (userID : Int)
    (now : Nat → Time) (s : Store) (product : Product) (hwf : s.WF)
    (hid : 0 < req.ProductID) (hq : 0 < req.Quantity)
    (hfind : s.products.find? (fun p => decide (p.ID = req.ProductID)) = some product)
    (hstock : req.Quantity ≤ product.Stock) :
    (OrderHandler.CreateOrder mul (.ok req) userID none now s).1.status = 201 ∧
      (OrderHandler.CreateOrder mul (.ok req) userID none now s).2.orders =
        s.orders ++
          [{ ID := s.nextOrderID, UserID := userID, ProductID := req.ProductID,
             Quantity := req.Quantity, Price := product.Price,
             Total := mul product.Price req.Quantity, Status := "completed",
             CreatedAt := now 0, UpdatedAt := now 3 }] ∧
      (OrderHandler.CreateOrder mul (.ok req) userID none now s).2.products.find?
          (fun p => decide (p.ID = req.ProductID)) =
        some { product with Stock := product.Stock - req.Quantity, UpdatedAt := now 2 } ∧
      (OrderHandler.CreateOrder mul (.ok req) userID none now s).2.products =
        s.products.map (fun p =>
          if p = product then { p with Stock := p.Stock - req.Quantity, UpdatedAt := now 2 }
          else p) := by
  have hvalid : req.valid = true := (createOrder_valid_iff req).mpr ⟨hid, hq⟩
  obtain ⟨hmem, hpid⟩ := find?_id_mem hfind
  rw [createOrder_success mul req userID now s product hvalid hfind hstock]
  refine ⟨rfl, ?_, ?_, ?_⟩
  · exact complete_new_order s.orders
      { ID := s.nextOrderID, UserID := userID, ProductID := req.ProductID,
        Quantity := req.Quantity, Price := product.Price,
        Total := mul product.Price req.Quantity, Status := OrderStatusPending,
        CreatedAt := now 0, UpdatedAt := now 1 } (now 3) hwf.2.2.2
  · show (s.products.map _).find? _ = _
    rw [find?_map_keepID _ (fun p => by split <;> rfl), hfind]
    simp [hpid]
  · show s.products.map _ = s.products.map _
    apply List.map_congr_left
    intro p hp
    by_cases hpp : p = product
    · simp [hpp, hpid]
    · have hne : p.ID ≠ req.ProductID := by
        intro h
        exact hpp (eq_of_id_eq hwf.1 hp hmem (h.trans hpid.symm))
      simp [hpp, hne]

theorem penStore_WF : penStore.WF := by
  refine ⟨by decide, by decide, ?_, ?_⟩
  · intro p hp
    simp [penStore] at hp
    subst hp
    decide
  · intro o ho
    simp [penStore] at ho

theorem createOrder_reduces_stock_witness :
    (OrderHandler.CreateOrder exactProduct (.ok { ProductID := 1, Quantity := 5 }) 2 none nine
        penStore).1.status = 201 ∧
      (OrderHandler.CreateOrder exactProduct (.ok { ProductID := 1, Quantity := 5 }) 2 none nine
        penStore).2.products.find? (fun p => decide (p.ID = 1)) =
          some { pen with Stock := pen.Stock - 5, UpdatedAt := nine 2 } :=
  have key := createOrder_reduces_stock exactProduct { ProductID := 1, Quantity := 5 } 2 nine
    penStore pen
    penStore_WF (by decide) (by decide) rfl (by decide)
  ⟨key.1, key.2.2.1⟩

/-- C26: a reply of `CreateOrder` other than 201 leaves the store exactly as it was (no order
row, no stock change), whatever failed; in particular: a quantity of 0 answers 400; a valid
request for a product identifier that is not in the table answers 404; a valid request for
more than the stock of the product answers 400 (the database itself not failing). -/
theorem createOrder_failure_keeps_store (mul : MulFloat64) (req : CreateOrderRequest)
    (userID : Int)
    (now : Nat → Time) (s : Store) :
    (∀ body fault, (OrderHandler.CreateOrder mul body userID fault now s).1.status ≠ 201 →
        (OrderHandler.CreateOrder mul body userID fault now s).2 = s) ∧
      (req.Quantity = 0 → ∀ fault,
        (OrderHandler.CreateOrder mul (.ok req) userID fault now s).1.status = 400 ∧
          (OrderHandler.CreateOrder mul (.ok req) userID fault now s).2 = s) ∧
      (req.valid = true →
        s.products.find? (fun p => decide (p.ID = req.ProductID)) = none →
        (OrderHandler.CreateOrder mul (.ok req) userID none now s).1.status = 404 ∧
          (OrderHandler.CreateOrder mul (.ok req) userID none now s).2 = s) ∧
      (req.valid = true → ∀ product,
        s.products.find? (fun p => decide (p.ID = req.ProductID)) = some product →
        product.Stock < req.Quantity →
        (OrderHandler.CreateOrder mul (.ok req) userID none now s).1.status = 400 ∧
          (OrderHandler.CreateOrder mul (.ok req) userID none now s).2 = s) := by
  refine ⟨fun body fault hne => ?_, fun hq fault => ?_, fun hvalid hfind => ?_,
    fun hvalid product hfind hlt => ?_⟩
  · rcases createOrder_store_or_created mul body userID fault now s with h | h
    · exact h
    · exact absurd h hne
  · have hinv : req.valid = false := by
      cases hv : req.valid with
      | false => rfl
      | true => have := ((createOrder_valid_iff req).mp hv).2; omega
    simp [OrderHandler.CreateOrder, hinv, Reply.status, StatusBadRequest]
  · simp [OrderHandler.CreateOrder, hvalid, hfind, Reply.status, StatusNotFound]
  · simp [OrderHandler.CreateOrder, hvalid, hfind, hlt, Reply.status, StatusBadRequest]

theorem createOrder_failure_keeps_store_witness :
    (OrderHandler.CreateOrder exactProduct (.ok { ProductID := 1, Quantity := 51 }) 2 none nine
        penStore).1.status = 400 ∧
      (OrderHandler.CreateOrder exactProduct (.ok { ProductID := 1, Quantity := 51 }) 2 none nine
        penStore).2 = penStore :=
  (createOrder_failure_keeps_store exactProduct { ProductID := 1, Quantity := 51 } 2 nine
    penStore).2.2.2
    (by decide) pen rfl (by decide)

/-! ## Products -/

theorem applyUpdate_ID (req : UpdateProductRequest) (id : Int) (now : Time) (p : Product) :
    (applyUpdate req id now p).ID = p.ID := by
  unfold applyUpdate
  repeat' split
  all_goals rfl

theorem applyUpdate_stock_nonneg (req : UpdateProductRequest) (id : Int) (now : Time)
    (p : Product) (hp : 0 ≤ p.Stock) : 0 ≤ (applyUpdate req id now p).Stock := by
  unfold applyUpdate
  by_cases hid : p.ID = id
  · by_cases hs : req.Stock ≥ 0
    · simp only [hid, if_true, hs]
    · simp only [hid, if_true, hs, if_false]
      repeat' split
      all_goals exact hp
  · simp only [hid, if_false]
    exact hp

theorem updateProduct_valid_stock (req : UpdateProductRequest) (hvalid : req.valid = true) :
    0 ≤ req.Stock := by
  unfold UpdateProductRequest.valid at hvalid
  simp only [Bool.and_eq_true, Bool.or_eq_true, decide_eq_true_eq] at hvalid
  rcases hvalid.2 with h | h
  · omega
  · exact h

/-- What `applyUpdate` leaves in the row it matches, for a validated request. -/
theorem applyUpdate_row (req : UpdateProductRequest) (id : Int) (now : Time) (p : Product)
    (hvalid : req.valid = true) (hid : p.ID = id) :
    applyUpdate req id now p =
      { p with
          Name := if req.Name = "" then p.Name else req.Name,
          Description := if req.Description = "" then p.Description else req.Description,
          Price := if req.Price > 0 then req.Price else p.Price,
          Stock := req.Stock,
          UpdatedAt := now } := by
  have hs : req.Stock ≥ 0 := updateProduct_valid_stock req hvalid
  unfold applyUpdate
  simp only [hid, if_true, hs]
  by_cases h1 : req.Name = "" <;> by_cases h2 : req.Description = "" <;>
    by_cases h3 : req.Price > 0 <;> simp [h1, h2, h3]

/-- C29: for a validated update request to an existing product, nothing failing: the rows
of the table are the former ones with the UPDATE applied; in the row of the product, name,
description and price keep their stored value when the request omits them (zero value), but
the stock becomes the stock of the request in every case, so a request that omits the stock
sets the stored stock to 0. -/
theorem updateProduct_overwrites_stock (idParam : String) (id : Int)
    (req : UpdateProductRequest) (now : Nat → Time) (s : Store) (p : Product)
    (hid : Atoi idParam = some id) (hvalid : req.valid = true) (hp : p ∈ s.products)
    (hpid : p.ID = id) :
    (ProductHandler.UpdateProduct idParam (.ok req) false false false now s).2.products =
        s.products.map (applyUpdate req id (now 0)) ∧
      (req.Name = "" → (applyUpdate req id (now 0) p).Name = p.Name) ∧
      (req.Description = "" → (applyUpdate req id (now 0) p).Description = p.Description) ∧
      (req.Price = 0 → (applyUpdate req id (now 0) p).Price = p.Price) ∧
      (applyUpdate req id (now 0) p).Stock = req.Stock ∧
      (req.Stock = 0 → (applyUpdate req id (now 0) p).Stock = 0) := by
  have hany : s.products.any (fun q => decide (q.ID = id)) = true :=
    List.any_eq_true.mpr ⟨p, hp, by simpa using hpid⟩
  rw [applyUpdate_row req id (now 0) p hvalid hpid]
  have hzero : ¬ (0 : Money) > 0 := by decide
  refine ⟨?_, fun h => by simp [h], fun h => by simp [h], fun h => by simp [h, hzero], rfl,
    fun h => h⟩
  simp [ProductHandler.UpdateProduct, hid, hvalid, hany]

theorem updateProduct_overwrites_stock_witness :
    (ProductHandler.UpdateProduct "1"
        (.ok { Name := "pencil", Description := "", Price := 0, Stock := 0 })
        false false false nine penStore).2.products =
      [{ pen with Name := "pencil", Stock := 0, UpdatedAt := 9 }] ∧ pen.Stock = 50 :=
  ⟨(updateProduct_overwrites_stock "1" 1
      { Name := "pencil", Description := "", Price := 0, Stock := 0 } nine penStore pen
      (by decide) (by decide) (by decide) rfl).1.trans (by decide), rfl⟩

/-! ## The stock of the products -/

theorem createProductRequest_valid_stock (req : CreateProductRequest)
    (hvalid : req.valid = true) : 0 ≤ req.Stock := by
  unfold CreateProductRequest.valid at hvalid
  simp only [Bool.and_eq_true, decide_eq_true_eq] at hvalid
  exact hvalid.2

theorem createProduct_inv (body : Except Error CreateProductRequest) (userID : Int)
    (execFails : Bool) (now : Nat → Time) (s : Store) (hwf : s.WF)
    (hns : ∀ p ∈ s.products, 0 ≤ p.Stock) :
    (ProductHandler.CreateProduct body userID execFails now s).2.WF ∧
      ∀ p ∈ (ProductHandler.CreateProduct body userID execFails now s).2.products,
        0 ≤ p.Stock := by
  unfold ProductHandler.CreateProduct
  cases body with
  | error err => exact ⟨hwf, hns⟩
  | ok req =>
    by_cases hv : req.valid = true
    · cases execFails with
      | true => simpa [hv] using And.intro hwf hns
      | false =>
        simp only [hv, not_true_eq_false, if_false, Bool.false_eq_true]
        refine ⟨⟨?_, hwf.2.1, ?_, hwf.2.2.2⟩, ?_⟩
        · show ((s.products ++ [_]).map (fun (p : Product) => p.ID)).Nodup
          rw [List.map_append, List.nodup_append]
          refine ⟨hwf.1, by simp, ?_⟩
          intro a ha hb
          rcases List.mem_map.mp ha with ⟨p, hp, rfl⟩
          have h1 := hwf.2.2.1 p hp
          simp only [List.map_cons, List.map_nil, List.mem_singleton] at hb
          omega
        · intro p hp
          show p.ID < s.nextProductID + 1
          rcases List.mem_append.mp hp with h | h
          · have := hwf.2.2.1 p h
            omega
          · simp only [List.mem_singleton] at h
            subst h
            show s.nextProductID < s.nextProductID + 1
            omega
        · intro p hp
          rcases List.mem_append.mp hp with h | h
          · exact hns p h
          · simp only [List.mem_singleton] at h
            subst h
            exact createProductRequest_valid_stock req hv
    · simpa [hv] using And.intro hwf hns

theorem map_applyUpdate_ids (req : UpdateProductRequest) (id : Int) (now : Time)
    (l : List Product) :
    (l.map (applyUpdate req id now)).map (fun p => p.ID) = l.map (fun p => p.ID) := by
  rw [List.map_map]
  apply List.map_congr_left
  intro p _
  exact applyUpdate_ID req id now p

theorem updateProduct_store (idParam : String) (body : Except Error UpdateProductRequest)
    (checkFails execFails getFails : Bool) (now : Nat → Time) (s : Store) :
    (ProductHandler.UpdateProduct idParam body checkFails execFails getFails now s).2 = s ∨
      ∃ (req : UpdateProductRequest) (id : Int),
        (ProductHandler.UpdateProduct idParam body checkFails execFails getFails now s).2 =
          { s with products := s.products.map (applyUpdate req id (now 0)) } := by
  unfold ProductHandler.UpdateProduct
  repeat' split
  all_goals first | exact Or.inl rfl | exact Or.inr ⟨_, _, rfl⟩

theorem updateProduct_inv (idParam : String) (body : Except Error UpdateProductRequest)
    (checkFails execFails getFails : Bool) (now : Nat → Time) (s : Store) (hwf : s.WF)
    (hns : ∀ p ∈ s.products, 0 ≤ p.Stock) :
    (ProductHandler.UpdateProduct idParam body checkFails execFails getFails now s).2.WF ∧
      ∀ p ∈ (ProductHandler.UpdateProduct idParam body checkFails execFails getFails
        now s).2.products, 0 ≤ p.Stock := by
  rcases updateProduct_store idParam body checkFails execFails getFails now s with
    h | ⟨req, id, h⟩
  · rw [h]; exact ⟨hwf, hns⟩
  · rw [h]
    refine ⟨⟨?_, hwf.2.1, ?_, hwf.2.2.2⟩, ?_⟩
    · show ((s.products.map _).map (fun (p : Product) => p.ID)).Nodup
      rw [map_applyUpdate_ids]
      exact hwf.1
    · intro p hp
      rcases List.mem_map.mp hp with ⟨q, hq, rfl⟩
      rw [applyUpdate_ID]
      exact hwf.2.2.1 q hq
    · intro p hp
      rcases List.mem_map.mp hp with ⟨q, hq, rfl⟩
      exact applyUpdate_stock_nonneg req id (now 0) q (hns q hq)

theorem createOrder_store (mul : MulFloat64) (body : Except Error CreateOrderRequest)
    (userID : Int)
    (fault : Option OrderFault) (now : Nat → Time) (s : Store) :
    (OrderHandler.CreateOrder mul body userID fault now s).2 = s ∨
      ∃ (req : CreateOrderRequest) (product : Product) (pending : Order),
        s.products.find? (fun p => decide (p.ID = req.ProductID)) = some product ∧
        ¬ product.Stock < req.Quantity ∧ pending.ID = s.nextOrderID ∧
        (OrderHandler.CreateOrder mul body userID fault now s).2 =
          { s with
              products := s.products.map fun (p : Product) =>
                if p.ID = req.ProductID then
                  { p with Stock := p.Stock - req.Quantity, UpdatedAt := now 2 }
                else p,
              orders := (s.orders ++ [pending]).map fun (o : Order) =>
                if o.ID = s.nextOrderID then
                  { o with Status := OrderStatusCompleted, UpdatedAt := now 3 }
                else o,
              nextOrderID := s.nextOrderID + 1 } := by
  cases body with
  | error err => exact Or.inl rfl
  | ok req =>
    by_cases hv : req.valid = true
    swap
    · left; simp [OrderHandler.CreateOrder, hv]
    cases hfind : s.products.find? (fun p => decide (p.ID = req.ProductID)) with
    | none =>
      left
      cases fault with
      | none => simp [OrderHandler.CreateOrder, hv, hfind]
      | some f => cases f <;> simp [OrderHandler.CreateOrder, hv, hfind]
    | some product =>
      by_cases hstock : product.Stock < req.Quantity
      · left
        cases fault with
        | none => simp [OrderHandler.CreateOrder, hv, hfind, hstock]
        | some f => cases f <;> simp [OrderHandler.CreateOrder, hv, hfind, hstock]
      · cases fault with
        | some f => left; cases f <;> simp [OrderHandler.CreateOrder, hv, hfind, hstock]
        | none =>
          right
          rw [createOrder_success mul req userID now s product hv hfind (by omega)]
          exact ⟨req, product, _, hfind, hstock, rfl, rfl⟩

theorem createOrder_inv (mul : MulFloat64) (body : Except Error CreateOrderRequest)
    (userID : Int)
    (fault : Option OrderFault) (now : Nat → Time) (s : Store) (hwf : s.WF)
    (hns : ∀ p ∈ s.products, 0 ≤ p.Stock) :
    (OrderHandler.CreateOrder mul body userID fault now s).2.WF ∧
      ∀ p ∈ (OrderHandler.CreateOrder mul body userID fault now s).2.products, 0 ≤ p.Stock := by
  rcases createOrder_store mul body userID fault now s with
    h | ⟨req, product, pending, hfind, hstock, hpend, h⟩
  · rw [h]; exact ⟨hwf, hns⟩
  · rw [h]
    obtain ⟨hmem, hpid⟩ := find?_id_mem hfind
    refine ⟨⟨?_, ?_, ?_, ?_⟩, ?_⟩
    · show ((s.products.map _).map (fun (p : Product) => p.ID)).Nodup
      rw [List.map_map]
      have : (s.products.map ((fun (p : Product) => p.ID) ∘ fun (p : Product) =>
          if p.ID = req.ProductID then
            { p with Stock := p.Stock - req.Quantity, UpdatedAt := now 2 }
          else p)) = s.products.map (fun p => p.ID) := by
        apply List.map_congr_left
        intro p _
        simp only [Function.comp]
        split <;> rfl
      rw [this]
      exact hwf.1
    · show (((s.orders ++ [pending]).map _).map (fun (o : Order) => o.ID)).Nodup
      rw [List.map_map]
      have : ((s.orders ++ [pending]).map ((fun (o : Order) => o.ID) ∘ fun (o : Order) =>
          if o.ID = s.nextOrderID then
            { o with Status := OrderStatusCompleted, UpdatedAt := now 3 }
          else o)) = (s.orders ++ [pending]).map (fun o => o.ID) := by
        apply List.map_congr_left
        intro o _
        simp only [Function.comp]
        split <;> rfl
      rw [this, List.map_append, List.nodup_append]
      refine ⟨hwf.2.1, by simp, ?_⟩
      intro a ha hb
      rcases List.mem_map.mp ha with ⟨o, ho, rfl⟩
      have h1 := hwf.2.2.2 o ho
      simp only [List.map_cons, List.map_nil, List.mem_singleton] at hb
      omega
    · intro p hp
      rcases List.mem_map.mp hp with ⟨q, hq, rfl⟩
      have := hwf.2.2.1 q hq
      show (if q.ID = req.ProductID then _ else q).ID < s.nextProductID
      split <;> exact this
    · intro o ho
      rcases List.mem_map.mp ho with ⟨q, hq, rfl⟩
      show (if q.ID = s.nextOrderID then _ else q).ID < s.nextOrderID + 1
      have hlt : q.ID < s.nextOrderID + 1 := by
        rcases List.mem_append.mp hq with h1 | h1
        · have := hwf.2.2.2 q h1
          omega
        · simp only [List.mem_singleton] at h1
          subst h1
          omega
      split <;> exact hlt
    · intro p hp
      rcases List.mem_map.mp hp with ⟨q, hq, rfl⟩
      by_cases hqid : q.ID = req.ProductID
      · have hqp : q = product := eq_of_id_eq hwf.1 hq hmem (hqid.trans hpid.symm)
        simp only [hqid, if_true]
        show 0 ≤ q.Stock - req.Quantity
        rw [hqp]
        omega
      · simp only [hqid, if_false]
        exact hns q hq

theorem handle_inv (mul : MulFloat64) (s : Store) (r : ShopRequest) (hwf : s.WF)
    (hns : ∀ p ∈ s.products, 0 ≤ p.Stock) :
    (s.handle mul r).WF ∧ ∀ p ∈ (s.handle mul r).products, 0 ≤ p.Stock := by
  cases r with
  | createProduct body userID execFails now =>
    exact createProduct_inv body userID execFails now s hwf hns
  | updateProduct idParam body checkFails execFails getFails now =>
    exact updateProduct_inv idParam body checkFails execFails getFails now s hwf hns
  | createOrder body userID fault now =>
    exact createOrder_inv mul body userID fault now s hwf hns

theorem run_inv_stock (mul : MulFloat64) (requests : List ShopRequest) :
    ∀ s : Store, s.WF → (∀ p ∈ s.products, 0 ≤ p.Stock) →
      (s.run mul requests).WF ∧ ∀ p ∈ (s.run mul requests).products, 0 ≤ p.Stock := by
  induction requests with
  | nil => intro s hwf hns; exact ⟨hwf, hns⟩
  | cons r rest ih =>
    intro s hwf hns
    have h := handle_inv mul s r hwf hns
    exact ih (s.handle mul r) h.1 h.2

/-- C30: from a store as the schema keeps it (unique identifiers) in which every product has
stock >= 0, after any sequence of CreateProduct, UpdateProduct and CreateOrder requests
handled one at a time (each validated by its handler, any database operation allowed to fail),
every product has stock >= 0. -/
theorem stock_never_negative (mul : MulFloat64) (s : Store) (requests : List ShopRequest)
    (hwf : s.WF) (hns : ∀ p ∈ s.products, 0 ≤ p.Stock) :
    ∀ p ∈ (s.run mul requests).products, 0 ≤ p.Stock :=
  (run_inv_stock mul requests s hwf hns).2

theorem stock_never_negative_witness :
    (penStore.run exactProduct
        [.createOrder (.ok { ProductID := 1, Quantity := 50 }) 2 none nine,
         .createOrder (.ok { ProductID := 1, Quantity := 1 }) 2 none nine,
         .updateProduct "1" (.ok { Name := "", Description := "", Price := 0, Stock := 7 })
           false false false nine]).products.all (fun p => decide (0 ≤ p.Stock)) = true :=
  List.all_eq_true.mpr fun p hp =>
    decide_eq_true (stock_never_negative exactProduct penStore _ penStore_WF (by decide) p hp)

/-! ## Reading one order -/

theorem mem_joinOrders (s : Store) (keep : Order → Bool) (d : OrderWithDetails) :
    d ∈ joinOrders s keep ↔
      ∃ o ∈ s.orders, keep o = true ∧ ∃ p ∈ s.products, o.ProductID = p.ID ∧
        d = { order := o, ProductName := p.Name } := by
  unfold joinOrders
  simp only [List.mem_flatMap, List.mem_filter, List.mem_map, decide_eq_true_eq]
  constructor
  · rintro ⟨o, ⟨ho, hk⟩, p, ⟨hp, hop⟩, rfl⟩
    exact ⟨o, ho, hk, p, hp, hop, rfl⟩
  · rintro ⟨o, ho, hk, p, hp, hop, rfl⟩
    exact ⟨o, ⟨ho, hk⟩, p, ⟨hp, hop⟩, rfl⟩

/-- The filter of `GetOrder` on the orders. -/
theorem getOrder_keep_iff (ctx : Context) (id : Int) (o : Order) :
    (if ctx.role ≠ some RoleAdmin then
        decide (o.ID = id) && decide (some o.UserID = ctx.user_id)
      else decide (o.ID = id)) = true ↔
      o.ID = id ∧ (ctx.role = some RoleAdmin ∨ some o.UserID = ctx.user_id) := by
  by_cases hr : ctx.role = some RoleAdmin
  · simp [hr]
  · simp [hr]

/-- C27 (amended): `GetOrder` answers from the join of `orders` with `products`. For a numeric
order id and no database failure, the answer is 200 with an order of that id if and only if
such an order exists, the product it names still exists, and the caller is an admin or the
user_id of the order is the caller's; in every other case the answer is 404. A non-numeric
order id answers 400. -/
theorem getOrder_needs_product (idParam : String) (id : Int) (ctx : Context) (s : Store)
    (hid : Atoi idParam = some id) :
    ((∃ d, OrderHandler.GetOrder idParam ctx false s = .ok 200 d ∧ d.order ∈ s.orders ∧
          d.order.ID = id) ↔
        ∃ o ∈ s.orders, o.ID = id ∧ (ctx.role = some RoleAdmin ∨ some o.UserID = ctx.user_id) ∧
          ∃ p ∈ s.products, p.ID = o.ProductID) ∧
      ((¬ ∃ o ∈ s.orders, o.ID = id ∧
            (ctx.role = some RoleAdmin ∨ some o.UserID = ctx.user_id) ∧
            ∃ p ∈ s.products, p.ID = o.ProductID) →
        OrderHandler.GetOrder idParam ctx false s = .error 404 "Order not found") ∧
      (∀ (bad : String) (queryFails : Bool), Atoi bad = none →
        OrderHandler.GetOrder bad ctx queryFails s = .error 400 "Invalid order ID") := by
  have hhead : ∀ d, (joinOrders s (fun o =>
        if ctx.role ≠ some RoleAdmin then
          decide (o.ID = id) && decide (some o.UserID = ctx.user_id)
        else decide (o.ID = id))).head? = some d →
      OrderHandler.GetOrder idParam ctx false s = .ok 200 d := by
    intro d hd
    unfold OrderHandler.GetOrder
    simp only [hid, Bool.false_eq_true, if_false]
    rw [hd]
    rfl
  have hnone : (joinOrders s (fun o =>
        if ctx.role ≠ some RoleAdmin then
          decide (o.ID = id) && decide (some o.UserID = ctx.user_id)
        else decide (o.ID = id))).head? = none →
      OrderHandler.GetOrder idParam ctx false s = .error 404 "Order not found" := by
    intro hd
    unfold OrderHandler.GetOrder
    simp only [hid, Bool.false_eq_true, if_false]
    rw [hd]
    rfl
  have hex : (∃ o ∈ s.orders, o.ID = id ∧
        (ctx.role = some RoleAdmin ∨ some o.UserID = ctx.user_id) ∧
        ∃ p ∈ s.products, p.ID = o.ProductID) →
      ∃ d, (joinOrders s (fun o =>
        if ctx.role ≠ some RoleAdmin then
          decide (o.ID = id) && decide (some o.UserID = ctx.user_id)
        else decide (o.ID = id))).head? = some d := by
    rintro ⟨o, ho, hoid, hrole, p, hp, hpid⟩
    have hmem : ({ order := o, ProductName := p.Name } : OrderWithDetails) ∈
        joinOrders s (fun o =>
          if ctx.role ≠ some RoleAdmin then
            decide (o.ID = id) && decide (some o.UserID = ctx.user_id)
          else decide (o.ID = id)) :=
      (mem_joinOrders s _ _).mpr
        ⟨o, ho, (getOrder_keep_iff ctx id o).mpr ⟨hoid, hrole⟩, p, hp, hpid.symm, rfl⟩
    cases hl : joinOrders s (fun o =>
        if ctx.role ≠ some RoleAdmin then
          decide (o.ID = id) && decide (some o.UserID = ctx.user_id)
        else decide (o.ID = id)) with
    | nil => rw [hl] at hmem; exact absurd hmem (List.not_mem_nil _)
    | cons d t => exact ⟨d, rfl⟩
  refine ⟨⟨?_, ?_⟩, ?_, ?_⟩
  · rintro ⟨d, hd, _, _⟩
    cases hl : (joinOrders s (fun o =>
        if ctx.role ≠ some RoleAdmin then
          decide (o.ID = id) && decide (some o.UserID = ctx.user_id)
        else decide (o.ID = id))).head? with
    | none => rw [hnone hl] at hd; cases hd
    | some d0 =>
      have hmem := List.mem_of_mem_head? hl
      obtain ⟨o, ho, hk, p, hp, hop, _⟩ := (mem_joinOrders s _ _).mp hmem
      obtain ⟨hoid, hrole⟩ := (getOrder_keep_iff ctx id o).mp hk
      exact ⟨o, ho, hoid, hrole, p, hp, hop.symm⟩
  · intro h
    obtain ⟨d, hd⟩ := hex h
    have hmem := List.mem_of_mem_head? hd
    obtain ⟨o, ho, hk, p, hp, hop, hdeq⟩ := (mem_joinOrders s _ _).mp hmem
    obtain ⟨hoid, _⟩ := (getOrder_keep_iff ctx id o).mp hk
    refine ⟨d, hhead d hd, ?_, ?_⟩
    · rw [hdeq]; exact ho
    · rw [hdeq]; exact hoid
  · intro hno
    cases hl : (joinOrders s (fun o =>
        if ctx.role ≠ some RoleAdmin then
          decide (o.ID = id) && decide (some o.UserID = ctx.user_id)
        else decide (o.ID = id))).head? with
    | none => exact hnone hl
    | some d0 =>
      exfalso
      apply hno
      have hmem := List.mem_of_mem_head? hl
      obtain ⟨o, ho, hk, p, hp, hop, _⟩ := (mem_joinOrders s _ _).mp hmem
      obtain ⟨hoid, hrole⟩ := (getOrder_keep_iff ctx id o).mp hk
      exact ⟨o, ho, hoid, hrole, p, hp, hop.symm⟩
  · intro bad queryFails hbad
    simp [OrderHandler.GetOrder, hbad, StatusBadRequest]

theorem getOrder_needs_product_witness :
    (∃ d, OrderHandler.GetOrder "1" buyerCtx false soldStore = .ok 200 d ∧
        d.order ∈ soldStore.orders ∧ d.order.ID = 1) ∧
      OrderHandler.GetOrder "1" rootCtx false orphanStore = .error 404 "Order not found" ∧
      OrderHandler.GetOrder "x" rootCtx false soldStore = .error 400 "Invalid order ID" :=
  ⟨(getOrder_needs_product "1" 1 buyerCtx soldStore (by decide)).1.mpr (by decide),
   (getOrder_needs_product "1" 1 rootCtx orphanStore (by decide)).2.1 (by decide),
   (getOrder_needs_product "1" 1 rootCtx soldStore (by decide)).2.2 "x" false (by decide)⟩

/-- Counterexample to C27 as stated: after user 2 has ordered 5 pens and the pen has been
deleted through `DeleteProduct`, order 1 of user 2 is still in the table `orders`, yet
`GetOrder` answers 404 for it to an admin and to user 2. -/
theorem getOrder_existing_order_not_found :
    (∃ o ∈ orphanStore.orders, o.ID = 1 ∧ o.UserID = 2) ∧
      (ProductHandler.DeleteProduct "1" false soldStore).1.status = 200 ∧
      (OrderHandler.GetOrder "1" rootCtx false orphanStore).status = 404 ∧
      (OrderHandler.GetOrder "1" buyerCtx false orphanStore).status = 404 := by
  decide

/-! ## Registration -/

/-- C28: `Register` and roles. A request whose role is neither absent, "user" nor "admin"
answers 400 and the store is unchanged. For a request that passes the binding rules, with role
absent, "user" or "admin", and a password that can be hashed: if the lookup finds (or fails to
rule out) a user with that email or username the answer is 409 and the store is unchanged;
otherwise, the INSERT succeeding, the users are the former ones followed by one user with the
requested role, or "user" when the role is absent, and the answer is 201 with that role when the
token can be generated. -/
theorem register_roles (isEmail : String → Bool) (hash : String → Except Error String)
    (token : User → Except Error String) (req : RegisterRequest) (queryFails execFails : Bool)
    (now : Nat → Time) (s : Store) :
    (req.Role ≠ "" → req.Role ≠ "user" → req.Role ≠ "admin" →
        (AuthHandler.Register isEmail hash token (.ok req) queryFails execFails now s).1.status
            = 400 ∧
          (AuthHandler.Register isEmail hash token (.ok req) queryFails execFails now s).2
            = s) ∧
      (req.valid isEmail = true → (req.Role = "" ∨ req.Role = "user" ∨ req.Role = "admin") →
        ∀ hashed, hash req.Password = .ok hashed →
          ((queryFails = true ∨
              ∃ u ∈ s.users, u.Email = req.Email ∨ u.Username = req.Username) →
            AuthHandler.Register isEmail hash token (.ok req) queryFails execFails now s =
              (.error 409 "User with this email or username already exists", s)) ∧
          (queryFails = false →
            (∀ u ∈ s.users, u.Email ≠ req.Email ∧ u.Username ≠ req.Username) →
            execFails = false →
            (AuthHandler.Register isEmail hash token (.ok req) queryFails execFails now
                s).2.users =
              s.users ++
                [{ ID := s.nextUserID, Username := req.Username, Email := req.Email,
                   Password := hashed, Role := if req.Role = "" then "user" else req.Role,
                   CreatedAt := now 0, UpdatedAt := now 1 }] ∧
            ∀ tok,
              token { ID := s.nextUserID, Username := req.Username, Email := req.Email,
                      Password := "", Role := if req.Role = "" then "user" else req.Role,
                      CreatedAt := now 2, UpdatedAt := now 3 } = .ok tok →
              (AuthHandler.Register isEmail hash token (.ok req) queryFails execFails now
                  s).1 =
                .ok 201
                  { Token := tok,
                    User :=
                      { ID := s.nextUserID, Username := req.Username, Email := req.Email,
                        Password := "", Role := if req.Role = "" then "user" else req.Role,
                        CreatedAt := now 2, UpdatedAt := now 3 } })) := by
  refine ⟨fun h1 h2 h3 => ?_, fun hvalid hrole hashed hhash => ⟨fun hdup => ?_,
    fun hq hnodup he => ?_⟩⟩
  · by_cases hv : req.valid isEmail = true
    · simp [AuthHandler.Register, hv, h1, h2, h3, RoleUser, RoleAdmin, Reply.status,
        StatusBadRequest]
    · simp [AuthHandler.Register, hv, Reply.status, StatusBadRequest]
  · have hany : queryFails = true ∨
        ∃ u ∈ s.users, u.Email = req.Email ∨ u.Username = req.Username := hdup
    by_cases hr : req.Role = ""
    · simp [AuthHandler.Register, hvalid, hr, RoleUser, RoleAdmin, hhash, hany,
        StatusConflict]
    · rcases hrole with h | h | h
      · exact absurd h hr
      · simp [AuthHandler.Register, hvalid, h, RoleUser, RoleAdmin, hhash, hany,
          StatusConflict]
      · simp [AuthHandler.Register, hvalid, h, RoleUser, RoleAdmin, hhash, hany,
          StatusConflict]
  · have hany : ¬ ∃ u ∈ s.users, u.Email = req.Email ∨ u.Username = req.Username := by
      rintro ⟨u, hu, h⟩
      have := hnodup u hu
      rcases h with h | h
      · exact this.1 h
      · exact this.2 h
    subst hq he
    by_cases hr : req.Role = ""
    · refine ⟨?_, fun tok htok => ?_⟩
      · simp [AuthHandler.Register, hvalid, hr, RoleUser, RoleAdmin, hhash, hany]
        split <;> rfl
      · simp [hr] at htok
        simp [AuthHandler.Register, hvalid, hr, RoleUser, RoleAdmin, hhash, hany, htok,
          StatusCreated]
    · have hrole2 : req.Role = "user" ∨ req.Role = "admin" := by
        rcases hrole with h | h | h
        · exact absurd h hr
        · exact Or.inl h
        · exact Or.inr h
      have hok : ¬ (req.Role ≠ "user" ∧ req.Role ≠ "admin") := by
        rintro ⟨h1, h2⟩
        rcases hrole2 with h | h
        · exact h1 h
        · exact h2 h
      refine ⟨?_, fun tok htok => ?_⟩
      · simp [AuthHandler.Register, hvalid, hr, RoleUser, RoleAdmin, hhash, hany, hok]
        split <;> rfl
      · simp [hr] at htok
        simp [AuthHandler.Register, hvalid, hr, RoleUser, RoleAdmin, hhash, hany, hok, htok,
          StatusCreated]

theorem register_roles_witness :
    (AuthHandler.Register hasAt sampleHash sampleToken (.ok beaSignup) false false nine
        emptyStore).2.users =
      [{ ID := 1, Username := "bea", Email := "bea@x.io", Password := "#secret",
         Role := "user", CreatedAt := 9, UpdatedAt := 9 }] ∧
      (AuthHandler.Register hasAt sampleHash sampleToken
        (.ok { beaSignup with Role := "owner" }) false false nine emptyStore).1.status = 400 :=
  ⟨((register_roles hasAt sampleHash sampleToken beaSignup false false nine emptyStore).2
      (by decide) (by decide) "#secret" rfl).2 rfl (by decide) rfl |>.1,
   ((register_roles hasAt sampleHash sampleToken { beaSignup with Role := "owner" } false false
      nine emptyStore).1 (by decide) (by decide) (by decide)).1⟩

end ChatHub
